import Mathlib

/-!
Matrix Construct: the event model (`matrix/event.cc`), the acquirer
(`matrix/acquire.cc`), the client endpoints `createRoom` and `/messages`, and
utilities

A shallow embedding of the event functions of `src/matrix/event.cc`:
the redaction projection `m::essential` in its `m::event` and `json::iov`
forms, the content hash `event::hash`, `verify_hash`, signature verification
`m::verify`, `m::signatures`, event-ID derivation `make_id`, `check_id` and the
`event` constructor taking a room version; and of the acquirer of
`src/matrix/acquire.cc`: its constructor, the head and missing branches,
`submit`, `start` and `handle`; of `m::create` and `_create_event` of
`src/modules/client/createroom.cc`; of `pagination_tokens` and the scan of
`get__messages` of `src/modules/client/rooms/messages.cc`; of
`fs::aio::reqprio` of `src/ircd/aio.cc`; and of `split` and `substr` of
`src/include/ircd/js/string.h`.

Conventions of the embedding:

* A `json::object` is a view over JSON text which the code only ever iterates
  member by member; it is embedded as the sequence of its members in source
  order (duplicate keys are possible and are kept).
* A `string_view` that may be undefined is an `Option`.
* A C++ exception is the `error` alternative of `Except`, or the `raise`
  alternative of `outcome` where a call may also be left waiting.
* Output buffers (`mutable_buffer`) are taken to be large enough; the text a
  function writes into one is the value it returns here.
* Functions of the library that are not part of the embedded files (SHA-256,
  ed25519, `json::stringify`, the keys service, the fetch layer, the room
  store, the VM, the query string, the calls that commit events, the string
  engine) are parameters of the definitions.
* A loop that counts turns has its turns as an argument, and runs out of them
  as `blocked`.
-/

namespace ircd

/-- The exceptions the embedded code raises or catches by type. -/
inductive error where
  /-- Raised by `json::at` and `json::object::at`: `json::not_found`. -/
  | json_not_found
  /-- Raised by `std::array::at`: `std::out_of_range`. -/
  | out_of_range
  /-- The Matrix error `m::BAD_JSON`. -/
  | BAD_JSON
  /-- The Matrix error `m::NOT_FOUND`. -/
  | NOT_FOUND
  /-- The cancellation `ctx::interrupted`. -/
  | interrupted
  /-- Raised by `lex_cast` for a text that is not of the type: `bad_lex_cast`. -/
  | bad_lex_cast
  /-- The Matrix error `m::INVALID_MXID`. -/
  | INVALID_MXID
  /-- The Matrix error `m::BAD_PAGINATION`, with its message. -/
  | BAD_PAGINATION (what : String)
  /-- The Matrix error `m::ACCESS_DENIED`, with its message. -/
  | ACCESS_DENIED (what : String)
  /-- Raised by the database for a missing row: `db::not_found`. -/
  | db_not_found
  /-- Any other `m::error`: the HTTP status, the error code and the message. -/
  | m (status : Nat) (errcode errstr : String)
  /-- Any other `std::exception`, with its message. -/
  | other (what : String)
  deriving Repr, DecidableEq

/-- One octet. -/
abbrev byte := Fin 256

namespace json

/-- A JSON value as seen through the views of `ircd::json`: a string is the
text between its quotes, any other scalar is its literal text, and arrays and
objects are the sequences of their elements and members in source order. -/
inductive value where
  | lit (raw : String)
  | str (s : String)
  | arr (xs : List value)
  | obj (ms : List (String × value))
  deriving Repr, Inhabited

/-- The pair `json::object::member` (also `json::member`): key and value. -/
abbrev member := String × value

/-- The view `json::object`: its members in source order. -/
abbrev object := List member

/-- The call `json::object::has(key)` on a possibly undefined object. -/
def has (o : Option object) (key : String) : Bool :=
  match o with
  | none => false
  | some ms => ms.any (fun m => m.1 == key)

/-- The call `json::object::at(key)`: value of the first member named `key`;
raises `json::not_found` when there is none. -/
def object.at (ms : object) (key : String) : Except error value :=
  match ms.find? (fun m => m.1 == key) with
  | some m => .ok m.2
  | none => .error .json_not_found

/-- The call `json::object::at(key)` on a possibly undefined object. -/
def at_member (o : Option object) (key : String) : Except error value :=
  match o with
  | none => .error .json_not_found
  | some ms => object.at ms key

/-- The call `json::object::get(key)`: value of the first member named `key`,
undefined when there is none. -/
def object.get (ms : object) (key : String) : Option value :=
  (ms.find? (fun m => m.1 == key)).map (fun m => m.2)

mutual
/-- The text a value is a view of (insignificant whitespace dropped). -/
def value.text : value → String
  | .lit raw => raw
  | .str s => "\"" ++ s ++ "\""
  | .arr xs => "[" ++ text_elements xs ++ "]"
  | .obj ms => "\x7b" ++ text_members ms ++ "\x7d"
/-- The text of the elements of an array. -/
def text_elements : List value → String
  | [] => ""
  | x :: xs => x.text ++ (if xs.isEmpty then "" else ",") ++ text_elements xs
/-- The text of the members of an object. -/
def text_members : List (String × value) → String
  | [] => ""
  | (k, v) :: ms =>
    "\"" ++ k ++ "\":" ++ v.text ++ (if ms.isEmpty then "" else ",") ++ text_members ms
end

/-- The conversion `json::string{value}`: the text of a string without its
surrounding quotes, the text itself for any other value. -/
def string (v : value) : String :=
  match v with
  | .str s => s
  | v => v.text

/-- The conversion `json::string` of a possibly undefined value: an undefined
view stays empty. -/
def string_of (v : Option value) : String :=
  match v with
  | some v => string v
  | none => ""

/-- The view `json::object{value}` over a member's value: iterating anything
but an object fails in the parser. -/
def value.as_object (v : value) : Except error object :=
  match v with
  | .obj ms => .ok ms
  | _ => .error (.other "json::parse_error")

/-- The emission `json::stack::member{top, name, content.at(name)}` guarded by
`if(content.has(name))`: appends the member to the object being composed. -/
def stack.member_if_has (content : Option object) (top : object) (name : String) :
    Except error object :=
  if has content name then do
    let v ← at_member content name
    pure (top ++ [(name, v)])
  else
    pure top

end json

namespace m

/-- Modelled from the spec: the `json::tuple` of `m::event` is declared in
`ircd/m/event.h`, which is not among the sources; the members are those of the
spec's data model (§3 Event). Every member may be undefined. -/
structure event.tuple where
  auth_events : Option json.value := none
  content : Option json.object := none
  depth : Option Int := none
  event_id : Option String := none
  hashes : Option json.object := none
  origin : Option String := none
  origin_server_ts : Option Int := none
  prev_events : Option json.value := none
  redacts : Option String := none
  room_id : Option String := none
  sender : Option String := none
  signatures : Option json.object := none
  state_key : Option String := none
  type : Option String := none
  deriving Repr

/-- The class `m::event`: the tuple of JSON members (read by `json::get` and
`json::at`), the non-serialized `source` back-pointer and the `event_id`
slot. An `event::id` is a view of a string; the empty view is the unset id. -/
structure event where
  get : event.tuple := {}
  source : Option json.object := none
  event_id : String := ""
  deriving Repr

/-- The call `json::at<name>(event)` for a string member: raises
`json::not_found` when the member is undefined. -/
def tuple_at {α : Type} (x : Option α) : Except error α :=
  match x with
  | some a => .ok a
  | none => .error .json_not_found

/-- The function `ircd::m::essential(m::event, contentbuf)`
(`event.cc` lines 594-732). -/
def essential (event : event) : Except error m.event := do
  let type ← tuple_at event.get.type
  let content := event.get.content
  let event ←
    if type = "m.room.aliases" then
      if json.has content "aliases" then do
        let v ← json.at_member content "aliases"
        pure { event with get := { event.get with content := some [("aliases", v)] } }
      else pure event
    else if type = "m.room.create" then
      if json.has content "creator" then do
        let v ← json.at_member content "creator"
        pure { event with get := { event.get with content := some [("creator", v)] } }
      else pure event
    else if type = "m.room.history_visibility" then
      if json.has content "history_visibility" then do
        let v ← json.at_member content "history_visibility"
        pure { event with
          get := { event.get with content := some [("history_visibility", v)] } }
      else pure event
    else if type = "m.room.join_rules" then
      if json.has content "join_rule" then do
        let v ← json.at_member content "join_rule"
        pure { event with get := { event.get with content := some [("join_rule", v)] } }
      else pure event
    else if type = "m.room.member" then
      if json.has content "membership" then do
        let v ← json.at_member content "membership"
        pure { event with get := { event.get with content := some [("membership", v)] } }
      else pure event
    else if type = "m.room.power_levels" then do
      let top : json.object := []
      let top ← json.stack.member_if_has content top "ban"
      let top ← json.stack.member_if_has content top "events"
      let top ← json.stack.member_if_has content top "events_default"
      let top ← json.stack.member_if_has content top "kick"
      let top ← json.stack.member_if_has content top "redact"
      let top ← json.stack.member_if_has content top "state_default"
      let top ← json.stack.member_if_has content top "users"
      let top ← json.stack.member_if_has content top "users_default"
      pure { event with get := { event.get with content := some top } }
    else if type = "m.room.redaction" then
      pure { event with get := { event.get with redacts := none, content := some [] } }
    else
      pure { event with get := { event.get with content := some [] } }
  pure { event with get := { event.get with signatures := none } }

/-- The content keys the redaction algorithm keeps for an event type. -/
def essential_keys (type : String) : List String :=
  if type = "m.room.aliases" then ["aliases"]
  else if type = "m.room.create" then ["creator"]
  else if type = "m.room.history_visibility" then ["history_visibility"]
  else if type = "m.room.join_rules" then ["join_rule"]
  else if type = "m.room.member" then ["membership"]
  else if type = "m.room.power_levels" then
    ["ban", "events", "events_default", "kick", "redact", "state_default", "users",
      "users_default"]
  else []

end m

/-! ## Base64 and event IDs (library helpers used by `event.cc`) -/

/-- The alphabet of standard base64 (RFC 4648 §4). -/
def b64.dict : List Char :=
  "ABCDEFGHIJKLMNOPQRSTUVWXYZabcdefghijklmnopqrstuvwxyz0123456789+/".toList

/-- The character of a six-bit group. -/
def b64.sextet (n : Nat) : Char := b64.dict.getD n 'A'

/-- The base64 characters of an octet sequence, no padding. -/
def b64.chars : List byte → List Char
  | [] => []
  | [a] => [b64.sextet (a.val / 4), b64.sextet (a.val % 4 * 16)]
  | [a, b] =>
    [b64.sextet (a.val / 4), b64.sextet (a.val % 4 * 16 + b.val / 16),
      b64.sextet (b.val % 16 * 4)]
  | a :: b :: c :: rest =>
    b64.sextet (a.val / 4) :: b64.sextet (a.val % 4 * 16 + b.val / 16) ::
      b64.sextet (b.val % 16 * 4 + c.val / 64) :: b64.sextet (c.val % 64) :: b64.chars rest

/-- Modelled from the spec: `ircd::b64encode_unpadded` is not among the
sources; the spec's "unpadded-base64" is standard-alphabet base64 without the
trailing `=` padding. -/
def b64encode_unpadded (h : List byte) : String := String.mk (b64.chars h)

/-- The character replacement of the URL-safe alphabet. -/
def b64.urlchar (c : Char) : Char :=
  if c = '+' then '-' else if c = '/' then '_' else c

/-- Modelled from the spec: `ircd::b64tob64url` is not among the sources; the
spec's "base64url-of-unpadded" replaces `+` by `-` and `/` by `_`. -/
def b64tob64url (s : String) : String := String.mk (s.toList.map b64.urlchar)

/-- The digest `sha256::buf`. -/
abbrev sha256.buf := List byte

/-- The signature `ed25519::sig`. -/
abbrev ed25519.sig := List byte

/-- The public key `ed25519::pk`. -/
abbrev ed25519.pk := List byte

namespace m

/-- Modelled from the spec: the constructor `id::event{buf, local, host}` is
not among the sources; per §3 an event ID is the sigil `$`, the local part and,
for the versions that have one, `:` and the server. -/
def id.event.make (loc host : String) : String :=
  if host = "" then "$" ++ loc else "$" ++ loc ++ ":" ++ host

/-- The validating constructor `event::id{string_view}`: the view itself, or
an exception for a string that is not an event ID. The grammar is not among
the sources and is the parameter `valid`. -/
def id.event.of (valid : String → Bool) (s : String) : Except error String :=
  if valid s then .ok s else .error (.other "INVALID_MXID")

/-- The test `m.first == ...` of `event::hash`: the members left out of the
content hash. -/
def event.hash.skipped (name : String) : Bool :=
  name == "signatures" || name == "hashes" || name == "unsigned" || name == "age_ts" ||
    name == "outlier" || name == "destinations"

/-- The loop of `event::hash` over the members of the source: `member` holds
the entries assigned so far (its length is the index `i`), and
`member.at(i++) = m` raises `std::out_of_range` once the array of `iov_max`
entries is full. -/
def event.hash.loop (iov_max : Nat) :
    json.object → List json.member → Except error (List json.member)
  | [], member => .ok member
  | m :: rest, member =>
    if event.hash.skipped m.1 then event.hash.loop iov_max rest member
    else if member.length < iov_max then event.hash.loop iov_max rest (member ++ [m])
    else .error .out_of_range

/-- The function `ircd::m::event::hash(const json::object &)` (`event.cc` lines
65-101). `iov_max` is `json::iov::max_size`; `sha256` and `stringify` (the
overload of `json::stringify` over a member range) are the library's. -/
def event.hash (iov_max : Nat) (sha256 : String → ircd.sha256.buf)
    (stringify : List json.member → String) (event : json.object) : Except error ircd.sha256.buf :=
  match m.event.hash.loop iov_max event [] with
  | .ok member => .ok (sha256 (stringify member))
  | .error .out_of_range => .error .BAD_JSON
  | .error e => .error e

/-- The function `ircd::m::hash(const event &)` (`event.cc` lines 115-132).
`stringify_event` is the library's `stringify(buf, m::event)`. -/
def hash (iov_max : Nat) (sha256 : String → ircd.sha256.buf)
    (stringify : List json.member → String) (stringify_event : event → String)
    (event : event) : Except error ircd.sha256.buf :=
  match event.source with
  | some source => m.event.hash iov_max sha256 stringify source
  | none =>
    let event_ : m.event := { event with get := { event.get with
      signatures := none, hashes := none } }
    .ok (sha256 (stringify_event event_))

/-- The function `ircd::m::verify_sha256b64` (`event.cc` lines 158-178): the
handler catches `json::not_found` only. -/
def verify_sha256b64 (event : event) (b64 : String) : Except error Bool :=
  match (do
    let object ← tuple_at event.get.hashes
    let hash ← json.object.at object "sha256"
    pure (json.string hash == b64) : Except error Bool) with
  | .error .json_not_found => .ok false
  | r => r

/-- The function `ircd::m::verify_hash(const event &, const sha256::buf &)`
(`event.cc` lines 145-156). -/
def verify_hash_with (event : event) (hash : ircd.sha256.buf) : Except error Bool :=
  verify_sha256b64 event (b64encode_unpadded hash)

/-- The function `ircd::m::verify_hash(const event &)` (`event.cc` lines
134-143). -/
def verify_hash (iov_max : Nat) (sha256 : String → ircd.sha256.buf)
    (stringify : List json.member → String) (stringify_event : event → String)
    (event : event) : Except error Bool := do
  let hash ← m.hash iov_max sha256 stringify stringify_event event
  verify_hash_with event hash

/-- The function `ircd::m::verify(event, pk, sig)` (`event.cc` lines 427-444).
`pk_verify` is `ed25519::pk::verify`. -/
def verify_pk_sig (stringify_event : event → String)
    (pk_verify : ed25519.pk → String → ed25519.sig → Bool)
    (event_ : event) (pk : ed25519.pk) (sig : ed25519.sig) : Except error Bool := do
  let event ← essential event_
  let preimage := stringify_event event
  pure (pk_verify pk preimage sig)

/-- The function `ircd::m::verify(event, pk, origin, keyid)` (`event.cc` lines
400-425). `b64decode` is the library's and may raise. -/
def verify_pk (stringify_event : event → String)
    (pk_verify : ed25519.pk → String → ed25519.sig → Bool)
    (b64decode : String → Except error ed25519.sig)
    (event : event) (pk : ed25519.pk) (origin keyid : String) : Except error Bool := do
  let signatures ← tuple_at event.get.signatures
  let origin_sigs ← (← json.object.at signatures origin).as_object
  let sig ← b64decode (json.string (← json.object.at origin_sigs keyid))
  verify_pk_sig stringify_event pk_verify event pk sig

/-- The function `ircd::m::verify(event, origin, keyid)` (`event.cc` lines
366-398). `node_key origin keyid` is the keys service `m::node{origin}.key`:
it raises, or returns without a key (the closure is not invoked), or invokes
the closure with the public key. The handler catches `m::NOT_FOUND` only. -/
def verify_keyid (stringify_event : event → String)
    (pk_verify : ed25519.pk → String → ed25519.sig → Bool)
    (b64decode : String → Except error ed25519.sig)
    (node_key : String → String → Except error (Option ed25519.pk))
    (event : event) (origin keyid : String) : Except error Bool :=
  match (do
    let ret := false
    match ← node_key origin keyid with
    | some pk => verify_pk stringify_event pk_verify b64decode event pk origin keyid
    | none => pure ret : Except error Bool) with
  | .error .NOT_FOUND => .ok false
  | r => r

/-- The loop of `m::verify(event, origin)` over the members of the origin's
signatures: the first key ID that verifies returns true. -/
def verify.loop (verify_keyid : String → Except error Bool) :
    json.object → Except error Bool
  | [] => .ok false
  | (host, _) :: rest => do
    if ← verify_keyid host then pure true
    else verify.loop verify_keyid rest

/-- The function `ircd::m::verify(event, origin)` (`event.cc` lines 345-364). -/
def verify (stringify_event : event → String)
    (pk_verify : ed25519.pk → String → ed25519.sig → Bool)
    (b64decode : String → Except error ed25519.sig)
    (node_key : String → String → Except error (Option ed25519.pk))
    (event : event) (origin : String) : Except error Bool := do
  let signatures ← tuple_at event.get.signatures
  let origin_sigs ← (← json.object.at signatures origin).as_object
  verify.loop (verify_keyid stringify_event pk_verify b64decode node_key event origin)
    origin_sigs

/-- The bound `SIG_MAX` of `m::signatures`. -/
def signatures.SIG_MAX : Nat := 64

/-- The loop of `m::signatures` over the signatures of the source event:
`sigs` holds the entries assigned so far (its length is the index `i`), and
`sigs.at(i++)` raises `std::out_of_range` once the array is full. -/
def signatures.loop (my_host : String → Bool) :
    json.object → List json.member → Except error (List json.member)
  | [], sigs => .ok sigs
  | (host, sig) :: rest, sigs =>
    if !my_host host then
      if sigs.length < signatures.SIG_MAX then
        signatures.loop my_host rest (sigs ++ [(host, sig)])
      else .error .out_of_range
    else signatures.loop my_host rest sigs

/-- The function `ircd::m::signatures(out, event)` (`event.cc` lines 204-254).
`my_host` is the predicate `my_host(string_view)`, `my_host_name` the result
of `my_host()`, `public_key_id` is `self::public_key_id`, `sign` signs with
this server's secret key, `stringify` is `json::stringify` over a member
range and `view` gives the members of the object it wrote. -/
def signatures (my_host : String → Bool) (my_host_name public_key_id : String)
    (sign : String → ed25519.sig) (stringify_event : event → String)
    (stringify : List json.member → String) (view : String → json.object)
    (event_ : event) : Except error event := do
  let event ← essential event_
  let preimage := stringify_event event
  let sig := sign preimage
  let origin := event.get.origin.getD ""
  let sig_host := if my_host origin then origin else my_host_name
  let my_sig : json.member :=
    (sig_host, .obj [(public_key_id, .str (b64encode_unpadded sig))])
  let sigs ← signatures.loop my_host (event_.get.signatures.getD []) [my_sig]
  let event := event_
  pure { event with get := { event.get with signatures := some (view (stringify sigs)) } }

/-- The function `ircd::m::make_id(event, version, buf, hash)` (`event.cc`
lines 757-793). -/
def make_id_hash (my_host_name : String) (_event : event) (version : String)
    (hash : List byte) : String :=
  if version = "1" || version = "2" then
    id.event.make (b64tob64url (b64encode_unpadded hash)) my_host_name
  else if version = "3" then
    id.event.make (b64encode_unpadded hash) ""
  else
    id.event.make (b64tob64url (b64encode_unpadded hash)) ""

/-- The function `ircd::m::make_id(event, version, buf)` (`event.cc` lines
734-755). `v3` and `v4` are the constructors `event::id::v3{buf, event}` and
`event::id::v4{buf, event}`, and `hash_of` the digest `sha256::buf{event}`;
none of them is among the sources. -/
def make_id (my_host_name : String) (hash_of : event → ircd.sha256.buf)
    (v3 v4 : event → Except error String) (event : event) (version : String) :
    Except error String :=
  if version = "1" || version = "2" then
    .ok (make_id_hash my_host_name event version (hash_of event))
  else if version = "3" then v3 event
  else v4 event

/-- The function `ircd::m::check_id(event, room_version)` (`event.cc` lines
810-848). `id_version` is `event::id::version()`. Every exception is
caught and gives false. -/
def check_id_version (valid : String → Bool) (id_version : String → String)
    (v3 v4 : event → Except error String) (event : event) (room_version : String) : Bool :=
  match (do
    let version := if room_version ≠ "" then room_version else id_version event.event_id
    let check_id ←
      if version = "1" || version = "2" then
        id.event.of valid (event.get.event_id.getD "")
      else if version = "3" then v3 event
      else v4 event
    pure (event.event_id == check_id) : Except error Bool) with
  | .ok r => r
  | .error _ => false

/-- The function `ircd::m::check_id(event)` (`event.cc` lines 795-808). -/
def check_id (valid : String → Bool) (id_version : String → String)
    (v3 v4 : event → Except error String) (event : event) : Bool :=
  if event.event_id = "" then false
  else check_id_version valid id_version v3 v4 event (id_version event.event_id)

/-- The constructor `event::event(const json::object &source, const id &)`
(`event.cc` lines 1093-1126). `tuple_of` is the `json::tuple` constructor
from an object. -/
def event.of_source_id (valid : String → Bool) (tuple_of : json.object → event.tuple)
    (source : json.object) (event_id : String) : Except error event := do
  let get := tuple_of source
  let event_id ←
    if event_id ≠ "" then pure event_id
    else match get.event_id with
      | some s => id.event.of valid s
      | none => pure ""
  pure { get := get, source := some source, event_id := event_id }

/-- The constructor `event::event(id::buf &, const json::object &source,
const string_view &version)` (`event.cc` lines 1071-1091). `v3` and `v4` are
the constructors `id::v3{buf, source}` and `id::v4{buf, source}`. -/
def event.of_source_version (valid : String → Bool) (tuple_of : json.object → event.tuple)
    (v3 v4 : json.object → Except error String) (source : json.object) (version : String) :
    Except error event := do
  let id ←
    if version = "1" then id.event.of valid (json.string_of (json.object.get source "event_id"))
    else if version = "2" then
      id.event.of valid (json.string_of (json.object.get source "event_id"))
    else if version = "3" then v3 source
    else if version = "4" then v4 source
    else if json.has (some source) "event_id" then do
      id.event.of valid (json.string (← json.object.at source "event_id"))
    else v4 source
  event.of_source_id valid tuple_of source id

end m

/-! ## The `json::iov` form of the redaction projection (`event.cc` lines 460-592) -/

namespace json

/-- The list `json::iov`: its members, the most recently pushed first. -/
abbrev iov := List member

/-- The default-constructed `json::value{}`: an undefined value, the view of
no text. -/
def undefined : value := .lit ""

/-- The call `json::iov::at(key)`: the value of the first member named `key`.
The function is the library's; like `json::object::at` it raises
`json::not_found` when there is no such member, which is what the handler of
`event::essential` logs and rethrows. -/
def iov.at (list : iov) (key : String) : Except error value :=
  match list.find? (fun x => x.1 == key) with
  | some x => .ok x.2
  | none => .error .json_not_found

/-- The assignment through the reference `iov.at(key)`: the value of the first
member named `key` is replaced. -/
def iov.assign : iov → String → value → iov
  | [], _, _ => []
  | x :: rest, key, v =>
    if x.1 == key then (x.1, v) :: rest else x :: iov.assign rest key v

/-- The scope guard `json::iov::push`: the member is linked into the list. -/
def iov.push (list : iov) (x : member) : iov := x :: list

/-- The end of the scope of the latest `json::iov::push`: its member is
unlinked. -/
def iov.pop (list : iov) : iov := list.tail

/-- The comparison `value == "literal"` of a member's value with a string. -/
def value.is (v : value) (s : String) : Bool :=
  match v with
  | .str t => t == s
  | _ => false

end json

namespace m

/-- The scope `const json::iov::push _content{event, {"content", content}};
closure(event);` of `event::essential`: the closure runs on the list with the
content member pushed, which is popped when the scope ends. The result pairs
what the closure returned or raised with the list after the scope. -/
def event.essential.with_content {α : Type} (event : json.iov) (content : json.value)
    (closure : json.iov → Except error α) : Except error α × json.iov :=
  let pushed := json.iov.push event ("content", content)
  (closure pushed, json.iov.pop pushed)

/-- The function `ircd::m::event::essential(json::iov &event, const json::iov
&contents, const closure_iov_mutable &closure)` (`event.cc` lines 460-592). The
closure observes the list (it does not modify it) and its result stands for
what it leaves in its captures. The handler logs and rethrows. -/
def event.essential {α : Type} (event contents : json.iov)
    (closure : json.iov → Except error α) : Except error α × json.iov :=
  match json.iov.at event "type" with
  | .error e => (.error e, event)
  | .ok type =>
    if type.is "m.room.aliases" then
      match json.iov.at contents "aliases" with
      | .error e => (.error e, event)
      | .ok v => m.event.essential.with_content event (.obj [("aliases", v)]) closure
    else if type.is "m.room.create" then
      match json.iov.at contents "creator" with
      | .error e => (.error e, event)
      | .ok v => m.event.essential.with_content event (.obj [("creator", v)]) closure
    else if type.is "m.room.history_visibility" then
      match json.iov.at contents "history_visibility" with
      | .error e => (.error e, event)
      | .ok v =>
        m.event.essential.with_content event (.obj [("history_visibility", v)]) closure
    else if type.is "m.room.join_rules" then
      match json.iov.at contents "join_rule" with
      | .error e => (.error e, event)
      | .ok v => m.event.essential.with_content event (.obj [("join_rule", v)]) closure
    else if type.is "m.room.member" then
      match json.iov.at contents "membership" with
      | .error e => (.error e, event)
      | .ok v => m.event.essential.with_content event (.obj [("membership", v)]) closure
    else if type.is "m.room.power_levels" then
      match (do
        let ban ← json.iov.at contents "ban"
        let events ← json.iov.at contents "events"
        let events_default ← json.iov.at contents "events_default"
        let kick ← json.iov.at contents "kick"
        let redact ← json.iov.at contents "redact"
        let state_default ← json.iov.at contents "state_default"
        let users ← json.iov.at contents "users"
        let users_default ← json.iov.at contents "users_default"
        pure [("ban", ban), ("events", events), ("events_default", events_default),
          ("kick", kick), ("redact", redact), ("state_default", state_default),
          ("users", users), ("users_default", users_default)] : Except error json.object) with
      | .error e => (.error e, event)
      | .ok members => m.event.essential.with_content event (.obj members) closure
    else if type.is "m.room.redaction" then
      match json.iov.at event "redacts" with
      | .error e => (.error e, event)
      | .ok temp =>
        let blanked := json.iov.assign event "redacts" json.undefined
        let (r, after) := m.event.essential.with_content blanked (.obj []) closure
        (r, json.iov.assign after "redacts" temp)
    else
      m.event.essential.with_content event (.obj []) closure

end m

/-! ## The acquirer (`matrix/acquire.cc`)

The acquirer object is embedded as a record passed from call to call. What it
waits for is a script: the list of the outcomes of the successive waits of
`handle()`, consumed one per wait. The record also keeps a history (the
requests started, the evaluations made, the size of the in-flight set after
each change), which the source does not have and no function reads. -/

/-- The conversion of an integer to `int64_t` (`long`): two's complement. -/
def i64 (x : Int) : Int := (x + 2 ^ 63) % 2 ^ 64 - 2 ^ 63

/-- The conversion of an integer to `uint64_t` (`size_t`, `event::idx`). -/
def u64 (x : Int) : Nat := (x % 2 ^ 64).toNat

/-- The function `std::clamp(v, lo, hi)`. -/
def clamp {α : Type} [LT α] [DecidableRel (fun a b : α => a < b)] (v lo hi : α) : α :=
  if v < lo then lo else if hi < v then hi else v

/-- The number `json::undefined_number` that `json::get` gives for an
undefined integer member: the least `long`. -/
def json.undefined_number : Int := -(2 ^ 63)

/-- How a call ends: it returns a value, an exception propagates out of it, or
it is still waiting when the script of wait outcomes is used up. -/
inductive outcome (α : Type) where
  | ret (a : α)
  | raise (e : error)
  | blocked
  deriving Repr

namespace m

namespace vm

/-- Modelled from the spec: `ircd/m/vm/fault.h` is not among the sources; the
faults are those of §4.5. -/
inductive fault where
  | ACCEPT | EXISTS | GENERAL | INVALID | AUTH | STATE | EVENT | BUF_OVERFLOW | INTERRUPT
  deriving Repr, DecidableEq

/-- Modelled from the spec: `ircd/m/vm/phase.h` is not among the sources; the
phases are those of the table of §4.5, and `FETCH_STATE`, which `acquire.cc`
names. -/
inductive phase where
  | EXECUTE | ISSUE | CONFORM | ACCESS | VERIFY | FETCH_AUTH | AUTH_STATIC | FETCH_PREV
  | FETCH_STATE | AUTH_RELATIVE | EVALUATE | INDEX | POST | NOTIFY | EFFECTS
  deriving Repr, DecidableEq

/-- Modelled from the spec: the regions `dbs::appendix` of the write appendix
(§6, persisted state layout). -/
inductive appendix where
  | ROOM_HEAD | ROOM_EVENTS | ROOM_STATE | EVENT_REFS | EVENT_JSON | KEYS
  deriving Repr, DecidableEq

/-- Modelled from the spec: `ircd/m/vm/opts.h` is not among the sources; the
members of `m::vm::opts` that `acquire.cc` assigns: the flag `infolog_accept`,
the mask `warnlog` over faults, the flag `notify_servers`, the bitset `phase`
and the bitset `wopts.appendix`. -/
structure opts where
  infolog_accept : Bool
  warnlog : fault → Bool
  notify_servers : Bool
  phase : phase → Bool
  wopts_appendix : appendix → Bool

end vm

namespace fetch

/-- The operation `fetch::op` of a request; the acquirer only asks for
`backfill`. -/
inductive op where
  | noop | auth | event | backfill
  deriving Repr, DecidableEq

/-- The members of `m::fetch::opts` that `acquire::start` assigns. -/
structure opts where
  op : op
  room_id : String
  event_id : String
  backfill_limit : Nat
  hint : String
  attempt_limit : Nat
  deriving Repr, DecidableEq

end fetch

namespace acquire

/-- Modelled from the spec: `m::acquire::opts` is declared in
`ircd/m/acquire.h`, which is not among the sources; the members are the inputs
of §4.4: the room, the ranges `ref` (event indexes), `depth` and `gap`,
`viewport_size`, `rounds`, `fetch_width`, the `hint` and the branch flags. (The structure is `opts` in
the source; the object's member of that name takes the name here.) -/
structure options where
  room_id : String := ""
  ref : Nat × Nat := (0, 2 ^ 64 - 1)
  depth : Int × Int := (0, 0)
  viewport_size : Nat := 0
  gap : Nat × Nat := (0, 2 ^ 64 - 1)
  rounds : Nat := 0
  fetch_width : Nat := 0
  hint : String := ""
  head : Bool := false
  missing : Bool := false
  deriving Repr

/-- The entry `acquire::result` of the in-flight list: the future, which
stands for the request it was started with, and the event ID. -/
structure result where
  future : fetch.opts
  event_id : String
  deriving Repr, DecidableEq

/-- What happens in `handle(result &)` for a ready future: what
`result.future.get()` returns or raises, what `ctx::interruption_point()`
does, and what `m::vm::eval` does with the pdus. -/
structure completion where
  response : Except error json.object
  interruption_point : Except error Unit
  eval : Except error Unit

/-- The outcome of the wait in `handle()`: `next.wait(timeout, std::nothrow)`
times out, or `ctx::when_any` yields the ready future, here the entry at
position `i` modulo the size of the in-flight list. -/
inductive wait where
  | timeout
  | ready (i : Nat) (c : completion)

/-- The surroundings of the acquirer: what `fetch::start` does with a request
and the default-constructed `m::vm::opts`. -/
structure env where
  fetch_start : fetch.opts → Except error Unit
  vm_default : vm.opts

/-- Modelled from the spec: the queries of the room store (§4.3), none of
which is among the sources: `m::top` (event ID, depth, index),
`m::viewport`, the enumeration `missing.for_each(depth_range, ...)` of
(event ID, ref depth, ref index), `room::events::count` over an index range,
`m::event_id(idx)`, `m::sounding` and `m::twain` of the room at a reference,
and the results `m::room::head::fetch` enumerates. Each enumerated item comes
with what `ctx::interruption_requested()` answers when the closure runs for
it. -/
structure store where
  top : String × Int × Nat
  viewport : Int × Int
  missing : Int × Int → List ((String × Int × Nat) × Bool)
  count : Nat × Nat → Nat
  event_id : Nat → String
  sounding : String → Int × Nat
  twain : String → Int × Nat
  head : List (event × Bool)

end acquire

/-- The object `m::acquire`: its options and the in-flight list `fetching`,
with the history: the requests `fetch::start` accepted, the evaluations
`m::vm::eval` was invoked for, the size of `fetching` after each
insertion and each removal, and the entries that `handle()` passed to
`handle(result &)` and erased. -/
structure acquire where
  opts : acquire.options
  fetching : List acquire.result := []
  requests : List fetch.opts := []
  evals : List (Option json.value × vm.opts) := []
  sizes : List Nat := []
  handled : List acquire.result := []

namespace acquire

/-- The function `ircd::m::acquire::full` (`acquire.cc` lines 447-452). -/
def full (a : acquire) : Bool := decide (a.fetching.length ≥ a.opts.fetch_width)

/-- The function `ircd::m::acquire::started` (`acquire.cc` lines 339-353). -/
def started (a : acquire) (event_id : String) : Bool :=
  (a.fetching.find? (fun result => result.event_id == event_id)).isSome

/-- The options `vmopts` that `handle(result &)` composes (`acquire.cc` lines
414-421) from the default-constructed ones. -/
def vmopts (default : vm.opts) : vm.opts :=
  let vmopts := default
  let vmopts := { vmopts with infolog_accept := true }
  let vmopts := { vmopts with
    warnlog := fun f => vmopts.warnlog f && !decide (f = vm.fault.EXISTS) }
  let vmopts := { vmopts with notify_servers := false }
  let vmopts := { vmopts with phase := Function.update vmopts.phase vm.phase.NOTIFY false }
  let vmopts := { vmopts with phase := Function.update vmopts.phase vm.phase.FETCH_PREV false }
  let vmopts := { vmopts with phase := Function.update vmopts.phase vm.phase.FETCH_STATE false }
  { vmopts with
    wopts_appendix := Function.update vmopts.wopts_appendix vm.appendix.ROOM_HEAD false }

/-- The body of the `try` block of `handle(result &)` (`acquire.cc` lines
391-428). -/
def handle_result.body (e : env) (a : acquire) (_result : result) (c : completion) :
    Except error Bool × acquire :=
  match c.response with
  | .error err => (.error err, a)
  | .ok body =>
    let pdus := json.object.get body "pdus"
    let vmopts := vmopts e.vm_default
    match c.interruption_point with
    | .error err => (.error err, a)
    | .ok _ =>
      let a := { a with evals := a.evals ++ [(pdus, vmopts)] }
      match c.eval with
      | .error err => (.error err, a)
      | .ok _ => (.ok true, a)

/-- The function `ircd::m::acquire::handle(result &)` (`acquire.cc` lines
387-445): `ctx::interrupted` is rethrown, any other exception is logged and
gives true. -/
def handle_result (e : env) (a : acquire) (result : result) (c : completion) :
    outcome Bool × acquire :=
  match handle_result.body e a result c with
  | (.ok r, a) => (.ret r, a)
  | (.error .interrupted, a) => (.raise .interrupted, a)
  | (.error _, a) => (.ret true, a)

/-- The function `ircd::m::acquire::handle()` (`acquire.cc` lines 355-385),
given the outcome `w` of its wait; no wait is made when the list is empty.
The `unique_iterator` erases the entry when its scope ends, also when
`handle(result &)` raises. -/
def handle (e : env) (a : acquire) (w : wait) : outcome Bool × acquire :=
  if a.fetching.isEmpty then (.ret false, a)
  else
    match w with
    | .timeout => (.ret (full a), a)
    | .ready i c =>
      let idx := i % a.fetching.length
      match a.fetching.get? idx with
      | none => (.ret (full a), a)
      | some result =>
        let (r, a) := handle_result e a result c
        let fetching := a.fetching.eraseIdx idx
        (r, { a with
          fetching := fetching, sizes := a.sizes ++ [fetching.length],
          handled := a.handled ++ [result] })

/-- The loop `while(handle());` over the script of wait outcomes. -/
def while_handle (e : env) : acquire → List wait → outcome Unit × acquire × List wait
  | a, [] => if a.fetching.isEmpty then (.ret (), a, []) else (.blocked, a, [])
  | a, w :: ws =>
    if a.fetching.isEmpty then (.ret (), a, w :: ws)
    else
      match handle e a w with
      | (.ret true, a) => while_handle e a ws
      | (.ret false, a) => (.ret (), a, ws)
      | (.raise err, a) => (.raise err, a, ws)
      | (.blocked, a) => (.blocked, a, ws)

/-- The request `fopts` that `acquire::start` composes (`acquire.cc` lines
307-313); `attempt_limit` is assigned the flag `hint_only`. -/
def start.fopts (a : acquire) (event_id hint : String) (hint_only : Bool) (limit : Nat) :
    fetch.opts :=
  { op := .backfill, room_id := a.opts.room_id, event_id := event_id,
    backfill_limit := limit, hint := hint, attempt_limit := if hint_only then 1 else 0 }

/-- The function `ircd::m::acquire::start` (`acquire.cc` lines 300-337):
`ctx::interrupted` is rethrown, any other exception of `fetch::start` is
logged and gives false. -/
def start (e : env) (a : acquire) (event_id hint : String) (hint_only : Bool) (limit : Nat) :
    outcome Bool × acquire :=
  let fopts := start.fopts a event_id hint hint_only limit
  match e.fetch_start fopts with
  | .ok _ =>
    let fetching := a.fetching ++ [{ future := fopts, event_id := event_id }]
    (.ret true, { a with
      fetching := fetching, requests := a.requests ++ [fopts],
      sizes := a.sizes ++ [fetching.length] })
  | .error .interrupted => (.raise .interrupted, a)
  | .error _ => (.ret false, a)

/-- The function `ircd::m::acquire::submit` (`acquire.cc` lines 281-298). -/
def submit (e : env) (a : acquire) (ws : List wait) (event_id hint : String)
    (hint_only : Bool) (limit : Nat) : outcome Bool × acquire × List wait :=
  match (if !started a event_id then start e a event_id hint hint_only limit
      else (.ret false, a)) with
  | (.ret ret, a) =>
    if ret || full a then
      match while_handle e a ws with
      | (.ret _, a, ws) => (.ret ret, a, ws)
      | (.raise err, a, ws) => (.raise err, a, ws)
      | (.blocked, a, ws) => (.blocked, a, ws)
    else (.ret ret, a, ws)
  | (.raise err, a) => (.raise err, a, ws)
  | (.blocked, a) => (.blocked, a, ws)

/-- The function `ircd::m::acquire::fetch_head` (`acquire.cc` lines 239-279). -/
def fetch_head (e : env) (a : acquire) (ws : List wait) (result : event) (top_depth : Int) :
    outcome Bool × acquire × List wait :=
  let depth := result.get.depth.getD json.undefined_number
  if depth < a.opts.depth.1 then (.ret false, a, ws)
  else
    let gap := i64 (depth - top_depth)
    let limit := clamp gap 1 48
    let hint := result.get.origin.getD ""
    match submit e a ws result.event_id hint true (u64 limit) with
    | (.ret _, a, ws) => (.ret true, a, ws)
    | (.raise err, a, ws) => (.raise err, a, ws)
    | (.blocked, a, ws) => (.blocked, a, ws)

/-- The enumeration of `m::room::head::fetch` with the closure of
`acquire_head`. The enumerator is not among the sources; as in
`missing.for_each`, whose closure returns false to stop at an interruption, a
false from the closure ends the enumeration. -/
def acquire_head.for_each (e : env) (top_depth : Int) :
    List (event × Bool) → acquire → List wait → outcome Unit × acquire × List wait
  | [], a, ws => (.ret (), a, ws)
  | (result, interruption_requested) :: rest, a, ws =>
    if interruption_requested then (.ret (), a, ws)
    else
      match fetch_head e a ws result top_depth with
      | (.ret true, a, ws) => acquire_head.for_each e top_depth rest a ws
      | (.ret false, a, ws) => (.ret (), a, ws)
      | (.raise err, a, ws) => (.raise err, a, ws)
      | (.blocked, a, ws) => (.blocked, a, ws)

/-- The function `ircd::m::acquire::acquire_head` (`acquire.cc` lines
215-237). -/
def acquire_head (e : env) (room : store) (a : acquire) (ws : List wait) :
    outcome Unit × acquire × List wait :=
  let top_depth := room.top.2.1
  acquire_head.for_each e top_depth room.head a ws

/-- The depth range of `fetch_missing` (`acquire.cc` lines 86-101). -/
def fetch_missing.depth_range (room : store) (a : acquire) : Int × Int :=
  let top_depth := room.top.2.1
  let depth_range := a.opts.depth
  let depth_range :=
    if depth_range.1 = 0 ∧ a.opts.viewport_size ≠ 0
    then (room.viewport.1, depth_range.2) else depth_range
  let depth_range := if depth_range.2 = 0 then (depth_range.1, top_depth) else depth_range
  if u64 (i64 (depth_range.2 - depth_range.1)) < a.opts.viewport_size
  then (i64 (depth_range.1 - min (i64 a.opts.viewport_size) depth_range.1), depth_range.2)
  else depth_range

/-- The variables the closure of `fetch_missing` captures by reference and
updates: `ref_top` and `ret`. -/
structure fetch_missing.vars where
  ref_top : Nat
  ret : Bool
  deriving Repr, DecidableEq

/-- The closure of `fetch_missing` (`acquire.cc` lines 110-208) for one
enumerated entry, after its interruption test; it returns true throughout. -/
def fetch_missing.closure (e : env) (room : store) (ref_min : Nat)
    (entry : String × Int × Nat) (v : fetch_missing.vars) (a : acquire) (ws : List wait) :
    outcome fetch_missing.vars × acquire × List wait :=
  let event_id := entry.1
  let ref_idx := entry.2.2
  if ref_idx < a.opts.ref.1 ∨ ref_idx < ref_min then (.ret v, a, ws)
  else if ref_idx > a.opts.ref.2 then (.ret v, a, ws)
  else if a.opts.viewport_size ≠ 0 ∧
      room.count (min ref_idx room.top.2.2, max ref_idx room.top.2.2) > a.opts.viewport_size
  then (.ret v, a, ws)
  else
    let ref_id := room.event_id ref_idx
    let sound := room.sounding ref_id
    let twain := if sound.2 = ref_idx then room.twain ref_id else (0, 0)
    let gap : Nat := if sound.1 ≥ twain.1 then u64 (i64 (sound.1 - twain.1)) else 0
    if gap < a.opts.gap.1 ∨ gap > a.opts.gap.2 then (.ret v, a, ws)
    else
      let limit := clamp gap 1 48
      match submit e a ws event_id a.opts.hint false limit with
      | (.ret submitted, a, ws) =>
        (.ret { ref_top := max v.ref_top ref_idx, ret := v.ret || submitted }, a, ws)
      | (.raise err, a, ws) => (.raise err, a, ws)
      | (.blocked, a, ws) => (.blocked, a, ws)

/-- The enumeration `missing.for_each(depth_range, closure)` of
`fetch_missing`: the closure returns false, which ends the enumeration, when
an interruption is requested. -/
def fetch_missing.for_each (e : env) (room : store) (ref_min : Nat) :
    List ((String × Int × Nat) × Bool) → fetch_missing.vars → acquire → List wait →
      outcome fetch_missing.vars × acquire × List wait
  | [], v, a, ws => (.ret v, a, ws)
  | (entry, interruption_requested) :: rest, v, a, ws =>
    if interruption_requested then (.ret v, a, ws)
    else
      match fetch_missing.closure e room ref_min entry v a ws with
      | (.ret v, a, ws) => fetch_missing.for_each e room ref_min rest v a ws
      | (.raise err, a, ws) => (.raise err, a, ws)
      | (.blocked, a, ws) => (.blocked, a, ws)

/-- The function `ircd::m::acquire::fetch_missing` (`acquire.cc` lines
73-213): it returns `ret` and the new value of the reference `ref_min`. -/
def fetch_missing (e : env) (room : store) (a : acquire) (ws : List wait) (ref_min : Nat) :
    outcome (Bool × Nat) × acquire × List wait :=
  let depth_range := fetch_missing.depth_range room a
  match fetch_missing.for_each e room ref_min (room.missing depth_range)
      { ref_top := ref_min, ret := false } a ws with
  | (.ret v, a, ws) => (.ret (v.ret, v.ref_top), a, ws)
  | (.raise err, a, ws) => (.raise err, a, ws)
  | (.blocked, a, ws) => (.blocked, a, ws)

/-- The loop of `acquire_missing` with `n` rounds left, `i` being the round;
`rooms i` is the room store as it is in round `i`. -/
def acquire_missing.loop (e : env) (rooms : Nat → store) :
    Nat → Nat → Nat → acquire → List wait → outcome Unit × acquire × List wait
  | 0, _, _, a, ws => (.ret (), a, ws)
  | n + 1, i, ref_min, a, ws =>
    match fetch_missing e (rooms i) a ws ref_min with
    | (.ret (ret, ref_min), a, ws) =>
      if !ret then (.ret (), a, ws)
      else if ref_min > a.opts.ref.2 then (.ret (), a, ws)
      else acquire_missing.loop e rooms n (i + 1) ref_min a ws
    | (.raise err, a, ws) => (.raise err, a, ws)
    | (.blocked, a, ws) => (.blocked, a, ws)

/-- The function `ircd::m::acquire::acquire_missing` (`acquire.cc` lines
55-71). -/
def acquire_missing (e : env) (rooms : Nat → store) (a : acquire) (ws : List wait) :
    outcome Unit × acquire × List wait :=
  acquire_missing.loop e rooms a.opts.rounds 0 a.opts.ref.1 a ws

/-- The loop `while(!fetching.empty()) while(handle());` of the constructor.
Each turn that finds the list not empty uses up a wait outcome or blocks, so
`n` turns suffice for a script of fewer than `n` outcomes. -/
def complete (e : env) : Nat → acquire → List wait → outcome Unit × acquire × List wait
  | 0, a, ws => (.blocked, a, ws)
  | n + 1, a, ws =>
    if a.fetching.isEmpty then (.ret (), a, ws)
    else
      match while_handle e a ws with
      | (.ret _, a, ws) => complete e n a ws
      | (.raise err, a, ws) => (.raise err, a, ws)
      | (.blocked, a, ws) => (.blocked, a, ws)

set_option linter.dupNamespace false in
/-- The constructor `ircd::m::acquire::acquire(const opts &)` (`acquire.cc`
lines 33-48): `room` is the store as the head branch finds it. -/
def acquire (e : env) (room : store) (rooms : Nat → store) (opts : options) (ws : List wait) :
    outcome Unit × m.acquire × List wait :=
  let a : m.acquire := { opts := opts }
  match (if opts.head then acquire_head e room a ws else (.ret (), a, ws)) with
  | (.ret _, a, ws) =>
    match (if opts.missing then acquire_missing e rooms a ws else (.ret (), a, ws)) with
    | (.ret _, a, ws) => complete e (ws.length + 1) a ws
    | (.raise err, a, ws) => (.raise err, a, ws)
    | (.blocked, a, ws) => (.blocked, a, ws)
  | (.raise err, a, ws) => (.raise err, a, ws)
  | (.blocked, a, ws) => (.blocked, a, ws)

end acquire
end m

open json m

/-! ## Utilities: `fs::aio::reqprio` (`aio.cc` lines 723-740) and the strings
of `ircd::js` (`js/string.h`) -/

/-- An `int` result: the value when it lies in the range of `int`, nothing
when the operation overflows. -/
def int.checked (x : Int) : Option Int :=
  if -(2 ^ 31) ≤ x ∧ x < 2 ^ 31 then some x else none

/-- The function `ircd::fs::aio::reqprio` (`aio.cc` lines 727-740). The
declaration of `MAX_REQPRIO` is not among the sources; it is a non-negative
number that the source converts with `int(...)`. The result is nothing when a
conversion or an operation leaves the range of `int` or the assertion
fails. -/
def fs.aio.reqprio ( MAX_REQPRIO : Nat) (input : Int) : Option Int := do
  let median ← int.checked ( MAX_REQPRIO / 2 : Nat)
  let low ← int.checked (0 - median)
  let input := max input low
  let input := min input median
  let sum ← int.checked (input + median)
  let max_reqprio ← int.checked MAX_REQPRIO
  let input ← int.checked (max_reqprio - sum)
  if input ≥ 0 ∧ input ≤ max_reqprio then some input else none

/-- A string of `ircd::js`: the sequence of its `char16_t` code units. -/
abbrev js.string := List Nat

/-- The function `ircd::js::size` (`js/string.h` lines 471-475). -/
def js.size (s : js.string) : Nat := s.length

/-- The function `ircd::js::at` (`js/string.h` lines 460-469): the code unit at
`pos`, or a `range_error` when there is none. -/
def js.at (s : js.string) (pos : Nat) : Except error Nat :=
  match s.get? pos with
  | some c => .ok c
  | none => .error (.other "index is out of range")

/-- The function `ircd::js::basic::substr` (`js/string.h` lines 424-436).
`JS_NewDependentString` is the engine's: it is given the string, the position
and the length, and `substr` raises `std::out_of_range` when it yields no
string. -/
def js.substr (JS_NewDependentString : js.string → Nat → Nat → Option js.string)
    (s : js.string) (pos len : Nat) : Except error js.string :=
  let _len := if len = 2 ^ 64 - 1 then u64 ((js.size s : Int) - pos) else len
  match JS_NewDependentString s pos _len with
  | some ret => .ok ret
  | none => .error .out_of_range

/-- The loop `for(; i < size(s) && at(s, i) != c; ++i);` of `split` with `n`
turns left: the index it stops at. -/
def js.split.loop (s : js.string) (c : Nat) : Nat → Nat → outcome Nat
  | 0, _ => .blocked
  | n + 1, i =>
    if i < js.size s then
      match js.at s i with
      | .error e => .raise e
      | .ok x => if x ≠ c then js.split.loop s c n (i + 1) else .ret i
    else .ret i

/-- The function `ircd::js::basic::split` for a `char16_t` (`js/string.h`
lines 410-422); the default-constructed string is the empty string. The loop
has one turn per code unit and one more to leave. -/
def js.split (JS_NewDependentString : js.string → Nat → Nat → Option js.string)
    (s : js.string) (c : Nat) : outcome (js.string × js.string) :=
  match js.split.loop s c (js.size s + 1) 0 with
  | .ret i =>
    match js.substr JS_NewDependentString s 0 i with
    | .error e => .raise e
    | .ok first =>
      if i < js.size s then
        match js.substr JS_NewDependentString s (i + 1) (js.size s - i) with
        | .error e => .raise e
        | .ok second => .ret (first, second)
      else .ret (first, [])
  | .raise e => .raise e
  | .blocked => .blocked

/-! ## The `/messages` endpoint (`modules/client/rooms/messages.cc`) -/

/-- What the handlers read of `resource::request`: the query string, whose
class `http::query::string` is not among the sources (`query_get` is its
`operator[]`, which yields the empty view for a missing parameter, `query_at`
its `at()`, which raises for one), and the user ID. -/
structure resource.request where
  query_get : String → String
  query_at : String → Except error String
  user_id : String := ""

/-- The surroundings of the `/messages` handler, none of which is among the
sources: `lex_cast<ushort>`, `url::decode` into an event ID buffer,
`room.visible`, the events `m::room::messages` iterates over from the token in
the direction (after the step that makes the token exclusive) with their
indexes, `visible(event, user)`, whether the filter decoded from the query is
empty, `match(filter, event)`, the item `max_filter_miss` and
`m::vm::current_sequence`. -/
structure messages.env where
  lex_cast_ushort : String → Except error Nat
  url_decode : String → Except error String
  room_visible : String → String → String → Bool
  messages : String → String → Char → List (event × Nat)
  visible : event → String → Bool
  filter_empty : String → Bool
  filter_match : String → event → Bool
  max_filter_miss : Nat := 2048
  current_sequence : Nat := 0

/-- The structure `pagination_tokens` (`messages.cc` lines 15-23); `limit` is
a `uint8_t`, the event ID buffers are empty when unset. -/
structure pagination_tokens where
  limit : Nat
  dir : Char
  from_ : String
  to_ : String
  deriving Repr, DecidableEq

/-- The initializer of `limit` (`messages.cc` lines 205-212): the narrowing
`uint8_t(lex_cast<ushort>(...))` of the parameter when it is not empty, 10
otherwise. -/
def pagination_tokens.limit_init (e : messages.env) (request : resource.request) :
    Except error Nat :=
  if request.query_get "limit" ≠ "" then do
    let text ← request.query_at "limit"
    let value ← e.lex_cast_ushort text
    pure (value % 2 ^ 8)
  else pure 10

/-- The initializers and the body of the constructor of `pagination_tokens`
(`messages.cc` lines 203-238), before its handlers. -/
def pagination_tokens.body (e : messages.env) (request : resource.request) :
    Except error pagination_tokens := do
  let limit ← pagination_tokens.limit_init e request
  let dir_text ← request.query_at "dir"
  let dir ← match dir_text.toList.head? with
    | some c => pure c
    | none => .error .out_of_range
  let from_text ← request.query_at "from"
  let from_ ← e.url_decode from_text
  let to_ ← if request.query_get "to" ≠ "" then do
      let to_text ← request.query_at "to"
      e.url_decode to_text
    else pure ""
  if dir ≠ 'b' ∧ dir ≠ 'f' then
    .error (.BAD_PAGINATION "query parameter 'dir' must be 'b' or 'f'")
  else pure { limit := limit, dir := dir, from_ := from_, to_ := to_ }

set_option linter.dupNamespace false in
/-- The constructor `pagination_tokens::pagination_tokens` (`messages.cc`
lines 203-252) with the handlers of its function try block. -/
def pagination_tokens.pagination_tokens (e : messages.env) (request : resource.request) :
    Except error pagination_tokens :=
  match pagination_tokens.body e request with
  | .ok page => .ok page
  | .error .bad_lex_cast => .error (.BAD_PAGINATION "query parameter 'limit' is invalid")
  | .error .INVALID_MXID =>
    .error (.BAD_PAGINATION "query parameter 'from' or 'to' is not a valid token")
  | .error err => .error err

/-- The variables of the scan of `get__messages`: the chunk, each appended
event with the `age` of its `unsigned`, the counters and the tokens. -/
structure get__messages.vars where
  chunk : List (event × Int) := []
  hit : Nat := 0
  miss : Nat := 0
  start : String := ""
  end_ : String := ""

/-- The function `_append` (`messages.cc` lines 176-200). -/
def _append (e : messages.env) (chunk : List (event × Int)) (ev : event)
    (event_idx : Nat) : List (event × Int) :=
  chunk ++ [(ev, i64 ((e.current_sequence : Int) - event_idx))]

/-- The scan of `get__messages` (`messages.cc` lines 130-160) over the events
the iterator yields; the variables are paired with what the scan raises, if
anything. -/
def get__messages.scan (e : messages.env) (request : resource.request)
    (page : pagination_tokens) (filter_query : String) :
    List (event × Nat) → get__messages.vars → Except error Unit × get__messages.vars
  | [], v => (.ok (), v)
  | (event, event_idx) :: rest, v =>
    if !e.visible event request.user_id then (.ok (), v)
    else
      match (if page.to_ ≠ "" then (tuple_at event.get.event_id).map (fun x => x == page.to_)
          else .ok false) with
      | .error err => (.error err, v)
      | .ok true =>
        match tuple_at event.get.event_id with
        | .error err => (.error err, v)
        | .ok event_id =>
          (.ok (), if page.dir ≠ 'b' then { v with start := event_id } else v)
      | .ok false =>
        let v : get__messages.vars :=
          if e.filter_empty filter_query || e.filter_match filter_query event
          then { v with chunk := _append e v.chunk event event_idx, hit := v.hit + 1 }
          else { v with miss := v.miss + 1 }
        if v.hit ≥ page.limit ∨ v.miss ≥ e.max_filter_miss then
          match tuple_at event.get.event_id with
          | .error err => (.error err, v)
          | .ok event_id =>
            (.ok (), if page.dir = 'b' then { v with end_ := event_id }
              else { v with start := event_id })
        else get__messages.scan e request page filter_query rest v

/-- The function `get__messages` (`messages.cc` lines 56-174): what it raises,
if anything, and the variables of the scan, from which the response is
composed. -/
def get__messages (e : messages.env) (request : resource.request) (room_id : String) :
    Except error Unit × get__messages.vars :=
  match pagination_tokens.pagination_tokens e request with
  | .error err => (.error err, {})
  | .ok page =>
    let filter_query := request.query_get "filter"
    if !e.room_visible room_id page.from_ request.user_id then
      (.error (.ACCESS_DENIED "You are not permitted to view the room at this event"), {})
    else
      get__messages.scan e request page filter_query (e.messages room_id page.from_ page.dir) {}

/-! ## Room creation (`modules/client/createroom.cc`) -/

/-- Whether the exception is an `m::error`, which the handler of the
invitation vector catches before `std::exception`. -/
def error.is_m : error → Bool
  | .BAD_JSON => true
  | .NOT_FOUND => true
  | .INVALID_MXID => true
  | .BAD_PAGINATION _ => true
  | .ACCESS_DENIED _ => true
  | .m _ _ _ => true
  | _ => false

/-- The array `spec_presets` (`createroom.cc` lines 53-59). -/
def spec_presets : List String := ["private_chat", "public_chat", "trusted_private_chat"]

/-- The function `spec_preset` (`createroom.cc` lines 61-65). -/
def spec_preset (preset : String) : Bool := spec_presets.contains preset

namespace m

/-- Modelled from the spec: the tuple `m::createroom` is declared in
`ircd/m/createroom.h`, which is not among the sources; the members are those
of the request body of §6 (`createRoom`) and the `room_id` the handler sets.
A string member is empty when undefined; `creator` and `room_id` are read with
`at`, which raises for an undefined member. -/
structure createroom where
  creator : Option String := none
  room_id : Option String := none
  preset : String := ""
  room_version : String := ""
  parent_room_id : String := ""
  creation_content : json.object := []
  power_level_content_override : Option json.object := none
  invite : List String := []
  initial_state : List json.object := []
  name : String := ""
  topic : String := ""
  is_direct : Bool := false
  guest_can_join : Bool := false
  visibility : String := ""

namespace create

/-- The calls `m::create` makes to code that is not among the sources:
`m::vm::eval{event, content, opts}` of `_create_event` (with `opts.verify`
false and the room version), `join(room, creator)`,
`room::power::compose_content` with the members its closure adds to `users`,
`send(room, sender, type, state_key, content)`, the constructor of
`m::user::id`, `invite(room, user_id, creator, content)` and
`rooms::summary::set(room_id, {})`. -/
inductive call where
  | eval (event content : json.iov) (room_version : String)
  | join (room_id user_id : String)
  | compose_content (users : List json.member)
  | send (room_id sender type state_key : String) (content : json.value)
  | user_id (text : String)
  | invite (room_id user_id sender : String) (content : json.iov)
  | summary_set (room_id : String)

/-- An argument of `fmt::sprintf`: a string or a `size_t`. -/
inductive arg where
  | str (s : String)
  | num (n : Nat)

/-- The surroundings of `m::create`: what each call raises, if anything, given
the calls made so far and what they raised; the content
`room::power::compose_content` composes; `json::value` of
`room::power::default_creator_level`; `valid(id::USER, ...)`; `trunc`; the
item `createroom::version_default`; `fmt::sprintf`; and `what()`, `errcode()`
and `errstr()` of an exception. -/
structure env where
  raises : List (call × Option error) → call → Option error
  compose_content : List json.member → json.object
  creator_level : json.value
  valid_user : String → Bool
  trunc : String → Nat → String
  version_default : String := "5"
  sprintf : String → List arg → String
  what : error → String
  errcode : error → String
  errstr : error → String

/-- What `m::create` leaves behind: the calls it made, each with what it
raised, and the `errors` array, if the caller passed one. -/
structure state where
  calls : List (call × Option error) := []
  errors : Option (List String) := none

/-- A step of `m::create`: it returns or raises, and leaves a state. -/
abbrev step (α : Type) := state → Except error α × state

/-- One of the calls: it is recorded with what it raised. -/
def run (e : env) (c : call) : step Unit := fun st =>
  match e.raises st.calls c with
  | none => (.ok (), { st with calls := st.calls ++ [(c, none)] })
  | some err => (.error err, { st with calls := st.calls ++ [(c, some err)] })

/-- The constructor `report_error::report_error` (`createroom.cc` lines
576-598): the message is appended to the array when there is one. -/
def report_error (e : env) (fmt : String) (args : List arg) : step Unit := fun st =>
  (.ok (), { st with errors := st.errors.map (fun errors => errors ++ [e.sprintf fmt args]) })

/-- A block `try body catch(const std::exception &e) handler`. -/
def try_catch (body : step Unit) (handler : error → step Unit) : step Unit := fun st =>
  match body st with
  | (.ok u, st) => (.ok u, st)
  | (.error err, st) => handler err st

/-- Two statements in sequence: the second runs when the first returns. -/
def seq (first second : step Unit) : step Unit := fun st =>
  match first st with
  | (.ok _, st) => second st
  | (.error err, st) => (.error err, st)

/-- The empty statement. -/
def skip : step Unit := fun st => (.ok (), st)

end create

/-- The event list `_create_event` composes (`createroom.cc` lines 523-529),
the most recently pushed member first. -/
def _create_event.event (room_id creator : String) : json.iov :=
  [("type", .str "m.room.create"), ("state_key", .str ""), ("sender", .str creator),
    ("depth", .lit "0"), ("room_id", .str room_id)]

/-- The content list `_create_event` composes (`createroom.cc` lines 504-560):
at most 16 members of `creation_content`, the creator, the preset as `type`
unless it is empty or `room`, and the room version. -/
def _create_event.content (c : createroom) (creator room_version : String) : json.iov :=
  let content : json.iov := (c.creation_content.take (min c.creation_content.length 16)).foldl
    json.iov.push []
  let content := json.iov.push content ("creator", .str creator)
  let content :=
    if c.preset ≠ "" ∧ c.preset ≠ "room" then json.iov.push content ("type", .str c.preset)
    else content
  json.iov.push content ("room_version", .str room_version)

/-- The function `ircd::m::_create_event` (`createroom.cc` lines 486-571). -/
def _create_event (e : create.env) (c : createroom) : create.step String := fun st =>
  match tuple_at c.creator with
  | .error err => (.error err, st)
  | .ok creator =>
    match tuple_at c.room_id with
    | .error err => (.error err, st)
    | .ok room_id =>
      let room_version := if c.room_version ≠ "" then c.room_version else e.version_default
      match create.run e (.eval (_create_event.event room_id creator)
          (_create_event.content c creator room_version) room_version) st with
      | (.ok _, st) => (.ok room_id, st)
      | (.error err, st) => (.error err, st)

namespace create

/-- The creator's join (`createroom.cc` lines 187-197), outside any handler. -/
def join (e : env) (room_id creator preset : String) : step Unit :=
  if preset = "" ∨ spec_preset preset then run e (.join room_id creator) else skip

/-- The members the closure passed to `compose_content` adds to `users`
(`createroom.cc` lines 213-236). -/
def power_levels.users (e : env) (c : createroom) (creator preset : String) :
    List json.member :=
  (creator, e.creator_level) ::
    (if preset ≠ "trusted_private_chat" then []
      else (c.invite.filter e.valid_user).map (fun user_id => (user_id, e.creator_level)))

/-- The initial power levels (`createroom.cc` lines 199-247). -/
def power_levels (e : env) (c : createroom) (room_id creator preset : String) : step Unit :=
  if preset = "" ∨ spec_preset preset then
    try_catch
      (match c.power_level_content_override with
        | some content => run e (.send room_id creator "m.room.power_levels" "" (.obj content))
        | none =>
          seq (run e (.compose_content (power_levels.users e c creator preset)))
            (run e (.send room_id creator "m.room.power_levels" ""
              (.obj (e.compose_content (power_levels.users e c creator preset))))))
      (fun err => report_error e "Failed to set power_levels: %s" [.str (e.what err)])
  else skip

/-- The initial join rules (`createroom.cc` lines 249-272). -/
def join_rules (e : env) (room_id creator preset : String) : step Unit :=
  let join_rule :=
    if preset = "private_chat" then "invite"
    else if preset = "trusted_private_chat" then "invite"
    else if preset = "public_chat" then "public"
    else "invite"
  if join_rule ≠ "invite" then
    try_catch
      (run e (.send room_id creator "m.room.join_rules" ""
        (.obj [("join_rule", .str join_rule)])))
      (fun err => report_error e "Failed to set join_rules: %s" [.str (e.what err)])
  else skip

/-- The value `history_visibility` (`createroom.cc` lines 276-282). -/
def history_visibility.value (preset : String) : String :=
  if preset = "private_chat" then "shared"
  else if preset = "trusted_private_chat" then "shared"
  else if preset = "public_chat" then "shared"
  else "shared"

/-- The initial history visibility (`createroom.cc` lines 274-297). -/
def history_visibility (e : env) (room_id creator preset : String) : step Unit :=
  if history_visibility.value preset ≠ "shared" then
    try_catch
      (run e (.send room_id creator "m.room.history_visibility" ""
        (.obj [("history_visibility", .str (history_visibility.value preset))])))
      (fun err => report_error e "Failed to set history_visibility: %s" [.str (e.what err)])
  else skip

/-- The value `guest_access` (`createroom.cc` lines 301-307). -/
def guest_access.value (preset : String) : String :=
  if preset = "private_chat" then "forbidden"
  else if preset = "trusted_private_chat" then "forbidden"
  else if preset = "public_chat" then "forbidden"
  else "forbidden"

/-- The initial guest access (`createroom.cc` lines 299-322). -/
def guest_access (e : env) (room_id creator preset : String) : step Unit :=
  if guest_access.value preset = "can_join" then
    try_catch
      (run e (.send room_id creator "m.room.guest_access" ""
        (.obj [("guest_access", .str "can_join")])))
      (fun err => report_error e "Failed to set guest_access: %s" [.str (e.what err)])
  else skip

/-- The loop over `initial_state` (`createroom.cc` lines 329-346); `i` is
incremented in the body and in the handler. -/
def initial_state (e : env) (room_id creator : String) : List json.object → Nat → step Unit
  | [], _ => skip
  | event :: rest, i =>
    seq
      (try_catch
        (run e (.send room_id creator (json.string_of (json.object.get event "type"))
          (json.string_of (json.object.get event "state_key"))
          ((json.object.get event "content").getD json.undefined)))
        (fun err => report_error e "Failed to set initial_state event @%zu: %s"
          [.num i, .str (e.what err)]))
      (initial_state e room_id creator rest (i + 1))

/-- The room name (`createroom.cc` lines 348-374). -/
def name (e : env) (c : createroom) (room_id creator : String) : step Unit :=
  if c.name ≠ "" then
    try_catch
      (run e (.send room_id creator "m.room.name" ""
        (.obj [("name", .str (e.trunc c.name 255))])))
      (fun err => report_error e "Failed to set room name: %s" [.str (e.what err)])
  else skip

/-- The topic (`createroom.cc` lines 376-391). -/
def topic (e : env) (c : createroom) (room_id creator : String) : step Unit :=
  if c.topic ≠ "" then
    try_catch
      (run e (.send room_id creator "m.room.topic" "" (.obj [("topic", .str c.topic)])))
      (fun err => report_error e "Failed to set room topic: %s" [.str (e.what err)])
  else skip

/-- The invitation vector (`createroom.cc` lines 393-433): an `m::error` is
reported and, in a direct room, rethrown; any other exception is reported. -/
def invite (e : env) (c : createroom) (room_id creator : String) : List String → step Unit
  | [] => skip
  | _user_id :: rest =>
    seq
      (try_catch
        (seq (run e (.user_id _user_id))
          (run e (.invite room_id _user_id creator
            (if c.is_direct then [("is_direct", .lit "true")] else []))))
        (fun err =>
          if err.is_m then
            seq (report_error e "Failed to invite user '%s' :%s :%s :%s"
                [.str _user_id, .str (e.what err), .str (e.errcode err), .str (e.errstr err)])
              (fun st => if c.is_direct then (.error err, st) else (.ok (), st))
          else report_error e "Failed to invite user '%s' :%s"
            [.str _user_id, .str (e.what err)]))
      (invite e c room_id creator rest)

/-- The guest access of `guest_can_join` (`createroom.cc` lines 435-450). -/
def guest_can_join (e : env) (c : createroom) (room_id creator preset : String) :
    step Unit :=
  if c.guest_can_join ∧ guest_access.value preset ≠ "can_join" then
    try_catch
      (run e (.send room_id creator "m.room.guest_access" ""
        (.obj [("guest_access", .str "can_join")])))
      (fun err => report_error e "Failed to set guest_access: %s" [.str (e.what err)])
  else skip

/-- The room directory (`createroom.cc` lines 452-467). -/
def visibility (e : env) (c : createroom) (room_id : String) : step Unit :=
  if c.visibility = "public" then
    try_catch (run e (.summary_set room_id))
      (fun err => report_error e "Failed to set public visibility: %s" [.str (e.what err)])
  else skip

/-- The statements of `m::create` after the creator's join (`createroom.cc`
lines 199-467). -/
def rest (e : env) (c : createroom) (room_id creator : String) : step Unit :=
  seq (power_levels e c room_id creator c.preset)
    (seq (join_rules e room_id creator c.preset)
      (seq (history_visibility e room_id creator c.preset)
        (seq (guest_access e room_id creator c.preset)
          (seq (initial_state e room_id creator c.initial_state 0)
            (seq (name e c room_id creator)
              (seq (topic e c room_id creator)
                (seq (invite e c room_id creator c.invite)
                  (seq (guest_can_join e c room_id creator c.preset)
                    (visibility e c room_id)))))))))

/-- The body of the function try block of `m::create` (`createroom.cc` lines
159-470). -/
def body (e : env) (c : createroom) : step String := fun st =>
  match tuple_at c.creator with
  | .error err => (.error err, st)
  | .ok creator =>
    match _create_event e c st with
    | (.error err, st) => (.error err, st)
    | (.ok room_id, st) =>
      match seq (join e room_id creator c.preset) (rest e c room_id creator) st with
      | (.ok _, st) => (.ok room_id, st)
      | (.error err, st) => (.error err, st)

end create

/-- The function `ircd::m::create` (`createroom.cc` lines 154-484): the room
it returns or what it raises, and the calls made and the `errors` array it
leaves. `db::not_found` becomes the `m::error` of a room in use. -/
def create (e : create.env) (c : createroom) (errors : Option (List String)) :
    Except error String × create.state :=
  match create.body e c { errors := errors } with
  | (.ok room, st) => (.ok room, st)
  | (.error .db_not_found, st) =>
    (.error (.m 409 "M_ROOM_IN_USE" "The desired room name is in use."), st)
  | (.error err, st) => (.error err, st)

end m

/-! ## Closed forms used in the statements and proofs -/

/-- The member `json::stack::member_if_has` appends for `name`, if any. -/
def json.pick (content : Option json.object) (name : String) : json.object :=
  match content with
  | none => []
  | some ms =>
    match ms.find? (fun m => m.1 == name) with
    | some m => [(name, m.2)]
    | none => []

/-- The members picked for a list of names, in the order of the names. -/
def json.project (content : Option json.object) : List String → json.object
  | [] => []
  | k :: ks => json.pick content k ++ json.project content ks

/-- The content `m::essential` leaves for an event of type `type`. -/
def m.essential_content (type : String) (content : Option json.object) : Option json.object :=
  if type = "m.room.aliases" then
    if json.has content "aliases" then some (json.pick content "aliases") else content
  else if type = "m.room.create" then
    if json.has content "creator" then some (json.pick content "creator") else content
  else if type = "m.room.history_visibility" then
    if json.has content "history_visibility" then some (json.pick content "history_visibility")
    else content
  else if type = "m.room.join_rules" then
    if json.has content "join_rule" then some (json.pick content "join_rule") else content
  else if type = "m.room.member" then
    if json.has content "membership" then some (json.pick content "membership") else content
  else if type = "m.room.power_levels" then
    some (json.project content (essential_keys "m.room.power_levels"))
  else some []

/-- The event `m::essential` returns for an event of type `t`. -/
def m.essential_result (t : String) (e : m.event) : m.event :=
  { e with get := { e.get with
      content := essential_content t e.get.content
      redacts := if t = "m.room.redaction" then none else e.get.redacts
      signatures := none } }

/-- The members `event::hash` keeps: all but the six stripped names. -/
def m.event.hash.kept (source : json.object) : json.object :=
  source.filter (fun m =>
    !decide (m.1 ∈ ["signatures", "hashes", "unsigned", "age_ts", "outlier", "destinations"]))

/-- Modelled from the spec: `event::id::version()` is not among the sources;
per §3 an ID of version 1 or 2 has a server part (`$<random>:<server>`), an ID
of version 3 is `$` and unpadded base64, an ID of version 4 `$` and base64url.
An ID with `:` is classed as "1", one without `:` that has a `+` or a `/` as
"3", any other as "4". -/
def m.id.event.version (id : String) : String :=
  if id.toList.contains ':' then "1"
  else if id.toList.contains '+' || id.toList.contains '/' then "3"
  else "4"

/-! ## Sample inputs -/

/-- A sample event as received: type, content, a sender, an origin and one
signature of the origin. -/
def sample.received (type : String) (content : json.object) : m.event :=
  { get := { type := some type,
             content := some content,
             sender := some "@alice:example.org",
             origin := some "example.org",
             redacts := some "$target:example.org",
             signatures := some [("example.org", .obj [("ed25519:1", .str "c2ln")])] } }

/-- The sample event after the redaction projection of a type other than
`m.room.redaction`. -/
def sample.projected (type : String) (content : json.object) : m.event :=
  { get := { type := some type,
             content := some content,
             sender := some "@alice:example.org",
             origin := some "example.org",
             redacts := some "$target:example.org",
             signatures := none } }

/-- A sample source object: three event members and the six members the
content hash leaves out. -/
def sample.source : json.object :=
  [("type", .str "m.room.create"), ("signatures", .obj [("example.org", .obj [])]),
    ("content", .obj [("creator", .str "@u:example.org")]), ("hashes", .obj []),
    ("unsigned", .obj []), ("age_ts", .lit "1"), ("outlier", .lit "true"),
    ("destinations", .arr []), ("depth", .lit "1")]

/-- A sample digest function: 32 octets, the first being the length of the text. -/
def sample.sha256 (s : String) : ircd.sha256.buf :=
  ⟨s.length % 256, Nat.mod_lt _ (by decide)⟩ :: List.replicate 31 0

/-- A sample serialization of a member range: the object's text. -/
def sample.stringify (ms : List json.member) : String :=
  (json.value.obj ms).text

/-- A sample event built from the sample source, with the `hashes` member that
matches the sample digest of its content-hash preimage. -/
def sample.hashed : m.event :=
  { get := { type := some "m.room.create",
             hashes := some [("sha256", .str (b64encode_unpadded (sample.sha256
               (sample.stringify (m.event.hash.kept sample.source)))))] },
    source := some sample.source }

/-- A sample event signed by its origin under two key IDs. -/
def sample.signed : m.event :=
  { get := { type := some "m.room.member",
             content := some [("membership", .str "join")],
             origin := some "example.org",
             signatures := some [("example.org",
               .obj [("ed25519:0", .str "AAAA"), ("ed25519:1", .str "c2ln")])] } }

/-- A sample serialization of an event: the text of its content. -/
def sample.stringify_event (e : m.event) : String :=
  sample.stringify (e.get.content.getD [])

/-- A sample decoder: the character codes of the text. -/
def sample.b64decode (s : String) : Except error ed25519.sig :=
  .ok (s.toList.map (fun c => ⟨c.toNat % 256, Nat.mod_lt _ (by decide)⟩))

/-- A sample keys service: it knows the key `ed25519:1` of every origin and
raises `NOT_FOUND` for any other key ID. -/
def sample.node_key (_origin keyid : String) : Except error (Option ed25519.pk) :=
  if keyid = "ed25519:1" then .ok (some [99, 50, 108, 110]) else .error .NOT_FOUND

/-- A sample keys service that knows the key `ed25519:1` of every origin and
whose lookup of any other key ID fails with a timeout. -/
def sample.node_key_timeout (_origin keyid : String) : Except error (Option ed25519.pk) :=
  if keyid = "ed25519:1" then .ok (some [99, 50, 108, 110]) else .error (.other "timeout")

/-- A sample signature check: the signature of a text under a key is the key
itself. -/
def sample.pk_verify (pk : ed25519.pk) (_preimage : String) (sig : ed25519.sig) : Bool :=
  sig == pk

/-- A sample predicate `my_host`: this server is `construct.test`. -/
def sample.my_host (host : String) : Bool := host == "construct.test"

/-- A sample signing function: four octets, the first being the length of the
text. -/
def sample.sign (preimage : String) : ed25519.sig :=
  [⟨preimage.length % 256, Nat.mod_lt _ (by decide)⟩, 1, 2, 3]

/-- A sample object view of a serialization: one member holding the text. -/
def sample.view (text : String) : json.object := [("text", .str text)]

/-- A sample digest: 32 octets of which the first three are 251, 255, 191. -/
def sample.digest : List byte := [251, 255, 191] ++ List.replicate 29 0

/-- A sample grammar of event IDs: the sigil `$` and at least one more
character. -/
def sample.valid (id : String) : Bool :=
  id.toList.head? == some '$' && decide (1 < id.length)

/-- A sample derivation of the version 3 ID of an event: `make_id` of the
sample digest of the serialized content. -/
def sample.v3 (e : m.event) : Except error String :=
  .ok (make_id_hash "" e "3" (sample.sha256 (sample.stringify_event e)))

/-- A sample derivation of the version 4 ID of an event. -/
def sample.v4 (e : m.event) : Except error String :=
  .ok (make_id_hash "" e "4" (sample.sha256 (sample.stringify_event e)))

/-- A sample event of a version 1 room: the slot and the `event_id` member
hold the same ID with a server part. -/
def sample.identified_v1 : m.event :=
  { get := { type := some "m.room.member",
             content := some [("membership", .str "join")],
             event_id := some "$abc:example.org" },
    event_id := "$abc:example.org" }

/-- The sample signed event with the version 4 ID derived from it in its
`event_id` slot. -/
def sample.identified : m.event :=
  { sample.signed with event_id := "$FQAAAAAAAAAAAAAAAAAAAAAAAAAAAAAAAAAAAAAAAAA" }

/-- A sample `json::tuple` constructor: the `type` and `event_id` members of
the source. -/
def sample.tuple_of (source : json.object) : m.event.tuple :=
  { type := (json.object.get source "type").map json.string,
    event_id := (json.object.get source "event_id").map json.string }

/-- A sample derivation of the version 3 ID of a source object: `make_id` of
the sample digest of the members the content hash keeps. -/
def sample.v3_source (source : json.object) : Except error String :=
  .ok (make_id_hash "" {} "3" (sample.sha256 (sample.stringify (m.event.hash.kept source))))

/-- A sample derivation of the version 4 ID of a source object. -/
def sample.v4_source (source : json.object) : Except error String :=
  .ok (make_id_hash "" {} "4" (sample.sha256 (sample.stringify (m.event.hash.kept source))))

/-- A sample source object of a version 5 room that carries an `event_id`
member. -/
def sample.source_with_id : json.object :=
  [("type", .str "m.room.message"), ("event_id", .str "$abc:example.org"),
    ("depth", .lit "7")]

/-- A sample event list as composed for signing: a type, a sender and the ID
a redaction points to. -/
def sample.iov (type : String) : json.iov :=
  [("type", .str type), ("sender", .str "@alice:example.org"),
    ("redacts", .str "$target:example.org")]

/-- A sample closure: the list it is invoked with. -/
def sample.closure (event : json.iov) : Except error json.iov := .ok event

/-- The invariant of the in-flight list for a bound `M`: the list and every
size it has had are within `M`, and no two entries have the same event ID. -/
def m.acquire.inv (M : Nat) (a : m.acquire) : Prop :=
  a.fetching.length ≤ M ∧ (∀ n ∈ a.sizes, n ≤ M) ∧
    (a.fetching.map (fun r => r.event_id)).Nodup

/-- The state in which `submit` leaves the in-flight list: below the cap, or
empty. -/
def m.acquire.slack (a : m.acquire) : Prop :=
  a.fetching.length < a.opts.fetch_width ∨ a.fetching = []

/-- What every call of the acquirer keeps, given the invariant and the slack
before it: the invariant and the options, and the slack when it returns. -/
def m.acquire.keeps {α : Type} (M : Nat) (a : m.acquire)
    (res : outcome α × m.acquire × List acquire.wait) : Prop :=
  acquire.inv M res.2.1 ∧ res.2.1.opts = a.opts ∧ (∀ r, res.1 = .ret r → acquire.slack res.2.1)

/-- Sample default options of the VM: every flag and every bit set, except
`infolog_accept`. -/
def sample.vm_default : vm.opts :=
  { infolog_accept := false, warnlog := fun _ => true, notify_servers := true,
    phase := fun _ => true, wopts_appendix := fun _ => true }

/-- A sample fetch layer: `fetch::start` accepts every request but one hinted
at `down.example`. -/
def sample.env : acquire.env :=
  { fetch_start := fun fopts =>
      if fopts.hint = "down.example" then .error (.other "unreachable") else .ok (),
    vm_default := sample.vm_default }

/-- A sample completion: a response with two pdus, evaluated without fault. -/
def sample.done : acquire.completion :=
  { response := .ok [("pdus", .arr [.obj [], .obj []])],
    interruption_point := .ok (), eval := .ok () }

/-- A sample head result: an event of the given origin at the given depth. -/
def sample.head_result (event_id origin : String) (depth : Int) : m.event :=
  { get := { depth := some depth, origin := some origin }, event_id := event_id }

/-- The sample room of the gap-fill scenario: its top is at depth 100, the
event of index 40 at depth 90 refers to the missing `$missing`, whose
sounding is depth 90 at index 40 and whose twain is depth 80; three servers
report heads at depths 103, 5 and 101. -/
def sample.room : acquire.store :=
  { top := ("$top", 100, 50),
    viewport := (36, 100),
    missing := fun _ => [(("$missing", 90, 40), false)],
    count := fun r => r.2 - r.1 + 1,
    event_id := fun _ => "$ref",
    sounding := fun _ => (90, 40),
    twain := fun _ => (80, 39),
    head := [(sample.head_result "$h1" "one.example" 103, false),
             (sample.head_result "$h2" "two.example" 5, false),
             (sample.head_result "$h3" "three.example" 101, false)] }

/-- The sample room once the missing event has been acquired. -/
def sample.filled : acquire.store := { sample.room with missing := fun _ => [] }

/-- The sample room round by round: the gap is filled after the first round. -/
def sample.rooms (i : Nat) : acquire.store := if i = 0 then sample.room else sample.filled

/-- Sample options of the missing branch. -/
def sample.opts : acquire.options :=
  { room_id := "!room:example.org", rounds := 4, fetch_width := 8, missing := true,
    hint := "hint.example", viewport_size := 64 }

/-- Sample options of the head branch with a `fetch_width` of zero. -/
def sample.opts_zero : acquire.options :=
  { room_id := "!room:example.org", fetch_width := 0, head := true, depth := (10, 0) }

/-- A sample acquirer with the fetch for `$missing` in flight. -/
def sample.fetching : m.acquire :=
  { opts := sample.opts,
    fetching := [{ future := acquire.start.fopts { opts := sample.opts } "$missing"
                     "hint.example" false 10,
                   event_id := "$missing" }] }

/-- Sample options of the head branch: depths from 10, eight fetches at once. -/
def sample.opts_head : acquire.options :=
  { room_id := "!room:example.org", fetch_width := 8, head := true, depth := (10, 0) }

/-- Sample options of the head branch whose depth window starts at the least
`int64_t`. -/
def sample.opts_floor : acquire.options :=
  { room_id := "!room:example.org", fetch_width := 8, head := true, depth := (-(2 ^ 63), 0) }

/-- The sample referring event of the gap-fill scenario: the event of index
40, at depth 90, sent by `remote.example`. -/
def sample.referrer : m.event := sample.head_result "$ref" "remote.example" 90

/-- A sample completion whose evaluation raises an error of the VM. -/
def sample.eval_fails : acquire.completion :=
  { response := .ok [("pdus", .arr [.obj []])],
    interruption_point := .ok (), eval := .error (.other "m::vm::error") }

/-- A dependent-string function that checks its arguments: the code units
from `pos` on, `len` of them, and no string when the request reaches beyond
the end of the string. -/
def js.dependent (s : js.string) (pos len : Nat) : Option js.string :=
  if pos + len ≤ s.length then some ((s.drop pos).take len) else none

/-- A sample `lex_cast<ushort>`: the decimal number below 65536. -/
def sample.lex_cast_ushort (s : String) : Except error Nat :=
  if s.toList ≠ [] ∧ s.toList.all Char.isDigit then
    let n := s.toList.foldl (fun n c => 10 * n + (c.toNat - 48)) 0
    if n < 2 ^ 16 then .ok n else .error .bad_lex_cast
  else .error .bad_lex_cast

/-- A sample event of the timeline with its ID. -/
def sample.message (event_id : String) : m.event :=
  { get := { event_id := some event_id, type := some "m.room.message" },
    event_id := event_id }

/-- Sample surroundings of `/messages`: every room and event is visible, the
timeline has three events, and the filter, when there is one, matches only the
event `$c`. -/
def sample.messages : messages.env :=
  { lex_cast_ushort := sample.lex_cast_ushort,
    url_decode := fun s => .ok s,
    room_visible := fun _ _ _ => true,
    messages := fun _ _ _ =>
      [(sample.message "$a", 7), (sample.message "$b", 6), (sample.message "$c", 5)],
    visible := fun _ _ => true,
    filter_empty := fun s => s == "",
    filter_match := fun _ event => event.event_id == "$c",
    max_filter_miss := 2048,
    current_sequence := 9 }

/-- A sample request: the query `dir=b&from=$z` with the given `limit`. -/
def sample.request (limit : String) : resource.request :=
  { query_get := fun k => if k = "limit" then limit else "",
    query_at := fun k =>
      if k = "limit" then (if limit = "" then .error .out_of_range else .ok limit)
      else if k = "dir" then .ok "b"
      else if k = "from" then .ok "$z"
      else .error .out_of_range,
    user_id := "@alice:example.org" }

/-- The gap the closure of `fetch_missing` computes for a reference
(`acquire.cc` lines 146-163). -/
def m.acquire.gap_of (room : acquire.store) (ref_idx : Nat) : Nat :=
  let ref_id := room.event_id ref_idx
  let sound := room.sounding ref_id
  let twain := if sound.2 = ref_idx then room.twain ref_id else (0, 0)
  if sound.1 ≥ twain.1 then u64 (i64 (sound.1 - twain.1)) else 0

/-- The gap as the specification words it: `max(sound.depth − twain.depth, 0)`,
the twain depth being that of `twain` when `sound_idx == ref_idx` and 0
otherwise. -/
def m.acquire.spec_gap (room : acquire.store) (ref_idx : Nat) : Int :=
  let sound := room.sounding (room.event_id ref_idx)
  let twain_depth := if sound.2 = ref_idx then (room.twain (room.event_id ref_idx)).1 else 0
  max (sound.1 - twain_depth) 0

/-- Whether the closure of `fetch_missing` reaches its `submit` for a
reference of index `ref_idx`: none of its filters (`acquire.cc` lines 116-120,
123-134, 166-167) returns before. -/
def m.acquire.reaches (room : acquire.store) (opts : acquire.options) (ref_min ref_idx : Nat) :
    Bool :=
  decide (¬ (ref_idx < opts.ref.1 ∨ ref_idx < ref_min) ∧ ¬ ref_idx > opts.ref.2 ∧
    ¬ (opts.viewport_size ≠ 0 ∧
      room.count (min ref_idx room.top.2.2, max ref_idx room.top.2.2) > opts.viewport_size) ∧
    ¬ (m.acquire.gap_of room ref_idx < opts.gap.1 ∨ m.acquire.gap_of room ref_idx > opts.gap.2))

/-- The indexes of the references for which a pass of `fetch_missing` over the
entries reaches `submit`: those of the entries enumerated before an
interruption is requested that pass the filters. -/
def m.acquire.reached (room : acquire.store) (opts : acquire.options) (ref_min : Nat)
    (entries : List ((String × Int × Nat) × Bool)) : List Nat :=
  ((entries.takeWhile (fun x => !x.2)).filter
    (fun x => m.acquire.reaches room opts ref_min x.1.2.2)).map (fun x => x.1.2.2)

/-- Sample options of the missing branch whose hint is the server the sample
fetch layer cannot reach. -/
def sample.opts_down : acquire.options := { sample.opts with hint := "down.example" }

/-- The sample room when the event of index 40 refers to two missing events. -/
def sample.room_two : acquire.store :=
  { sample.room with missing := fun _ => [(("$m1", 90, 40), false), (("$m2", 90, 40), false)] }

/-- Whether a call of `m::create` commits an event to the room. -/
def m.create.call.emits : m.create.call → Bool
  | .eval _ _ _ => true
  | .join _ _ => true
  | .send _ _ _ _ _ => true
  | .invite _ _ _ _ => true
  | _ => false

/-- The events `m::create` has committed: the calls that commit one and
returned. -/
def m.create.events (st : m.create.state) : List m.create.call :=
  (st.calls.filter (fun x => x.1.emits && x.2.isNone)).map (fun x => x.1)

/-- The number of calls that raised. -/
def m.create.failures (calls : List (m.create.call × Option error)) : Nat :=
  (calls.filter (fun x => x.2.isSome)).length

/-- The state `st1` follows from `st` with every call that raised in between
reported: as many messages were appended as calls raised. -/
def m.create.recorded (st st1 : m.create.state) : Prop :=
  ∃ added msgs, st1.calls = st.calls ++ added ∧
    st1.errors = st.errors.map (fun errors => errors ++ msgs) ∧
    msgs.length = m.create.failures added

/-- A step that makes calls and reports nothing: its last call raised when it
raises, and none did when it returns. -/
def m.create.quiet (s : m.create.step Unit) : Prop :=
  ∀ st, ∃ added, (s st).2.calls = st.calls ++ added ∧ (s st).2.errors = st.errors ∧
    ((s st).1 = .ok () → m.create.failures added = 0) ∧
    (∀ err, (s st).1 = .error err → m.create.failures added = 1)

/-- A step that returns, or, in a direct room, raises an `m::error`, with
every call that raised reported. -/
def m.create.records (direct : Bool) (s : m.create.step Unit) : Prop :=
  ∀ st, ((s st).1 = .ok () ∨
      (direct = true ∧ ∃ err, err.is_m = true ∧ (s st).1 = .error err)) ∧
    m.create.recorded st (s st).2

/-- Sample surroundings of `m::create` in which the calls raise as `raises`
says: the composed power levels hold the `users` the closure added, and a
message is its format followed by its string arguments. -/
def sample.create_env (raises : m.create.call → Option error) : m.create.env :=
  { raises := fun _ call => raises call,
    compose_content := fun users => [("users", .obj users), ("users_default", .lit "0")],
    creator_level := .lit "100",
    valid_user := fun s => s.toList.head? == some '@',
    trunc := fun s n => String.mk (s.toList.take n),
    version_default := "5",
    sprintf := fun fmt args =>
      fmt ++ String.join (args.map (fun a =>
        match a with
        | .str s => " | " ++ s
        | .num _ => " | #")),
    what := fun err =>
      match err with
      | .other what => what
      | .m _ _ errstr => errstr
      | _ => "error",
    errcode := fun err =>
      match err with
      | .m _ errcode _ => errcode
      | _ => "M_UNKNOWN",
    errstr := fun err =>
      match err with
      | .m _ _ errstr => errstr
      | _ => "" }

/-- A sample request as the handler passes it on: the preset `public_chat`
and nothing else of the client's. -/
def sample.createroom : m.createroom :=
  { creator := some "@alice:example.org", room_id := some "!new:example.org",
    preset := "public_chat", room_version := "5" }

/-- Sample failures: the creator's join raises. -/
def sample.join_fails : m.create.call → Option error
  | .join _ _ => some (.other "join failed")
  | _ => none

/-- Sample failures: the events of the power levels and of the join rules are
refused. -/
def sample.sends_fail : m.create.call → Option error
  | .send _ _ _ _ _ => some (.other "denied")
  | _ => none

/-- Sample failures: every invitation is refused with an `m::error`. -/
def sample.invites_fail : m.create.call → Option error
  | .invite _ _ _ _ => some (.m 403 "M_FORBIDDEN" "not allowed")
  | _ => none

/-- The call of `m::vm::eval` that `_create_event` makes for a request with
the given creator and room ID. -/
def m.create.eval_call (e : m.create.env) (c : m.createroom) (creator room_id : String) :
    m.create.call :=
  .eval (m._create_event.event room_id creator)
    (m._create_event.content c creator
      (if c.room_version ≠ "" then c.room_version else e.version_default))
    (if c.room_version ≠ "" then c.room_version else e.version_default)

/-- A sample request for a direct room with one invited user. -/
def sample.createroom_direct : m.createroom :=
  { creator := some "@alice:example.org", room_id := some "!new:example.org",
    preset := "trusted_private_chat", room_version := "5", is_direct := true,
    invite := ["@bob:example.org"] }

/-- The state after `_create_event` has committed `m.room.create`. -/
def m.create.created (e : m.create.env) (c : m.createroom) (creator room_id : String)
    (errors : Option (List String)) : m.create.state :=
  { calls := [(m.create.eval_call e c creator room_id, none)], errors := errors }

/-- The state after the creator's join has returned, when it is made. -/
def m.create.joined (e : m.create.env) (c : m.createroom) (creator room_id : String)
    (errors : Option (List String)) : m.create.state :=
  { calls := (m.create.eval_call e c creator room_id, none) ::
      (if c.preset = "" ∨ spec_preset c.preset = true
        then [(.join room_id creator, none)] else []),
    errors := errors }

theorem json.has_some_iff (ms : json.object) (k : String) :
    json.has (some ms) k = true ↔ ∃ m, ms.find? (fun m => m.1 == k) = some m := by
  unfold json.has
  simp only [List.any_eq_true]
  constructor
  · rintro ⟨m, hm, hk⟩
    cases h : ms.find? (fun m => m.1 == k) with
    | some m' => exact ⟨m', rfl⟩
    | none =>
      rw [List.find?_eq_none] at h
      exact absurd hk (h m hm)
  · rintro ⟨m, hm⟩
    have h1 := List.find?_some hm
    exact ⟨m, List.mem_of_find?_eq_some hm, h1⟩

theorem json.member_if_has_eq (c : Option json.object) (top : json.object) (k : String) :
    json.stack.member_if_has c top k = .ok (top ++ json.pick c k) := by
  unfold json.stack.member_if_has json.pick
  cases c with
  | none => simp [json.has]; rfl
  | some ms =>
    cases h : ms.find? (fun m => m.1 == k) with
    | some m =>
      have : json.has (some ms) k = true := (json.has_some_iff ms k).2 ⟨m, h⟩
      simp [this, json.at_member, json.object.at, h, bind, Except.bind, pure, Except.pure]
    | none =>
      have : json.has (some ms) k = false := by
        cases hh : json.has (some ms) k with
        | false => rfl
        | true =>
          obtain ⟨m, hm⟩ := (json.has_some_iff ms k).1 hh
          rw [h] at hm; cases hm
      simp [this, pure, Except.pure, h]

theorem json.pick_eq_of_has_false (c : Option json.object) (k : String)
    (h : json.has c k = false) : json.pick c k = [] := by
  cases c with
  | none => rfl
  | some ms =>
    unfold json.pick
    cases hf : ms.find? (fun m => m.1 == k) with
    | none => simp [hf]
    | some m =>
      have := (json.has_some_iff ms k).2 ⟨m, hf⟩
      rw [h] at this; cases this

theorem json.at_member_of_has (c : Option json.object) (k : String)
    (h : json.has c k = true) :
    ∃ v, json.at_member c k = .ok v ∧ json.pick c k = [(k, v)] := by
  cases c with
  | none => simp [json.has] at h
  | some ms =>
    obtain ⟨m, hm⟩ := (json.has_some_iff ms k).1 h
    exact ⟨m.2, by simp [json.at_member, json.object.at, hm], by simp [json.pick, hm]⟩

theorem m.essential_eq (e : event) (t : String) (ht : e.get.type = some t) :
    essential e = .ok { e with get := { e.get with
      content := essential_content t e.get.content
      redacts := if t = "m.room.redaction" then none else e.get.redacts
      signatures := none } } := by
  unfold essential essential_content
  simp only [ht, tuple_at, bind, Except.bind, json.member_if_has_eq, List.nil_append]
  split_ifs <;> simp_all [pure, Except.pure, essential_keys, json.project]
  all_goals
    rename_i h
    obtain ⟨v, hv, hp⟩ := json.at_member_of_has _ _ h
    simp [hv, hp]

theorem json.pick_cases (c : Option json.object) (k : String) :
    json.pick c k = [] ∨ ∃ v, json.pick c k = [(k, v)] := by
  cases c with
  | none => exact Or.inl rfl
  | some ms =>
    cases h : ms.find? (fun m => m.1 == k) with
    | none => exact Or.inl (by simp [json.pick, h])
    | some m => exact Or.inr ⟨m.2, by simp [json.pick, h]⟩

theorem json.pick_cons (k0 k : String) (v : json.value) (rest : json.object) :
    json.pick (some ((k0, v) :: rest)) k
      = if k0 = k then [(k, v)] else json.pick (some rest) k := by
  unfold json.pick
  by_cases h : k0 = k
  · simp [h, List.find?_cons]
  · simp [h, List.find?_cons]

theorem json.pick_project (c : Option json.object) (k : String) (ks : List String) :
    json.pick (some (json.project c ks)) k = if k ∈ ks then json.pick c k else [] := by
  induction ks with
  | nil => simp [json.project, json.pick]
  | cons k0 ks ih =>
    rcases json.pick_cases c k0 with h0 | ⟨v, h0⟩
    · simp only [json.project, h0, List.nil_append, ih, List.mem_cons]
      by_cases hk : k = k0
      · subst hk; simp [h0]
      · simp [hk]
    · simp only [json.project, h0, List.singleton_append, json.pick_cons, ih, List.mem_cons]
      by_cases hk : k0 = k
      · subst hk; simp [h0]
      · have hk2 : ¬ k = k0 := fun h => hk h.symm
        simp [hk, hk2]

theorem json.project_congr (c d : Option json.object) (ks : List String)
    (h : ∀ k ∈ ks, json.pick c k = json.pick d k) :
    json.project c ks = json.project d ks := by
  induction ks with
  | nil => rfl
  | cons k0 ks ih =>
    simp only [json.project]
    rw [h k0 (List.mem_cons_self _ _), ih (fun k hk => h k (List.mem_cons_of_mem _ hk))]

theorem json.project_idem (c : Option json.object) (ks : List String) :
    json.project (some (json.project c ks)) ks = json.project c ks := by
  apply json.project_congr
  intro k hk
  rw [json.pick_project, if_pos hk]

theorem json.has_pick (c : Option json.object) (k : String) (h : json.has c k = true) :
    json.has (some (json.pick c k)) k = true ∧
      json.pick (some (json.pick c k)) k = json.pick c k := by
  obtain ⟨v, -, hp⟩ := json.at_member_of_has c k h
  rw [hp]
  constructor
  · simp [json.has]
  · simp [json.pick_cons, json.pick]

theorem m.essential_content_idem (t : String) (c : Option json.object) :
    essential_content t (essential_content t c) = essential_content t c := by
  unfold essential_content
  split_ifs <;> simp_all [json.has_pick, json.project_idem]

theorem m.essential_eq_result (e : event) (t : String) (ht : e.get.type = some t) :
    essential e = .ok (essential_result t e) :=
  m.essential_eq e t ht

theorem m.essential_result_idem (t : String) (e : event) :
    essential_result t (essential_result t e) = essential_result t e := by
  unfold essential_result
  simp only [m.essential_content_idem]
  by_cases hr : t = "m.room.redaction" <;> simp [hr]

theorem m.essential_type_of_ok (e e' : event) (h : essential e = .ok e') :
    ∃ t, e.get.type = some t := by
  cases ht : e.get.type with
  | some t => exact ⟨t, rfl⟩
  | none =>
    unfold essential at h
    simp [ht, tuple_at, bind, Except.bind] at h

theorem json.project_eq_filterMap (c : Option json.object) (ks : List String) :
    json.project c ks = ks.filterMap (fun k =>
      match json.at_member c k with
      | .ok v => some (k, v)
      | .error _ => none) := by
  induction ks with
  | nil => rfl
  | cons k ks ih =>
    simp only [json.project, ih]
    cases c with
    | none => simp [json.pick, json.at_member, List.filterMap_cons]
    | some ms =>
      cases h : ms.find? (fun m => m.1 == k) with
      | none => simp [json.pick, json.at_member, json.object.at, h, List.filterMap_cons]
      | some m => simp [json.pick, json.at_member, json.object.at, h, List.filterMap_cons]

theorem m.hash_skipped_iff (name : String) :
    event.hash.skipped name = true ↔
      name ∈ ["signatures", "hashes", "unsigned", "age_ts", "outlier", "destinations"] := by
  simp [event.hash.skipped, or_assoc]

theorem m.hash_loop_eq (iov_max : Nat) (src : json.object) (acc : List json.member)
    (hacc : acc.length ≤ iov_max) :
    event.hash.loop iov_max src acc =
      if acc.length + (src.filter (fun m => !event.hash.skipped m.1)).length ≤ iov_max
      then .ok (acc ++ src.filter (fun m => !event.hash.skipped m.1))
      else .error .out_of_range := by
  induction src generalizing acc with
  | nil => simp [event.hash.loop, hacc]
  | cons m rest ih =>
    unfold event.hash.loop
    by_cases hs : event.hash.skipped m.1 = true
    · simp [hs, ih acc hacc]
    · simp only [Bool.not_eq_true] at hs
      by_cases h1 : acc.length < iov_max
      · have hacc2 : (acc ++ [m]).length ≤ iov_max := by simp; omega
        rw [if_neg (by simp [hs]), if_pos h1, ih _ hacc2]
        have e1 : (acc ++ [m]).length
            + (rest.filter (fun m => !event.hash.skipped m.1)).length
            = acc.length + ((m :: rest).filter (fun m => !event.hash.skipped m.1)).length := by
          simp [List.filter_cons, hs]; omega
        have e2 : (acc ++ [m]) ++ rest.filter (fun m => !event.hash.skipped m.1)
            = acc ++ (m :: rest).filter (fun m => !event.hash.skipped m.1) := by
          simp [List.filter_cons, hs]
        rw [e1, e2]
      · have h2 : ¬ (acc.length + ((m :: rest).filter
            (fun m => !event.hash.skipped m.1)).length ≤ iov_max) := by
          simp [List.filter_cons, hs]; omega
        rw [if_neg (by simp [hs]), if_neg h1, if_neg h2]

theorem m.hash_kept_eq (source : json.object) :
    source.filter (fun m => !event.hash.skipped m.1) = event.hash.kept source := by
  unfold event.hash.kept
  congr 1
  funext x
  congr 1
  rw [Bool.eq_iff_iff, m.hash_skipped_iff]
  simp

theorem m.verify_sha256b64_eq (e : event) (b64 : String) :
    verify_sha256b64 e b64 =
      match e.get.hashes with
      | none => .ok false
      | some hashes =>
        match hashes.find? (fun x => x.1 == "sha256") with
        | none => .ok false
        | some x => .ok (json.string x.2 == b64) := by
  unfold verify_sha256b64
  cases hh : e.get.hashes with
  | none => simp [tuple_at, bind, Except.bind]
  | some hashes =>
    cases hf : hashes.find? (fun x => x.1 == "sha256") with
    | none => simp [tuple_at, bind, Except.bind, json.object.at, hf]
    | some x =>
      simp only [tuple_at, bind, Except.bind, json.object.at, hf, pure, Except.pure]

theorem m.verify_loop_true_iff (f : String → Except error Bool) (l : json.object) :
    verify.loop f l = .ok true ↔
      ∃ pre k v post, l = pre ++ (k, v) :: post ∧ f k = .ok true ∧
        ∀ x ∈ pre, f x.1 = .ok false := by
  induction l with
  | nil => simp [verify.loop]
  | cons x rest ih =>
    obtain ⟨k0, v0⟩ := x
    unfold verify.loop
    cases hf : f k0 with
    | error err =>
      simp only [bind, Except.bind]
      constructor
      · intro h; cases h
      · rintro ⟨pre, k, v, post, hl, hk, hpre⟩
        cases pre with
        | nil =>
          simp only [List.nil_append, List.cons.injEq, Prod.mk.injEq] at hl
          obtain ⟨⟨rfl, rfl⟩, rfl⟩ := hl
          rw [hf] at hk; cases hk
        | cons p pre =>
          simp only [List.cons_append, List.cons.injEq] at hl
          obtain ⟨rfl, rfl⟩ := hl
          have := hpre (k0, v0) (List.mem_cons_self _ _)
          rw [hf] at this; cases this
    | ok b =>
      cases b with
      | true =>
        simp only [bind, Except.bind, pure, Except.pure, if_true]
        constructor
        · intro _
          exact ⟨[], k0, v0, rest, rfl, hf, by simp⟩
        · intro _; trivial
      | false =>
        simp only [bind, Except.bind, Bool.false_eq_true, if_false, ih]
        constructor
        · rintro ⟨pre, k, v, post, hl, hk, hpre⟩
          refine ⟨(k0, v0) :: pre, k, v, post, by simp [hl], hk, ?_⟩
          intro x hx
          rcases List.mem_cons.1 hx with rfl | hx
          · exact hf
          · exact hpre x hx
        · rintro ⟨pre, k, v, post, hl, hk, hpre⟩
          cases pre with
          | nil =>
            simp only [List.nil_append, List.cons.injEq, Prod.mk.injEq] at hl
            obtain ⟨⟨rfl, rfl⟩, rfl⟩ := hl
            rw [hf] at hk; cases hk
          | cons p pre =>
            simp only [List.cons_append, List.cons.injEq] at hl
            obtain ⟨rfl, rfl⟩ := hl
            exact ⟨pre, k, v, post, rfl, hk,
              fun x hx => hpre x (List.mem_cons_of_mem _ hx)⟩

theorem m.verify_loop_no_raise (f : String → Except error Bool) (l : json.object)
    (h : ∀ x ∈ l, f x.1 = .ok true ∨ f x.1 = .ok false) :
    verify.loop f l = .ok true ↔ ∃ x ∈ l, f x.1 = .ok true := by
  rw [m.verify_loop_true_iff]
  constructor
  · rintro ⟨pre, k, v, post, hl, hk, -⟩
    exact ⟨(k, v), by simp [hl], hk⟩
  · rintro ⟨x, hx, hfx⟩
    induction l with
    | nil => cases hx
    | cons y rest ih =>
      rcases h y (List.mem_cons_self _ _) with hy | hy
      · exact ⟨[], y.1, y.2, rest, rfl, hy, by simp⟩
      · rcases List.mem_cons.1 hx with rfl | hx
        · rw [hy] at hfx; cases hfx
        · obtain ⟨pre, k, v, post, hl, hk, hpre⟩ :=
            ih (fun z hz => h z (List.mem_cons_of_mem _ hz)) hx
          refine ⟨y :: pre, k, v, post, by simp [hl], hk, ?_⟩
          intro z hz
          rcases List.mem_cons.1 hz with rfl | hz
          · exact hy
          · exact hpre z hz


theorem m.as_object_ok_iff (v : json.value) (ms : json.object) :
    v.as_object = .ok ms ↔ v = .obj ms := by
  cases v <;> simp [json.value.as_object]

theorem m.verify_eq_loop (stringify_event : event → String)
    (pk_verify : ed25519.pk → String → ed25519.sig → Bool)
    (b64decode : String → Except error ed25519.sig)
    (node_key : String → String → Except error (Option ed25519.pk))
    (e : event) (origin : String) (r : Bool) :
    verify stringify_event pk_verify b64decode node_key e origin = .ok r ↔
      ∃ sigs osigs, e.get.signatures = some sigs ∧
        json.object.at sigs origin = .ok (.obj osigs) ∧
        verify.loop (verify_keyid stringify_event pk_verify b64decode node_key e origin) osigs
          = .ok r := by
  unfold verify
  cases hs : e.get.signatures with
  | none => simp [tuple_at, bind, Except.bind]
  | some sigs =>
    cases ho : json.object.at sigs origin with
    | error err => simp [tuple_at, bind, Except.bind, ho]
    | ok v =>
      cases v <;> simp [tuple_at, bind, Except.bind, json.value.as_object, ho]

theorem m.verify_pk_true_iff (stringify_event : event → String)
    (pk_verify : ed25519.pk → String → ed25519.sig → Bool)
    (b64decode : String → Except error ed25519.sig)
    (e : event) (pk : ed25519.pk) (origin keyid : String) :
    verify_pk stringify_event pk_verify b64decode e pk origin keyid = .ok true ↔
      ∃ sigs osigs sv sig ess, e.get.signatures = some sigs ∧
        json.object.at sigs origin = .ok (.obj osigs) ∧
        json.object.at osigs keyid = .ok sv ∧ b64decode (json.string sv) = .ok sig ∧
        essential e = .ok ess ∧ pk_verify pk (stringify_event ess) sig = true := by
  unfold verify_pk verify_pk_sig
  cases hs : e.get.signatures with
  | none => simp [tuple_at, bind, Except.bind]
  | some sigs =>
    cases ho : json.object.at sigs origin with
    | error err => simp [tuple_at, bind, Except.bind, ho]
    | ok v =>
      cases v with
      | obj osigs =>
        cases hk : json.object.at osigs keyid with
        | error err => simp [tuple_at, bind, Except.bind, json.value.as_object, ho, hk]
        | ok sv =>
          cases hd : b64decode (json.string sv) with
          | error err => simp [tuple_at, bind, Except.bind, json.value.as_object, ho, hk, hd]
          | ok sig =>
            cases he : essential e with
            | error err =>
              simp [tuple_at, bind, Except.bind, json.value.as_object, ho, hk, hd, he]
            | ok ess =>
              simp [tuple_at, bind, Except.bind, json.value.as_object, ho, hk, hd, he, pure,
                Except.pure]
      | lit _ => simp [tuple_at, bind, Except.bind, json.value.as_object, ho]
      | str _ => simp [tuple_at, bind, Except.bind, json.value.as_object, ho]
      | arr _ => simp [tuple_at, bind, Except.bind, json.value.as_object, ho]

theorem m.verify_keyid_true_iff (stringify_event : event → String)
    (pk_verify : ed25519.pk → String → ed25519.sig → Bool)
    (b64decode : String → Except error ed25519.sig)
    (node_key : String → String → Except error (Option ed25519.pk))
    (e : event) (origin keyid : String) :
    verify_keyid stringify_event pk_verify b64decode node_key e origin keyid = .ok true ↔
      ∃ pk, node_key origin keyid = .ok (some pk) ∧
        verify_pk stringify_event pk_verify b64decode e pk origin keyid = .ok true := by
  unfold verify_keyid
  cases hn : node_key origin keyid with
  | error err => cases err <;> simp [bind, Except.bind]
  | ok opk =>
    cases opk with
    | none => simp [bind, Except.bind, pure, Except.pure]
    | some pk =>
      simp only [bind, Except.bind]
      cases hv : verify_pk stringify_event pk_verify b64decode e pk origin keyid with
      | error err => cases err <;> simp [hv]
      | ok b => cases b <;> simp [hv]

theorem m.verify_keyid_not_found (stringify_event : event → String)
    (pk_verify : ed25519.pk → String → ed25519.sig → Bool)
    (b64decode : String → Except error ed25519.sig)
    (node_key : String → String → Except error (Option ed25519.pk))
    (e : event) (origin keyid : String) (h : node_key origin keyid = .error .NOT_FOUND) :
    verify_keyid stringify_event pk_verify b64decode node_key e origin keyid = .ok false := by
  unfold verify_keyid
  simp [h, bind, Except.bind]

theorem b64.chars_length (l : List byte) : (b64.chars l).length = (4 * l.length + 2) / 3 := by
  induction l using b64.chars.induct with
  | case1 => rfl
  | case2 a => simp [b64.chars]
  | case3 a b => simp [b64.chars]
  | case4 a b c rest ih =>
    simp only [b64.chars, List.length_cons, ih]
    omega

theorem b64.sextet_mem (n : Nat) : b64.sextet n ∈ b64.dict := by
  unfold b64.sextet
  by_cases h : n < b64.dict.length
  · rw [List.getD_eq_getElem _ _ h]
    exact List.getElem_mem _
  · rw [List.getD_eq_default _ _ (by omega)]
    decide

theorem b64.chars_mem (l : List byte) : ∀ c ∈ b64.chars l, c ∈ b64.dict := by
  induction l using b64.chars.induct with
  | case1 => simp [b64.chars]
  | case2 a => simp [b64.chars, b64.sextet_mem]
  | case3 a b => simp [b64.chars, b64.sextet_mem]
  | case4 a b c rest ih =>
    intro x hx
    simp only [b64.chars, List.mem_cons] at hx
    rcases hx with rfl | rfl | rfl | rfl | hx
    · exact b64.sextet_mem _
    · exact b64.sextet_mem _
    · exact b64.sextet_mem _
    · exact b64.sextet_mem _
    · exact ih x hx

theorem b64.dict_no_colon : ∀ c ∈ b64.dict, c ≠ ':' ∧ b64.urlchar c ≠ ':' := by
  decide

theorem m.check_id_version_eq (valid : String → Bool) (id_version : String → String)
    (v3 v4 : event → Except error String) (e : event) (v : String) (hv : v ≠ "") :
    check_id_version valid id_version v3 v4 e v =
      if v = "1" ∨ v = "2" then
        (valid (e.get.event_id.getD "") && e.event_id == e.get.event_id.getD "")
      else if v = "3" then
        (match v3 e with
          | .ok id => e.event_id == id
          | .error _ => false)
      else
        (match v4 e with
          | .ok id => e.event_id == id
          | .error _ => false) := by
  unfold check_id_version
  simp only [hv, ne_eq, not_false_eq_true, if_true, Bool.or_eq_true, decide_eq_true_eq]
  by_cases h12 : v = "1" ∨ v = "2"
  · simp only [h12, if_true, id.event.of]
    cases hval : valid (e.get.event_id.getD "") <;> simp [bind, Except.bind, pure, Except.pure]
  · simp only [h12, if_false]
    by_cases h3 : v = "3"
    · simp only [h3, if_true]
      cases v3 e <;> simp [bind, Except.bind, pure, Except.pure]
    · simp only [h3, if_false]
      cases v4 e <;> simp [bind, Except.bind, pure, Except.pure]

theorem m.of_source_id_given (valid : String → Bool) (tuple_of : json.object → event.tuple)
    (source : json.object) (id : String) (hid : id ≠ "") :
    event.of_source_id valid tuple_of source id
      = .ok { get := tuple_of source, source := some source, event_id := id } := by
  unfold event.of_source_id
  simp [hid, bind, Except.bind, pure, Except.pure]

theorem m.acquire.handle_result_frame (e : acquire.env) (a : m.acquire) (r : acquire.result)
    (c : acquire.completion) :
    (acquire.handle_result e a r c).2.fetching = a.fetching ∧
    (acquire.handle_result e a r c).2.sizes = a.sizes ∧
    (acquire.handle_result e a r c).2.opts = a.opts ∧
    (acquire.handle_result e a r c).2.requests = a.requests := by
  unfold acquire.handle_result acquire.handle_result.body
  cases c.response with
  | error err => cases err <;> simp
  | ok body =>
    cases c.interruption_point with
    | error err => cases err <;> simp
    | ok u =>
      cases c.eval with
      | error err => cases err <;> simp
      | ok u2 => simp

theorem m.acquire.handle_inv (e : acquire.env) (a : m.acquire) (w : acquire.wait) (M : Nat)
    (h : acquire.inv M a) :
    acquire.inv M (acquire.handle e a w).2 ∧ (acquire.handle e a w).2.opts = a.opts ∧
    (acquire.handle e a w).2.requests = a.requests ∧
    (acquire.handle e a w).2.fetching.Sublist a.fetching := by
  unfold acquire.handle
  by_cases hE : a.fetching.isEmpty = true
  · simp [hE, h]
  · simp only [hE, Bool.false_eq_true, if_false]
    cases w with
    | timeout => simp [h]
    | ready i c =>
      cases hg : a.fetching[i % a.fetching.length]? with
      | none => simp [hg, h]
      | some r =>
        obtain ⟨hf, hs, ho, hr⟩ := m.acquire.handle_result_frame e a r c
        obtain ⟨h1, h2, h3⟩ := h
        have hsub : (a.fetching.eraseIdx (i % a.fetching.length)).Sublist a.fetching :=
          List.eraseIdx_sublist _ _
        have hlen := hsub.length_le
        simp only [List.get?_eq_getElem?, hg, acquire.inv, hf, hs, ho, hr, List.mem_append,
          List.mem_singleton]
        refine ⟨⟨by omega, ?_, ?_⟩, trivial, trivial, hsub⟩
        · rintro n (hn | rfl)
          · exact h2 n hn
          · omega
        · exact h3.sublist (hsub.map _)


theorem m.acquire.handle_result_outcome (e : acquire.env) (a : m.acquire)
    (r : acquire.result) (c : acquire.completion) :
    (acquire.handle_result e a r c).1 = .ret true ∨
      (acquire.handle_result e a r c).1 = .raise .interrupted := by
  unfold acquire.handle_result acquire.handle_result.body
  cases c.response with
  | error err => cases err <;> simp
  | ok body =>
    cases c.interruption_point with
    | error err => cases err <;> simp
    | ok u =>
      cases c.eval with
      | error err => cases err <;> simp
      | ok u2 => simp

theorem m.acquire.handle_false_slack (e : acquire.env) (a a' : m.acquire) (w : acquire.wait)
    (h : acquire.handle e a w = (.ret false, a')) : acquire.slack a' := by
  unfold acquire.handle at h
  by_cases hE : a.fetching.isEmpty = true
  · have hnil : a.fetching = [] := List.isEmpty_iff.1 hE
    simp only [hE, if_true, Prod.mk.injEq] at h
    rw [← h.2]
    exact Or.inr hnil
  · simp only [hE, Bool.false_eq_true, if_false] at h
    have hfull : ∀ b : m.acquire, (outcome.ret (acquire.full a), a) = (outcome.ret false, b) →
        acquire.slack b := by
      intro b hb
      simp only [Prod.mk.injEq, outcome.ret.injEq] at hb
      rw [← hb.2]
      left
      have := hb.1
      simp only [acquire.full, decide_eq_false_iff_not, ge_iff_le, not_le] at this
      exact this
    cases w with
    | timeout => exact hfull a' h
    | ready i c =>
      simp only [List.get?_eq_getElem?] at h
      cases hg : a.fetching[i % a.fetching.length]? with
      | none =>
        rw [hg] at h
        exact hfull a' h
      | some r =>
        rw [hg] at h
        simp only [Prod.mk.injEq] at h
        rcases m.acquire.handle_result_outcome e a r c with ho | ho
        · rw [ho] at h; cases h.1
        · rw [ho] at h; cases h.1

theorem m.acquire.while_handle_inv (e : acquire.env) (M : Nat) (ws : List acquire.wait) :
    ∀ a : m.acquire, acquire.inv M a →
      acquire.inv M (acquire.while_handle e a ws).2.1 ∧
      (acquire.while_handle e a ws).2.1.opts = a.opts ∧
      (acquire.while_handle e a ws).2.1.requests = a.requests ∧
      (acquire.while_handle e a ws).2.1.fetching.Sublist a.fetching ∧
      (∀ u, (acquire.while_handle e a ws).1 = .ret u →
        acquire.slack (acquire.while_handle e a ws).2.1) := by
  induction ws with
  | nil =>
    intro a h
    unfold acquire.while_handle
    by_cases hE : a.fetching.isEmpty = true
    · have : a.fetching = [] := List.isEmpty_iff.1 hE
      simp [hE, h, acquire.slack, this]
    · simp [hE, h]
  | cons w ws ih =>
    intro a h
    unfold acquire.while_handle
    by_cases hE : a.fetching.isEmpty = true
    · have : a.fetching = [] := List.isEmpty_iff.1 hE
      simp [hE, h, acquire.slack, this]
    · simp only [hE, Bool.false_eq_true, if_false]
      obtain ⟨hi, ho, hr, hsub⟩ := m.acquire.handle_inv e a w M h
      rcases hh : acquire.handle e a w with ⟨o, a'⟩
      rw [hh] at hi ho hr hsub
      simp only at hi ho hr hsub
      cases o with
      | ret b =>
        cases b with
        | true =>
          obtain ⟨i1, i2, i3, i4, i5⟩ := ih a' hi
          exact ⟨i1, i2.trans ho, i3.trans hr, i4.trans hsub, i5⟩
        | false =>
          refine ⟨hi, ho, hr, hsub, ?_⟩
          intro _ _
          exact m.acquire.handle_false_slack e a a' w hh
      | raise err => exact ⟨hi, ho, hr, hsub, by intro u hu; cases hu⟩
      | blocked => exact ⟨hi, ho, hr, hsub, by intro u hu; cases hu⟩


theorem m.acquire.started_iff (a : m.acquire) (event_id : String) :
    acquire.started a event_id = true ↔ event_id ∈ a.fetching.map (fun r => r.event_id) := by
  unfold acquire.started
  rw [List.find?_isSome]
  simp only [beq_iff_eq, List.mem_map]

theorem m.acquire.start_inv (e : acquire.env) (a : m.acquire) (event_id hint : String)
    (hint_only : Bool) (limit M : Nat) (h : acquire.inv M a) (hs : acquire.slack a)
    (hM : a.opts.fetch_width ≤ M ∧ 1 ≤ M) (hn : acquire.started a event_id = false) :
    acquire.inv M (acquire.start e a event_id hint hint_only limit).2 ∧
    (acquire.start e a event_id hint hint_only limit).2.opts = a.opts := by
  cases hf : e.fetch_start (acquire.start.fopts a event_id hint hint_only limit) with
  | error err => cases err <;> simp [acquire.start, hf, h]
  | ok u =>
    simp only [acquire.start, hf]
    obtain ⟨h1, h2, h3⟩ := h
    have hlen : a.fetching.length + 1 ≤ M := by
      rcases hs with hs | hs
      · omega
      · rw [hs]; simpa using hM.2
    have hnot : event_id ∉ a.fetching.map (fun r => r.event_id) := by
      intro hmem
      have := (m.acquire.started_iff a event_id).2 hmem
      rw [hn] at this; cases this
    simp only [acquire.inv, List.length_append, List.length_singleton, List.mem_append,
      List.mem_singleton, List.map_append, List.map_cons, List.map_nil, and_true]
    refine ⟨hlen, ?_, ?_⟩
    · rintro n (hn' | rfl)
      · exact h2 n hn'
      · exact hlen
    · rw [List.nodup_append]
      refine ⟨h3, List.nodup_singleton _, ?_⟩
      intro x hx hx'
      rw [List.mem_singleton] at hx'
      exact hnot (hx' ▸ hx)

theorem m.acquire.submit_keeps (e : acquire.env) (a : m.acquire) (ws : List acquire.wait)
    (event_id hint : String) (hint_only : Bool) (limit M : Nat) (h : acquire.inv M a)
    (hs : acquire.slack a) (hM : a.opts.fetch_width ≤ M ∧ 1 ≤ M) :
    acquire.keeps M a (acquire.submit e a ws event_id hint hint_only limit) := by
  have key : ∀ (r : Bool) (a1 : m.acquire), acquire.inv M a1 → a1.opts = a.opts →
      (r = false → acquire.slack a1) →
      acquire.keeps M a
        (if (r || acquire.full a1) = true then
          match acquire.while_handle e a1 ws with
          | (.ret _, a, ws) => ((.ret r : outcome Bool), a, ws)
          | (.raise err, a, ws) => (.raise err, a, ws)
          | (.blocked, a, ws) => (.blocked, a, ws)
        else (.ret r, a1, ws)) := by
    intro r a1 hi ho hsl
    by_cases hc : (r || acquire.full a1) = true
    · rw [if_pos hc]
      obtain ⟨i1, i2, -, -, i5⟩ := m.acquire.while_handle_inv e M ws a1 hi
      rcases hw : acquire.while_handle e a1 ws with ⟨o, a2, ws2⟩
      rw [hw] at i1 i2 i5
      cases o with
      | ret u => exact ⟨i1, i2.trans ho, fun _ _ => i5 u rfl⟩
      | raise err => exact ⟨i1, i2.trans ho, by intro r hr; cases hr⟩
      | blocked => exact ⟨i1, i2.trans ho, by intro r hr; cases hr⟩
    · rw [if_neg hc]
      simp only [Bool.or_eq_true, not_or, Bool.not_eq_true] at hc
      refine ⟨hi, ho, fun _ _ => ?_⟩
      left
      have := hc.2
      simp only [acquire.full, decide_eq_false_iff_not, ge_iff_le, not_le] at this
      exact this
  unfold acquire.submit
  by_cases hst : acquire.started a event_id = true
  · simp only [hst, Bool.not_true, Bool.false_eq_true, if_false]
    exact key false a h rfl (fun _ => hs)
  · simp only [Bool.not_eq_true] at hst
    simp only [hst, Bool.not_false, if_true]
    obtain ⟨hi, ho⟩ := m.acquire.start_inv e a event_id hint hint_only limit M h hs hM hst
    rcases hstart : acquire.start e a event_id hint hint_only limit with ⟨o, a1⟩
    rw [hstart] at hi ho
    cases o with
    | ret r =>
      refine key r a1 hi ho ?_
      intro hr
      subst hr
      have : a1 = a := by
        cases hf : e.fetch_start (acquire.start.fopts a event_id hint hint_only limit) with
        | error err => cases err <;> simp [acquire.start, hf] at hstart <;> exact hstart.symm
        | ok u => simp [acquire.start, hf] at hstart
      rw [this]
      exact hs
    | raise err => exact ⟨hi, ho, by intro r hr; cases hr⟩
    | blocked => exact ⟨hi, ho, by intro r hr; cases hr⟩


theorem m.acquire.fetch_head_keeps (e : acquire.env) (a : m.acquire) (ws : List acquire.wait)
    (result : event) (top_depth : Int) (M : Nat) (h : acquire.inv M a) (hs : acquire.slack a)
    (hM : a.opts.fetch_width ≤ M ∧ 1 ≤ M) :
    acquire.keeps M a (acquire.fetch_head e a ws result top_depth) := by
  unfold acquire.fetch_head
  simp only
  split_ifs with hd
  · exact ⟨h, rfl, fun _ _ => hs⟩
  · have hk := m.acquire.submit_keeps e a ws result.event_id (result.get.origin.getD "") true
      (u64 (clamp (i64 (result.get.depth.getD json.undefined_number - top_depth)) 1 48)) M h hs hM
    rcases hsub : acquire.submit e a ws result.event_id (result.get.origin.getD "") true
      (u64 (clamp (i64 (result.get.depth.getD json.undefined_number - top_depth)) 1 48))
      with ⟨o, a1, ws1⟩
    rw [hsub] at hk
    obtain ⟨k1, k2, k3⟩ := hk
    cases o with
    | ret r => exact ⟨k1, k2, fun _ _ => k3 r rfl⟩
    | raise err => exact ⟨k1, k2, by intro r hr; cases hr⟩
    | blocked => exact ⟨k1, k2, by intro r hr; cases hr⟩

theorem m.acquire.head_for_each_keeps (e : acquire.env) (top_depth : Int) (M : Nat)
    (l : List (event × Bool)) :
    ∀ (a : m.acquire) (ws : List acquire.wait), acquire.inv M a → acquire.slack a →
      a.opts.fetch_width ≤ M ∧ 1 ≤ M →
      acquire.keeps M a (acquire.acquire_head.for_each e top_depth l a ws) := by
  induction l with
  | nil => intro a ws h hs _; exact ⟨h, rfl, fun _ _ => hs⟩
  | cons x rest ih =>
    intro a ws h hs hM
    obtain ⟨result, intr⟩ := x
    unfold acquire.acquire_head.for_each
    cases intr with
    | true => exact ⟨h, rfl, fun _ _ => hs⟩
    | false =>
      simp only [Bool.false_eq_true, if_false]
      have hk := m.acquire.fetch_head_keeps e a ws result top_depth M h hs hM
      rcases hf : acquire.fetch_head e a ws result top_depth with ⟨o, a1, ws1⟩
      rw [hf] at hk
      obtain ⟨k1, k2, k3⟩ := hk
      cases o with
      | ret r =>
        cases r with
        | true =>
          obtain ⟨j1, j2, j3⟩ := ih a1 ws1 k1 (k3 true rfl) (by rw [k2]; exact hM)
          exact ⟨j1, j2.trans k2, j3⟩
        | false => exact ⟨k1, k2, fun _ _ => k3 false rfl⟩
      | raise err => exact ⟨k1, k2, by intro r hr; cases hr⟩
      | blocked => exact ⟨k1, k2, by intro r hr; cases hr⟩

theorem m.acquire.submit_map_keeps {β : Type} (f : Bool → β) (e : acquire.env)
    (a : m.acquire) (ws : List acquire.wait) (event_id hint : String) (hint_only : Bool)
    (limit M : Nat) (h : acquire.inv M a) (hs : acquire.slack a)
    (hM : a.opts.fetch_width ≤ M ∧ 1 ≤ M) :
    acquire.keeps M a
      (match acquire.submit e a ws event_id hint hint_only limit with
      | (.ret submitted, a, ws) => ((.ret (f submitted) : outcome β), a, ws)
      | (.raise err, a, ws) => (.raise err, a, ws)
      | (.blocked, a, ws) => (.blocked, a, ws)) := by
  have hk := m.acquire.submit_keeps e a ws event_id hint hint_only limit M h hs hM
  rcases hsub : acquire.submit e a ws event_id hint hint_only limit with ⟨o, a1, ws1⟩
  rw [hsub] at hk
  obtain ⟨k1, k2, k3⟩ := hk
  cases o with
  | ret r => exact ⟨k1, k2, fun _ _ => k3 r rfl⟩
  | raise err => exact ⟨k1, k2, by intro r hr; cases hr⟩
  | blocked => exact ⟨k1, k2, by intro r hr; cases hr⟩

theorem m.acquire.closure_keeps (e : acquire.env) (room : acquire.store) (ref_min : Nat)
    (entry : String × Int × Nat) (v : acquire.fetch_missing.vars) (a : m.acquire)
    (ws : List acquire.wait) (M : Nat) (h : acquire.inv M a) (hs : acquire.slack a)
    (hM : a.opts.fetch_width ≤ M ∧ 1 ≤ M) :
    acquire.keeps M a (acquire.fetch_missing.closure e room ref_min entry v a ws) := by
  unfold acquire.fetch_missing.closure
  simp only
  split_ifs <;>
    first
    | exact ⟨h, rfl, fun _ _ => hs⟩
    | exact m.acquire.submit_map_keeps _ e a ws _ _ _ _ M h hs hM

theorem m.acquire.missing_for_each_keeps (e : acquire.env) (room : acquire.store)
    (ref_min M : Nat) (l : List ((String × Int × Nat) × Bool)) :
    ∀ (v : acquire.fetch_missing.vars) (a : m.acquire) (ws : List acquire.wait),
      acquire.inv M a → acquire.slack a → a.opts.fetch_width ≤ M ∧ 1 ≤ M →
      acquire.keeps M a (acquire.fetch_missing.for_each e room ref_min l v a ws) := by
  induction l with
  | nil => intro v a ws h hs _; exact ⟨h, rfl, fun _ _ => hs⟩
  | cons x rest ih =>
    intro v a ws h hs hM
    obtain ⟨entry, intr⟩ := x
    unfold acquire.fetch_missing.for_each
    cases intr with
    | true => exact ⟨h, rfl, fun _ _ => hs⟩
    | false =>
      simp only [Bool.false_eq_true, if_false]
      have hk := m.acquire.closure_keeps e room ref_min entry v a ws M h hs hM
      rcases hf : acquire.fetch_missing.closure e room ref_min entry v a ws with ⟨o, a1, ws1⟩
      rw [hf] at hk
      obtain ⟨k1, k2, k3⟩ := hk
      cases o with
      | ret r =>
        obtain ⟨j1, j2, j3⟩ := ih r a1 ws1 k1 (k3 r rfl) (by rw [k2]; exact hM)
        exact ⟨j1, j2.trans k2, j3⟩
      | raise err => exact ⟨k1, k2, by intro r hr; cases hr⟩
      | blocked => exact ⟨k1, k2, by intro r hr; cases hr⟩

theorem m.acquire.fetch_missing_keeps (e : acquire.env) (room : acquire.store) (a : m.acquire)
    (ws : List acquire.wait) (ref_min M : Nat) (h : acquire.inv M a) (hs : acquire.slack a)
    (hM : a.opts.fetch_width ≤ M ∧ 1 ≤ M) :
    acquire.keeps M a (acquire.fetch_missing e room a ws ref_min) := by
  unfold acquire.fetch_missing
  simp only
  have hk := m.acquire.missing_for_each_keeps e room ref_min M
    (room.missing (acquire.fetch_missing.depth_range room a))
    { ref_top := ref_min, ret := false } a ws h hs hM
  rcases hf : acquire.fetch_missing.for_each e room ref_min
    (room.missing (acquire.fetch_missing.depth_range room a))
    { ref_top := ref_min, ret := false } a ws with ⟨o, a1, ws1⟩
  rw [hf] at hk
  obtain ⟨k1, k2, k3⟩ := hk
  cases o with
  | ret r => exact ⟨k1, k2, fun _ _ => k3 r rfl⟩
  | raise err => exact ⟨k1, k2, by intro r hr; cases hr⟩
  | blocked => exact ⟨k1, k2, by intro r hr; cases hr⟩

theorem m.acquire.missing_loop_keeps (e : acquire.env) (rooms : Nat → acquire.store) (M : Nat)
    (n : Nat) :
    ∀ (i ref_min : Nat) (a : m.acquire) (ws : List acquire.wait),
      acquire.inv M a → acquire.slack a → a.opts.fetch_width ≤ M ∧ 1 ≤ M →
      acquire.keeps M a (acquire.acquire_missing.loop e rooms n i ref_min a ws) := by
  induction n with
  | zero => intro i ref_min a ws h hs _; exact ⟨h, rfl, fun _ _ => hs⟩
  | succ n ih =>
    intro i ref_min a ws h hs hM
    unfold acquire.acquire_missing.loop
    have hk := m.acquire.fetch_missing_keeps e (rooms i) a ws ref_min M h hs hM
    rcases hf : acquire.fetch_missing e (rooms i) a ws ref_min with ⟨o, a1, ws1⟩
    rw [hf] at hk
    obtain ⟨k1, k2, k3⟩ := hk
    cases o with
    | ret r =>
      obtain ⟨ret, ref_min'⟩ := r
      simp only
      split_ifs
      · exact ⟨k1, k2, fun _ _ => k3 _ rfl⟩
      · exact ⟨k1, k2, fun _ _ => k3 _ rfl⟩
      · obtain ⟨j1, j2, j3⟩ := ih (i + 1) ref_min' a1 ws1 k1 (k3 _ rfl) (by rw [k2]; exact hM)
        exact ⟨j1, j2.trans k2, j3⟩
    | raise err => exact ⟨k1, k2, by intro r hr; cases hr⟩
    | blocked => exact ⟨k1, k2, by intro r hr; cases hr⟩

theorem m.acquire.complete_inv (e : acquire.env) (M : Nat) (n : Nat) :
    ∀ (a : m.acquire) (ws : List acquire.wait), acquire.inv M a →
      acquire.inv M (acquire.complete e n a ws).2.1 ∧
      (acquire.complete e n a ws).2.1.opts = a.opts ∧
      (∀ u, (acquire.complete e n a ws).1 = .ret u →
        (acquire.complete e n a ws).2.1.fetching = []) := by
  induction n with
  | zero => intro a ws h; exact ⟨h, rfl, by intro u hu; cases hu⟩
  | succ n ih =>
    intro a ws h
    unfold acquire.complete
    by_cases hE : a.fetching.isEmpty = true
    · simp only [hE, if_true]
      exact ⟨h, trivial, fun _ _ => List.isEmpty_iff.1 hE⟩
    · simp only [hE, Bool.false_eq_true, if_false]
      obtain ⟨i1, i2, -, -, -⟩ := m.acquire.while_handle_inv e M ws a h
      rcases hw : acquire.while_handle e a ws with ⟨o, a1, ws1⟩
      rw [hw] at i1 i2
      cases o with
      | ret u =>
        obtain ⟨j1, j2, j3⟩ := ih a1 ws1 i1
        exact ⟨j1, j2.trans i2, j3⟩
      | raise err => exact ⟨i1, i2, by intro r hr; cases hr⟩
      | blocked => exact ⟨i1, i2, by intro r hr; cases hr⟩

theorem m.acquire.initial_inv (opts : acquire.options) (M : Nat) :
    acquire.inv M { opts := opts } ∧ acquire.slack { opts := opts } := by
  constructor
  · refine ⟨Nat.zero_le _, ?_, List.nodup_nil⟩
    intro n hn
    cases hn
  · exact Or.inr rfl

theorem m.acquire.acquire_inv (e : acquire.env) (room : acquire.store)
    (rooms : Nat → acquire.store) (opts : acquire.options) (ws : List acquire.wait) (M : Nat)
    (hM : opts.fetch_width ≤ M ∧ 1 ≤ M) :
    acquire.inv M (acquire.acquire e room rooms opts ws).2.1 ∧
    (∀ u, (acquire.acquire e room rooms opts ws).1 = .ret u →
      (acquire.acquire e room rooms opts ws).2.1.fetching = []) := by
  obtain ⟨h0, s0⟩ := m.acquire.initial_inv opts M
  unfold acquire.acquire
  simp only
  have hhead : acquire.keeps M { opts := opts }
      (if opts.head = true then acquire.acquire_head e room { opts := opts } ws
        else (.ret (), { opts := opts }, ws)) := by
    split_ifs
    · exact m.acquire.head_for_each_keeps e _ M _ _ ws h0 s0 hM
    · exact ⟨h0, rfl, fun _ _ => s0⟩
  rcases h1 : (if opts.head = true then acquire.acquire_head e room { opts := opts } ws
      else (.ret (), { opts := opts }, ws)) with ⟨o1, a1, ws1⟩
  rw [h1] at hhead
  obtain ⟨k1, k2, k3⟩ := hhead
  simp only at k1 k2 k3
  cases o1 with
  | raise err => exact ⟨k1, by intro u hu; cases hu⟩
  | blocked => exact ⟨k1, by intro u hu; cases hu⟩
  | ret u1 =>
    simp only
    have hM1 : a1.opts.fetch_width ≤ M ∧ 1 ≤ M := by rw [k2]; exact hM
    have hmiss : acquire.keeps M a1
        (if opts.missing = true then acquire.acquire_missing e rooms a1 ws1
          else (.ret (), a1, ws1)) := by
      split_ifs
      · exact m.acquire.missing_loop_keeps e rooms M _ _ _ a1 ws1 k1 (k3 u1 rfl) hM1
      · exact ⟨k1, rfl, fun _ _ => k3 u1 rfl⟩
    rcases h2 : (if opts.missing = true then acquire.acquire_missing e rooms a1 ws1
        else (.ret (), a1, ws1)) with ⟨o2, a2, ws2⟩
    rw [h2] at hmiss
    obtain ⟨j1, j2, j3⟩ := hmiss
    simp only at j1 j2 j3
    cases o2 with
    | raise err => exact ⟨j1, by intro u hu; cases hu⟩
    | blocked => exact ⟨j1, by intro u hu; cases hu⟩
    | ret u2 =>
      simp only
      obtain ⟨c1, -, c3⟩ := m.acquire.complete_inv e M (ws2.length + 1) a2 ws2 j1
      exact ⟨c1, c3⟩


theorem m.acquire.handle_frame (e : acquire.env) (a : m.acquire) (w : acquire.wait) :
    (acquire.handle e a w).2.requests = a.requests ∧
    (acquire.handle e a w).2.fetching.Sublist a.fetching := by
  unfold acquire.handle
  split_ifs
  · exact ⟨rfl, List.Sublist.refl _⟩
  · cases w with
    | timeout => exact ⟨rfl, List.Sublist.refl _⟩
    | ready i c =>
      simp only [List.get?_eq_getElem?]
      cases hg : a.fetching[i % a.fetching.length]? with
      | none => exact ⟨rfl, List.Sublist.refl _⟩
      | some r =>
        obtain ⟨hf, -, -, hr⟩ := m.acquire.handle_result_frame e a r c
        simp only [hf, hr]
        exact ⟨trivial, List.eraseIdx_sublist _ _⟩

theorem m.acquire.while_handle_frame (e : acquire.env) (ws : List acquire.wait) :
    ∀ a : m.acquire,
      (acquire.while_handle e a ws).2.1.requests = a.requests ∧
      (acquire.while_handle e a ws).2.1.fetching.Sublist a.fetching := by
  induction ws with
  | nil =>
    intro a
    unfold acquire.while_handle
    split_ifs <;> exact ⟨rfl, List.Sublist.refl _⟩
  | cons w ws ih =>
    intro a
    unfold acquire.while_handle
    split_ifs
    · exact ⟨rfl, List.Sublist.refl _⟩
    · obtain ⟨h1, h2⟩ := m.acquire.handle_frame e a w
      rcases hh : acquire.handle e a w with ⟨o, a1⟩
      rw [hh] at h1 h2
      cases o with
      | ret b =>
        cases b with
        | true =>
          obtain ⟨i1, i2⟩ := ih a1
          exact ⟨i1.trans h1, i2.trans h2⟩
        | false => exact ⟨h1, h2⟩
      | raise err => exact ⟨h1, h2⟩
      | blocked => exact ⟨h1, h2⟩

theorem m.acquire.submit_started (e : acquire.env) (a : m.acquire) (ws : List acquire.wait)
    (event_id hint : String) (hint_only : Bool) (limit : Nat)
    (hst : acquire.started a event_id = true) :
    (acquire.submit e a ws event_id hint hint_only limit).2.1.requests = a.requests ∧
    (acquire.submit e a ws event_id hint hint_only limit).1 ≠ .ret true ∧
    (acquire.submit e a ws event_id hint hint_only limit).2.1.fetching.Sublist a.fetching := by
  unfold acquire.submit
  simp only [hst, Bool.not_true, Bool.false_eq_true, if_false, Bool.false_or]
  by_cases hfull : acquire.full a = true
  · simp only [hfull, if_true]
    obtain ⟨h1, h2⟩ := m.acquire.while_handle_frame e ws a
    rcases hw : acquire.while_handle e a ws with ⟨o, a1, ws1⟩
    rw [hw] at h1 h2
    cases o <;> exact ⟨h1, by simp, h2⟩
  · simp [hfull]

theorem m.acquire.start_requests (e : acquire.env) (a : m.acquire) (event_id hint : String)
    (hint_only : Bool) (limit : Nat) :
    (e.fetch_start (acquire.start.fopts a event_id hint hint_only limit) = .ok () →
      (acquire.start e a event_id hint hint_only limit).2.requests
        = a.requests ++ [acquire.start.fopts a event_id hint hint_only limit]) ∧
    (∀ err, e.fetch_start (acquire.start.fopts a event_id hint hint_only limit) = .error err →
      (acquire.start e a event_id hint hint_only limit).2 = a) := by
  constructor
  · intro hok
    simp [acquire.start, hok]
  · intro err herr
    cases err <;> simp [acquire.start, herr]

theorem m.acquire.submit_requests (e : acquire.env) (a : m.acquire)
    (ws : List acquire.wait) (event_id hint : String) (hint_only : Bool) (limit : Nat)
    (hst : acquire.started a event_id = false) :
    (acquire.submit e a ws event_id hint hint_only limit).2.1.requests
      = (acquire.start e a event_id hint hint_only limit).2.requests := by
  unfold acquire.submit
  simp only [hst, Bool.not_false, if_true]
  rcases hstart : acquire.start e a event_id hint hint_only limit with ⟨o, a1⟩
  cases o with
  | ret r =>
    simp only
    split_ifs
    · obtain ⟨h1, -⟩ := m.acquire.while_handle_frame e ws a1
      rcases hw : acquire.while_handle e a1 ws with ⟨o2, a2, ws2⟩
      rw [hw] at h1
      cases o2 <;> exact h1
    · rfl
  | raise err => rfl
  | blocked => rfl

theorem i64_of_range (x : Int) (h : -(2 ^ 63) ≤ x ∧ x < 2 ^ 63) : i64 x = x := by
  unfold i64
  omega

theorem clamp_int_bounds (g : Int) :
    1 ≤ clamp g 1 48 ∧ clamp g 1 48 ≤ 48 ∧ (g ≤ 1 → clamp g 1 48 = 1) := by
  unfold clamp
  split_ifs <;> omega

theorem u64_of_small (x : Int) (h : 0 ≤ x ∧ x < 2 ^ 64) : u64 x = x.toNat := by
  unfold u64
  rw [Int.emod_eq_of_lt h.1 h.2]

theorem m.acquire.gap_90_80 : (if (90 : Int) ≥ 80 then u64 (i64 (90 - 80)) else 0) = 10 := by
  decide

theorem m.acquire.clamp_10 : clamp (10 : Nat) 1 48 = 10 := by
  decide

theorem int.checked_of_range (x : Int) (h : -(2 ^ 31) ≤ x ∧ x < 2 ^ 31) :
    int.checked x = some x := by
  unfold int.checked
  rw [if_pos h]

/-- The closed form of `reqprio` for a `MAX_REQPRIO` in the range of `int`. -/
theorem fs.aio.reqprio_eq (M : Nat) (input : Int) (hM : M < 2 ^ 31) :
    fs.aio.reqprio M input
      = some ((M : Int) - (min (max input (0 - ((M / 2 : Nat) : Int))) ((M / 2 : Nat) : Int)
          + ((M / 2 : Nat) : Int))) := by
  have hlo : 0 - ((M / 2 : Nat) : Int)
      ≤ min (max input (0 - ((M / 2 : Nat) : Int))) ((M / 2 : Nat) : Int) :=
    le_min (le_max_right _ _) (by omega)
  have hhi : min (max input (0 - ((M / 2 : Nat) : Int))) ((M / 2 : Nat) : Int)
      ≤ ((M / 2 : Nat) : Int) := min_le_right _ _
  have h1 := int.checked_of_range ((M / 2 : Nat) : Int) ⟨by omega, by omega⟩
  have h2 := int.checked_of_range (0 - ((M / 2 : Nat) : Int)) ⟨by omega, by omega⟩
  have h3 := int.checked_of_range (min (max input (0 - ((M / 2 : Nat) : Int)))
    ((M / 2 : Nat) : Int) + ((M / 2 : Nat) : Int)) ⟨by omega, by omega⟩
  have h4 := int.checked_of_range (M : Int) ⟨by omega, by omega⟩
  have h5 := int.checked_of_range ((M : Int) - (min (max input (0 - ((M / 2 : Nat) : Int)))
    ((M / 2 : Nat) : Int) + ((M / 2 : Nat) : Int))) ⟨by omega, by omega⟩
  simp only [fs.aio.reqprio, Option.bind_eq_bind, Option.some_bind, h1, h2, h3, h4, h5]
  rw [if_pos ⟨by omega, by omega⟩]

/-- The loop of `split` stops at the first occurrence of `c` at or after the
index it starts from. -/
theorem js.split_loop_found (s : js.string) (c i : Nat) (hi : i < s.length)
    (hc : s[i]? = some c) (n j : Nat) (hj : j ≤ i) (hn : i - j < n)
    (hfirst : ∀ k, j ≤ k → k < i → s[k]? ≠ some c) :
    js.split.loop s c n j = .ret i := by
  induction n generalizing j with
  | zero => omega
  | succ n ih =>
    unfold js.split.loop
    have hjs : j < js.size s := by
      unfold js.size
      omega
    rw [if_pos hjs]
    rcases Nat.eq_or_lt_of_le hj with heq | hlt
    · subst heq
      simp [js.at, hc]
    · have hjl : j < s.length := by omega
      have hne : s[j]? ≠ some c := hfirst j le_rfl hlt
      have hget : s[j]? = some s[j] := List.getElem?_eq_getElem hjl
      have hx : s[j] ≠ c := fun h => hne (by rw [hget, h])
      simp only [js.at, List.get?_eq_getElem?, hget, ne_eq, hx, not_false_eq_true, if_true]
      exact ih (j + 1) (by omega) (by omega) (fun k hk1 hk2 => hfirst k (by omega) hk2)

/-- The loop of `split` runs to the end of a string in which `c` does not
occur from the index it starts from. -/
theorem js.split_loop_absent (s : js.string) (c : Nat) (n j : Nat) (hj : j ≤ s.length)
    (hn : s.length - j < n) (habsent : ∀ k, j ≤ k → s[k]? ≠ some c) :
    js.split.loop s c n j = .ret s.length := by
  induction n generalizing j with
  | zero => omega
  | succ n ih =>
    unfold js.split.loop
    rcases Nat.eq_or_lt_of_le hj with heq | hlt
    · subst heq
      simp [js.size]
    · have hjs : j < js.size s := hlt
      rw [if_pos hjs]
      have hne : s[j]? ≠ some c := habsent j le_rfl
      have hget : s[j]? = some s[j] := List.getElem?_eq_getElem hlt
      have hx : s[j] ≠ c := fun h => hne (by rw [hget, h])
      simp only [js.at, List.get?_eq_getElem?, hget, ne_eq, hx, not_false_eq_true, if_true]
      exact ih (j + 1) (by omega) (by omega) (fun k hk1 => habsent k (by omega))

/-- The limit of the tokens a request yields is the value of the initializer
of `limit`. -/
theorem pagination_tokens.limit_of_ok (e : messages.env) (request : resource.request)
    (page : ircd.pagination_tokens)
    (h : pagination_tokens.pagination_tokens e request = .ok page) :
    pagination_tokens.limit_init e request = .ok page.limit := by
  unfold pagination_tokens.pagination_tokens at h
  cases hb : pagination_tokens.body e request with
  | error err =>
    rw [hb] at h
    cases err <;> simp at h
  | ok p =>
    rw [hb] at h
    simp only [Except.ok.injEq] at h
    subst h
    unfold pagination_tokens.body at hb
    cases hl : pagination_tokens.limit_init e request with
    | error err => simp [hl, bind, Except.bind] at hb
    | ok l =>
      simp only [hl, bind, Except.bind, pure, Except.pure] at hb
      repeat' split at hb
      all_goals first
        | contradiction
        | (injection hb with hb; rw [← hb])

/-- The bounds of the scan: entered with the counters below their limits, or
at zero, it ends with each counter at most its limit, or at most 1, and with
as many events in the chunk as it added hits. -/
theorem get__messages.scan_bounds (e : messages.env) (request : resource.request)
    (page : pagination_tokens) (filter_query : String) (events : List (event × Nat))
    (v : get__messages.vars) (hh : v.hit < page.limit ∨ v.hit = 0)
    (hm : v.miss < e.max_filter_miss ∨ v.miss = 0) (n : Nat)
    (hc : v.chunk.length = n + v.hit) :
    (get__messages.scan e request page filter_query events v).2.hit ≤ max page.limit 1 ∧
    (get__messages.scan e request page filter_query events v).2.miss
      ≤ max e.max_filter_miss 1 ∧
    (get__messages.scan e request page filter_query events v).2.chunk.length
      = n + (get__messages.scan e request page filter_query events v).2.hit := by
  have hbase : v.hit ≤ max page.limit 1 ∧ v.miss ≤ max e.max_filter_miss 1 := by
    constructor
    · rcases hh with h | h <;> omega
    · rcases hm with h | h <;> omega
  induction events generalizing v with
  | nil => exact ⟨hbase.1, hbase.2, hc⟩
  | cons x rest ih =>
    obtain ⟨event, event_idx⟩ := x
    unfold get__messages.scan
    split
    · exact ⟨hbase.1, hbase.2, hc⟩
    · split
      · exact ⟨hbase.1, hbase.2, hc⟩
      · split
        · exact ⟨hbase.1, hbase.2, hc⟩
        · split <;> exact ⟨hbase.1, hbase.2, hc⟩
      · by_cases hf : (e.filter_empty filter_query || e.filter_match filter_query event) = true
        · simp only [hf, if_true]
          split
          · split
            · refine ⟨?_, hbase.2, ?_⟩
              · show v.hit + 1 ≤ max page.limit 1
                rcases hh with h | h <;> omega
              · show (_append e v.chunk event event_idx).length = n + (v.hit + 1)
                simp [_append, hc]
                omega
            · split
              · refine ⟨?_, hbase.2, ?_⟩
                · show v.hit + 1 ≤ max page.limit 1
                  rcases hh with h | h <;> omega
                · show (_append e v.chunk event event_idx).length = n + (v.hit + 1)
                  simp [_append, hc]
                  omega
              · refine ⟨?_, hbase.2, ?_⟩
                · show v.hit + 1 ≤ max page.limit 1
                  rcases hh with h | h <;> omega
                · show (_append e v.chunk event event_idx).length = n + (v.hit + 1)
                  simp [_append, hc]
                  omega
          · rename_i hcont
            simp only [ge_iff_le, not_or, not_le] at hcont
            exact ih _ (Or.inl hcont.1) (Or.inl hcont.2) (by simp [_append, hc]; omega)
              ⟨by have := hcont.1; simp only [] at this ⊢; omega,
                by have := hcont.2; simp only [] at this ⊢; omega⟩
        · simp only [hf, Bool.false_eq_true, if_false]
          split
          · split
            · refine ⟨hbase.1, ?_, hc⟩
              show v.miss + 1 ≤ max e.max_filter_miss 1
              rcases hm with h | h <;> omega
            · split
              · refine ⟨hbase.1, ?_, hc⟩
                show v.miss + 1 ≤ max e.max_filter_miss 1
                rcases hm with h | h <;> omega
              · refine ⟨hbase.1, ?_, hc⟩
                show v.miss + 1 ≤ max e.max_filter_miss 1
                rcases hm with h | h <;> omega
          · rename_i hcont
            simp only [ge_iff_le, not_or, not_le] at hcont
            exact ih _ (Or.inl hcont.1) (Or.inl hcont.2) hc
              ⟨by have := hcont.1; simp only [] at this ⊢; omega,
                by have := hcont.2; simp only [] at this ⊢; omega⟩

/-- Assigning back the value that `at(key)` yielded undoes an assignment
through the same reference. -/
theorem json.iov.assign_restore (list : json.iov) (key : String) (v temp : json.value)
    (h : json.iov.at list key = .ok temp) :
    json.iov.assign (json.iov.assign list key v) key temp = list := by
  induction list with
  | nil => simp [json.iov.at] at h
  | cons x rest ih =>
    by_cases hx : (x.1 == key) = true
    · have hat : temp = x.2 := by
        simp [json.iov.at, List.find?, hx] at h
        exact h.symm
      simp [json.iov.assign, hx, hat]
    · have hat : json.iov.at rest key = .ok temp := by
        simpa [json.iov.at, List.find?, hx] using h
      simp only [json.iov.assign, hx, Bool.false_eq_true, if_false]
      rw [ih hat]

/-- The scope of the pushed content leaves the list as it found it. -/
theorem m.essential_with_content_frame {α : Type} (list : json.iov) (content : json.value)
    (closure : json.iov → Except error α) :
    (m.event.essential.with_content list content closure).2 = list := rfl

theorem m.acquire.handle_opts (e : acquire.env) (a : m.acquire) (w : acquire.wait) :
    (acquire.handle e a w).2.opts = a.opts := by
  unfold acquire.handle
  split_ifs
  · rfl
  · cases w with
    | timeout => rfl
    | ready i c =>
      simp only [List.get?_eq_getElem?]
      cases hg : a.fetching[i % a.fetching.length]? with
      | none => rfl
      | some r => exact (m.acquire.handle_result_frame e a r c).2.2.1

theorem m.acquire.while_handle_opts (e : acquire.env) (ws : List acquire.wait) :
    ∀ a : m.acquire, (acquire.while_handle e a ws).2.1.opts = a.opts := by
  induction ws with
  | nil =>
    intro a
    unfold acquire.while_handle
    split_ifs <;> rfl
  | cons w ws ih =>
    intro a
    unfold acquire.while_handle
    split_ifs
    · rfl
    · have h1 := m.acquire.handle_opts e a w
      rcases hh : acquire.handle e a w with ⟨o, a1⟩
      rw [hh] at h1
      cases o with
      | ret b =>
        cases b with
        | true => exact (ih a1).trans h1
        | false => exact h1
      | raise err => exact h1
      | blocked => exact h1

theorem m.acquire.start_opts (e : acquire.env) (a : m.acquire) (event_id hint : String)
    (hint_only : Bool) (limit : Nat) :
    (acquire.start e a event_id hint hint_only limit).2.opts = a.opts := by
  cases hf : e.fetch_start (acquire.start.fopts a event_id hint hint_only limit) with
  | error err => cases err <;> simp [acquire.start, hf]
  | ok u => simp [acquire.start, hf]

theorem m.acquire.submit_opts (e : acquire.env) (a : m.acquire) (ws : List acquire.wait)
    (event_id hint : String) (hint_only : Bool) (limit : Nat) :
    (acquire.submit e a ws event_id hint hint_only limit).2.1.opts = a.opts := by
  have key : ∀ (o : outcome Bool) (a1 : m.acquire), a1.opts = a.opts →
      (match ((o, a1) : outcome Bool × m.acquire) with
        | (.ret ret, a) =>
          if ret || acquire.full a then
            match acquire.while_handle e a ws with
            | (.ret _, a, ws) => ((.ret ret, a, ws) : outcome Bool × m.acquire × List acquire.wait)
            | (.raise err, a, ws) => (.raise err, a, ws)
            | (.blocked, a, ws) => (.blocked, a, ws)
          else (.ret ret, a, ws)
        | (.raise err, a) => (.raise err, a, ws)
        | (.blocked, a) => (.blocked, a, ws)).2.1.opts = a.opts := by
    intro o a1 h1
    cases o with
    | ret r =>
      simp only
      split_ifs
      · have hw := m.acquire.while_handle_opts e ws a1
        rcases hh : acquire.while_handle e a1 ws with ⟨o2, a2, ws2⟩
        rw [hh] at hw
        cases o2 <;> exact hw.trans h1
      · exact h1
    | raise err => exact h1
    | blocked => exact h1
  unfold acquire.submit
  split_ifs
  · exact key _ _ (m.acquire.start_opts e a event_id hint hint_only limit)
  · exact key (.ret false) a rfl

/-- The closure of `fetch_missing` in closed form: it leaves everything as it
is for a reference its filters stop, and calls `submit` otherwise. -/
theorem m.acquire.closure_eq (e : acquire.env) (room : acquire.store) (ref_min : Nat)
    (entry : String × Int × Nat) (v : acquire.fetch_missing.vars) (a : m.acquire)
    (ws : List acquire.wait) :
    acquire.fetch_missing.closure e room ref_min entry v a ws
      = if m.acquire.reaches room a.opts ref_min entry.2.2 then
          (match acquire.submit e a ws entry.1 a.opts.hint false
              (clamp (m.acquire.gap_of room entry.2.2) 1 48) with
            | (.ret submitted, a, ws) =>
              (.ret { ref_top := max v.ref_top entry.2.2, ret := v.ret || submitted }, a, ws)
            | (.raise err, a, ws) => (.raise err, a, ws)
            | (.blocked, a, ws) => (.blocked, a, ws))
        else (.ret v, a, ws) := by
  unfold acquire.fetch_missing.closure m.acquire.reaches
  have hg : m.acquire.gap_of room entry.2.2
      = (if (room.sounding (room.event_id entry.2.2)).1
            ≥ (if (room.sounding (room.event_id entry.2.2)).2 = entry.2.2
                then room.twain (room.event_id entry.2.2) else (0, 0)).1
          then u64 (i64 ((room.sounding (room.event_id entry.2.2)).1
            - (if (room.sounding (room.event_id entry.2.2)).2 = entry.2.2
                then room.twain (room.event_id entry.2.2) else (0, 0)).1))
          else 0) := rfl
  dsimp only
  rw [← hg]
  generalize m.acquire.gap_of room entry.2.2 = g
  by_cases h1 : entry.2.2 < a.opts.ref.1 ∨ entry.2.2 < ref_min
  · rw [if_pos h1, if_neg]
    simp [h1]
  · rw [if_neg h1]
    by_cases h2 : entry.2.2 > a.opts.ref.2
    · rw [if_pos h2, if_neg]
      simp [h2]
    · rw [if_neg h2]
      by_cases h3 : a.opts.viewport_size ≠ 0 ∧
          room.count (min entry.2.2 room.top.2.2, max entry.2.2 room.top.2.2)
            > a.opts.viewport_size
      · rw [if_pos h3, if_neg]
        simp only [decide_eq_true_eq]
        rintro ⟨-, -, h, -⟩
        exact h h3
      · rw [if_neg h3]
        by_cases h4 : g < a.opts.gap.1 ∨ g > a.opts.gap.2
        · rw [if_pos h4, if_neg]
          simp only [decide_eq_true_eq]
          rintro ⟨-, -, -, h⟩
          exact h h4
        · rw [if_neg h4, if_pos]
          simp only [decide_eq_true_eq]
          exact ⟨h1, h2, h3, h4⟩

theorem le_foldl_max (l : List Nat) (x : Nat) : x ≤ l.foldl max x := by
  induction l generalizing x with
  | nil => exact le_rfl
  | cons y rest ih => exact le_trans (le_max_left x y) (ih (max x y))

/-- The enumeration of `fetch_missing`, when it returns, leaves `ref_top` at
the maximum of its value before and the indexes of the references that
reached `submit`, and the options as they were. -/
theorem m.acquire.for_each_ref_top (e : acquire.env) (room : acquire.store) (ref_min : Nat)
    (l : List ((String × Int × Nat) × Bool)) :
    ∀ (v : acquire.fetch_missing.vars) (a : m.acquire) (ws : List acquire.wait)
      (v1 : acquire.fetch_missing.vars) (a1 : m.acquire) (ws1 : List acquire.wait),
      acquire.fetch_missing.for_each e room ref_min l v a ws = (.ret v1, a1, ws1) →
      v1.ref_top = (m.acquire.reached room a.opts ref_min l).foldl max v.ref_top ∧
      a1.opts = a.opts := by
  induction l with
  | nil =>
    intro v a ws v1 a1 ws1 h
    simp only [acquire.fetch_missing.for_each, Prod.mk.injEq, outcome.ret.injEq] at h
    obtain ⟨hv, ha, -⟩ := h
    subst hv
    subst ha
    exact ⟨rfl, rfl⟩
  | cons x rest ih =>
    obtain ⟨entry, intr⟩ := x
    intro v a ws v1 a1 ws1 h
    unfold acquire.fetch_missing.for_each at h
    cases intr with
    | true =>
      simp only [if_true, Prod.mk.injEq, outcome.ret.injEq] at h
      obtain ⟨hv, ha, -⟩ := h
      subst hv
      subst ha
      exact ⟨by simp [m.acquire.reached], rfl⟩
    | false =>
      simp only [Bool.false_eq_true, if_false] at h
      rw [m.acquire.closure_eq] at h
      by_cases hr : m.acquire.reaches room a.opts ref_min entry.2.2 = true
      · rw [if_pos hr] at h
        have ho := m.acquire.submit_opts e a ws entry.1 a.opts.hint false
          (clamp (m.acquire.gap_of room entry.2.2) 1 48)
        rcases hs : acquire.submit e a ws entry.1 a.opts.hint false
          (clamp (m.acquire.gap_of room entry.2.2) 1 48) with ⟨o, a2, ws2⟩
        rw [hs] at h ho
        cases o with
        | ret submitted =>
          simp only at h ho
          obtain ⟨h1, h2⟩ := ih _ a2 ws2 v1 a1 ws1 h
          rw [ho] at h1
          refine ⟨?_, h2.trans ho⟩
          rw [h1]
          simp [m.acquire.reached, hr]
        | raise err => simp at h
        | blocked => simp at h
      · rw [if_neg hr] at h
        simp only at h
        obtain ⟨h1, h2⟩ := ih v a ws v1 a1 ws1 h
        refine ⟨?_, h2⟩
        rw [h1]
        simp [m.acquire.reached, hr]

/-- The gap the closure computes is the gap of the specification when the
depths are values of `int64_t`. -/
theorem m.acquire.gap_of_eq_spec (room : acquire.store) (ref_idx : Nat)
    (hs : (room.sounding (room.event_id ref_idx)).1 < 2 ^ 63)
    (ht : -(2 ^ 63) ≤ (room.twain (room.event_id ref_idx)).1) :
    (m.acquire.gap_of room ref_idx : Int) = m.acquire.spec_gap room ref_idx := by
  unfold m.acquire.gap_of m.acquire.spec_gap
  dsimp only
  by_cases hi : (room.sounding (room.event_id ref_idx)).2 = ref_idx
  · simp only [hi, if_true]
    split_ifs with hge
    · unfold u64 i64
      omega
    · have : (0 : Int) = max ((room.sounding (room.event_id ref_idx)).1
          - (room.twain (room.event_id ref_idx)).1) 0 := by omega
      simpa using this
  · simp only [hi, if_false]
    split_ifs with hge
    · unfold u64 i64
      omega
    · have : (0 : Int) = max ((room.sounding (room.event_id ref_idx)).1 - 0) 0 := by
        simp only at hge
        omega
      simpa using this

theorem clamp_nat_bounds (g : Nat) :
    1 ≤ clamp g 1 48 ∧ clamp g 1 48 ≤ 48 ∧ (1 ≤ g → g ≤ 48 → clamp g 1 48 = g) := by
  unfold clamp
  split_ifs <;> omega

theorem m.create.recorded_refl (st : m.create.state) : m.create.recorded st st :=
  ⟨[], [], by simp, by simp, rfl⟩

theorem m.create.failures_append (a b : List (m.create.call × Option error)) :
    m.create.failures (a ++ b) = m.create.failures a + m.create.failures b := by
  simp [m.create.failures]

theorem m.create.recorded_trans (st st1 st2 : m.create.state)
    (h1 : m.create.recorded st st1) (h2 : m.create.recorded st1 st2) :
    m.create.recorded st st2 := by
  obtain ⟨a1, m1, hc1, he1, hl1⟩ := h1
  obtain ⟨a2, m2, hc2, he2, hl2⟩ := h2
  refine ⟨a1 ++ a2, m1 ++ m2, ?_, ?_, ?_⟩
  · rw [hc2, hc1, List.append_assoc]
  · rw [he2, he1]
    cases st.errors <;> simp
  · rw [List.length_append, m.create.failures_append, hl1, hl2]

theorem m.create.quiet_run (e : m.create.env) (c : m.create.call) :
    m.create.quiet (m.create.run e c) := by
  intro st
  unfold m.create.run
  cases h : e.raises st.calls c with
  | none => exact ⟨[(c, none)], rfl, rfl, fun _ => rfl, fun err herr => by simp at herr⟩
  | some err => exact ⟨[(c, some err)], rfl, rfl, fun herr => by simp at herr, fun _ _ => rfl⟩

theorem m.create.quiet_seq (a b : m.create.step Unit) (ha : m.create.quiet a)
    (hb : m.create.quiet b) : m.create.quiet (m.create.seq a b) := by
  intro st
  obtain ⟨a1, hc1, he1, ho1, hf1⟩ := ha st
  unfold m.create.seq
  rcases hr : a st with ⟨r, st1⟩
  rw [hr] at hc1 he1 ho1 hf1
  cases r with
  | error err => exact ⟨a1, hc1, he1, fun h => by simp at h, fun err2 _ => hf1 err rfl⟩
  | ok u =>
    obtain ⟨a2, hc2, he2, ho2, hf2⟩ := hb st1
    refine ⟨a1 ++ a2, ?_, ?_, ?_, ?_⟩
    · simp only at hc1 ⊢
      rw [hc2, hc1, List.append_assoc]
    · simp only at he1 ⊢
      rw [he2, he1]
    · intro h
      rw [m.create.failures_append, ho1 rfl, ho2 h]
    · intro err h
      rw [m.create.failures_append, ho1 rfl, hf2 err h]

/-- A block whose handler reports returns, with what raised reported. -/
theorem m.create.records_try (e : m.create.env) (direct : Bool) (body : m.create.step Unit)
    (fmt : String) (args : error → List m.create.arg) (hb : m.create.quiet body) :
    m.create.records direct
      (m.create.try_catch body (fun err => m.create.report_error e fmt (args err))) := by
  intro st
  obtain ⟨a1, hc1, he1, ho1, hf1⟩ := hb st
  unfold m.create.try_catch
  rcases hr : body st with ⟨r, st1⟩
  rw [hr] at hc1 he1 ho1 hf1
  cases r with
  | ok u =>
    refine ⟨Or.inl rfl, a1, [], hc1, ?_, ?_⟩
    · simp only at he1 ⊢
      rw [he1]
      cases st.errors <;> simp
    · rw [ho1 rfl]
      rfl
  | error err =>
    refine ⟨Or.inl rfl, a1, [e.sprintf fmt (args err)], hc1, ?_, ?_⟩
    · simp only [m.create.report_error] at he1 ⊢
      rw [he1]
    · rw [hf1 err rfl]
      rfl

theorem m.create.records_skip (direct : Bool) : m.create.records direct m.create.skip :=
  fun st => ⟨Or.inl rfl, m.create.recorded_refl st⟩

theorem m.create.records_seq (direct : Bool) (a b : m.create.step Unit)
    (ha : m.create.records direct a) (hb : m.create.records direct b) :
    m.create.records direct (m.create.seq a b) := by
  intro st
  obtain ⟨h1, h2⟩ := ha st
  unfold m.create.seq
  rcases hr : a st with ⟨r, st1⟩
  rw [hr] at h1 h2
  cases r with
  | error err =>
    refine ⟨?_, h2⟩
    rcases h1 with h1 | h1
    · simp at h1
    · exact Or.inr h1
  | ok u =>
    obtain ⟨h3, h4⟩ := hb st1
    exact ⟨h3, m.create.recorded_trans _ _ _ h2 h4⟩

theorem m.create.records_initial_state (e : m.create.env) (direct : Bool)
    (room_id creator : String) (l : List json.object) :
    ∀ i, m.create.records direct (m.create.initial_state e room_id creator l i) := by
  induction l with
  | nil => exact fun _ => m.create.records_skip direct
  | cons event rest ih =>
    intro i
    unfold m.create.initial_state
    exact m.create.records_seq direct _ _
      (m.create.records_try e direct _ _ (fun err => [.num i, .str (e.what err)])
        (m.create.quiet_run e _))
      (ih (i + 1))

theorem m.create.records_invite (e : m.create.env) (c : m.createroom)
    (room_id creator : String) (l : List String) :
    m.create.records c.is_direct (m.create.invite e c room_id creator l) := by
  induction l with
  | nil => exact m.create.records_skip _
  | cons user rest ih =>
    unfold m.create.invite
    refine m.create.records_seq _ _ _ ?_ ih
    intro st
    obtain ⟨a1, hc1, he1, ho1, hf1⟩ := m.create.quiet_seq _ _
      (m.create.quiet_run e (.user_id user))
      (m.create.quiet_run e (.invite room_id user creator
        (if c.is_direct then [("is_direct", .lit "true")] else []))) st
    unfold m.create.try_catch
    rcases hr : m.create.seq (m.create.run e (.user_id user))
      (m.create.run e (.invite room_id user creator
        (if c.is_direct then [("is_direct", .lit "true")] else []))) st with ⟨r, st1⟩
    rw [hr] at hc1 he1 ho1 hf1
    cases r with
    | ok u =>
      refine ⟨Or.inl rfl, a1, [], hc1, ?_, ?_⟩
      · simp only at he1 ⊢
        rw [he1]
        cases st.errors <;> simp
      · rw [ho1 rfl]
        rfl
    | error err =>
      simp only at hc1 he1
      by_cases hm : err.is_m = true
      · simp only [hm, if_true, m.create.seq, m.create.report_error]
        by_cases hd : c.is_direct = true
        · simp only [hd, if_true]
          exact ⟨Or.inr ⟨trivial, err, hm, rfl⟩, a1, _, hc1, by rw [he1],
            by rw [hf1 err rfl]; rfl⟩
        · simp only [hd, Bool.false_eq_true, if_false]
          exact ⟨Or.inl trivial, a1, _, hc1, by rw [he1], by rw [hf1 err rfl]; rfl⟩
      · simp only [hm, Bool.false_eq_true, if_false, m.create.report_error]
        exact ⟨Or.inl trivial, a1, _, hc1, by rw [he1], by rw [hf1 err rfl]; rfl⟩

/-- The statements of `m::create` after the creator's join return, or in a
direct room raise an `m::error`, with every call that raised reported. -/
theorem m.create.records_rest (e : m.create.env) (c : m.createroom) (room_id creator : String) :
    m.create.records c.is_direct (m.create.rest e c room_id creator) := by
  unfold m.create.rest
  refine m.create.records_seq _ _ _ ?_ (m.create.records_seq _ _ _ ?_
    (m.create.records_seq _ _ _ ?_ (m.create.records_seq _ _ _ ?_
    (m.create.records_seq _ _ _ (m.create.records_initial_state e _ room_id creator _ 0)
    (m.create.records_seq _ _ _ ?_ (m.create.records_seq _ _ _ ?_
    (m.create.records_seq _ _ _ (m.create.records_invite e c room_id creator _)
    (m.create.records_seq _ _ _ ?_ ?_))))))))
  · unfold m.create.power_levels
    split_ifs
    · cases c.power_level_content_override with
      | some content =>
        exact m.create.records_try e _ _ _ (fun err => [.str (e.what err)])
          (m.create.quiet_run e _)
      | none =>
        exact m.create.records_try e _ _ _ (fun err => [.str (e.what err)])
          (m.create.quiet_seq _ _ (m.create.quiet_run e _) (m.create.quiet_run e _))
    · exact m.create.records_skip _
  · unfold m.create.join_rules
    dsimp only
    split_ifs <;> first
      | exact m.create.records_skip _
      | exact m.create.records_try e _ _ _ (fun err => [.str (e.what err)])
          (m.create.quiet_run e _)
  · unfold m.create.history_visibility
    split_ifs <;> first
      | exact m.create.records_skip _
      | exact m.create.records_try e _ _ _ (fun err => [.str (e.what err)])
          (m.create.quiet_run e _)
  · unfold m.create.guest_access
    split_ifs <;> first
      | exact m.create.records_skip _
      | exact m.create.records_try e _ _ _ (fun err => [.str (e.what err)])
          (m.create.quiet_run e _)
  · unfold m.create.name
    split_ifs <;> first
      | exact m.create.records_skip _
      | exact m.create.records_try e _ _ _ (fun err => [.str (e.what err)])
          (m.create.quiet_run e _)
  · unfold m.create.topic
    split_ifs <;> first
      | exact m.create.records_skip _
      | exact m.create.records_try e _ _ _ (fun err => [.str (e.what err)])
          (m.create.quiet_run e _)
  · unfold m.create.guest_can_join
    split_ifs <;> first
      | exact m.create.records_skip _
      | exact m.create.records_try e _ _ _ (fun err => [.str (e.what err)])
          (m.create.quiet_run e _)
  · unfold m.create.visibility
    split_ifs <;> first
      | exact m.create.records_skip _
      | exact m.create.records_try e _ _ _ (fun err => [.str (e.what err)])
          (m.create.quiet_run e _)

theorem m.verify_loop_raises (f : String → Except error Bool) (pre : json.object)
    (k : String) (v : json.value) (post : json.object) (err : error)
    (hpre : ∀ x ∈ pre, f x.1 = .ok false) (hk : f k = .error err) :
    verify.loop f (pre ++ (k, v) :: post) = .error err := by
  induction pre with
  | nil =>
    simp only [List.nil_append]
    unfold verify.loop
    simp [hk, bind, Except.bind]
  | cons x rest ih =>
    obtain ⟨k0, v0⟩ := x
    simp only [List.cons_append]
    unfold verify.loop
    have h0 : f k0 = .ok false := hpre (k0, v0) (List.mem_cons_self _ _)
    simp only [h0, bind, Except.bind, Bool.false_eq_true, if_false]
    exact ih (fun z hz => hpre z (List.mem_cons_of_mem _ hz))

theorem m.verify_raises (stringify_event : event → String)
    (pk_verify : ed25519.pk → String → ed25519.sig → Bool)
    (b64decode : String → Except error ed25519.sig)
    (node_key : String → String → Except error (Option ed25519.pk))
    (e : event) (origin : String) (sigs pre : json.object) (k : String) (v : json.value)
    (post : json.object) (err : error) (hs : e.get.signatures = some sigs)
    (ho : json.object.at sigs origin = .ok (.obj (pre ++ (k, v) :: post)))
    (hpre : ∀ x ∈ pre,
      verify_keyid stringify_event pk_verify b64decode node_key e origin x.1 = .ok false)
    (hk : verify_keyid stringify_event pk_verify b64decode node_key e origin k = .error err) :
    verify stringify_event pk_verify b64decode node_key e origin = .error err := by
  unfold verify
  simp only [hs, tuple_at, bind, Except.bind, ho, json.value.as_object]
  exact m.verify_loop_raises _ pre k v post err hpre hk

/-! ## The redaction projection `m::essential` -/

/-- C1: `m::essential` is idempotent. Whenever `essential e` succeeds with
result `e'`, applying `essential` to `e'` succeeds and returns `e'` itself:
the content, `redacts`, `signatures` and every other member, the source
pointer and the `event_id` slot are all equal. -/
theorem m.essential_idempotent (e e' : event) (h : essential e = .ok e') :
    essential e' = .ok e' := by
  obtain ⟨t, ht⟩ := m.essential_type_of_ok e e' h
  rw [m.essential_eq_result e t ht] at h
  injection h with h
  subst h
  rw [m.essential_eq_result (essential_result t e) t ht, m.essential_result_idem]

/-- Witness of C1 at an `m.room.member` event with a display name. -/
theorem m.essential_idempotent_witness :
    essential (sample.received "m.room.member"
        [("membership", .str "join"), ("displayname", .str "x")])
      = .ok (sample.projected "m.room.member" [("membership", .str "join")]) ∧
    essential (sample.projected "m.room.member" [("membership", .str "join")])
      = .ok (sample.projected "m.room.member" [("membership", .str "join")]) :=
  ⟨by rfl, m.essential_idempotent
    (sample.received "m.room.member" [("membership", .str "join"), ("displayname", .str "x")])
    (sample.projected "m.room.member" [("membership", .str "join")]) (by rfl)⟩

/-- C2 (the code at the failing input): for an `m.room.member` event whose
content has no `membership` member, `m::essential` leaves the content as it
is, so the result keeps the key `displayname`, which is not in the whitelist
of the type. -/
theorem m.essential_member_keeps_unlisted_key :
    essential (sample.received "m.room.member" [("displayname", .str "x")])
      = .ok (sample.projected "m.room.member" [("displayname", .str "x")]) ∧
    "displayname" ∉ essential_keys "m.room.member" := by
  constructor
  · rfl
  · decide

/-- C3: for an `m.room.power_levels` event, `m::essential` succeeds and the
content of the result is the object whose members are, in the fixed order
`ban, events, events_default, kick, redact, state_default, users,
users_default`, those of these keys that the source content has, each with
the value of the source's (first) member of that name; no other member is
kept. -/
theorem m.essential_power_levels (e : event) (h : e.get.type = some "m.room.power_levels") :
    ∃ e', essential e = .ok e' ∧
      e'.get.content = some
        (["ban", "events", "events_default", "kick", "redact", "state_default", "users",
            "users_default"].filterMap (fun k =>
          match json.at_member e.get.content k with
          | .ok v => some (k, v)
          | .error _ => none)) := by
  refine ⟨_, m.essential_eq e _ h, ?_⟩
  simp only [essential_content, essential_keys]
  rw [← json.project_eq_filterMap]
  simp

/-- Witness of C3: the content `ban: 50, extra: "x"` projects to `ban: 50`. -/
theorem m.essential_power_levels_witness :
    ∃ e', essential (sample.received "m.room.power_levels"
        [("ban", .lit "50"), ("extra", .str "x")]) = .ok e' ∧
      e'.get.content = some [("ban", .lit "50")] := by
  obtain ⟨e', h1, h2⟩ := m.essential_power_levels
    (sample.received "m.room.power_levels" [("ban", .lit "50"), ("extra", .str "x")]) rfl
  exact ⟨e', h1, by rw [h2]; rfl⟩

/-! ## The content hash `event::hash` -/

/-- C4: when the members of the source other than `signatures`, `hashes`,
`unsigned`, `age_ts`, `outlier` and `destinations` number at most
`json::iov::max_size`, `event::hash` returns the SHA-256 of the serialization
of exactly these members, each with its value and in source order; hence a
second source with the same remaining members has the same hash. -/
theorem m.event_hash_strips (iov_max : Nat) (sha256 : String → ircd.sha256.buf)
    (stringify : List json.member → String) (source : json.object)
    (h : (source.filter (fun m => !decide (m.1 ∈
      ["signatures", "hashes", "unsigned", "age_ts", "outlier", "destinations"]))).length
        ≤ iov_max) :
    event.hash iov_max sha256 stringify source
      = .ok (sha256 (stringify (source.filter (fun m => !decide (m.1 ∈
          ["signatures", "hashes", "unsigned", "age_ts", "outlier", "destinations"]))))) ∧
    (∀ other : json.object,
      other.filter (fun m => !decide (m.1 ∈
          ["signatures", "hashes", "unsigned", "age_ts", "outlier", "destinations"]))
        = source.filter (fun m => !decide (m.1 ∈
          ["signatures", "hashes", "unsigned", "age_ts", "outlier", "destinations"])) →
      event.hash iov_max sha256 stringify other
        = event.hash iov_max sha256 stringify source) ∧
    ∀ (stringify_event : event → String) (e : event), e.source = some source →
      m.hash iov_max sha256 stringify stringify_event e
        = event.hash iov_max sha256 stringify source := by
  have key : ∀ s : json.object, event.hash iov_max sha256 stringify s =
      if (event.hash.kept s).length ≤ iov_max
      then .ok (sha256 (stringify (event.hash.kept s))) else .error .BAD_JSON := by
    intro s
    unfold event.hash
    rw [m.hash_loop_eq _ _ _ (Nat.zero_le _), m.hash_kept_eq]
    by_cases hl : (event.hash.kept s).length ≤ iov_max <;> simp [hl]
  change (event.hash.kept source).length ≤ iov_max at h
  refine ⟨by rw [key, if_pos h]; rfl, ?_, ?_⟩
  · intro other ho
    change event.hash.kept other = event.hash.kept source at ho
    rw [key, key, ho]
  · intro stringify_event e he
    simp [m.hash, he]

/-- Witness of C4 on the sample source with an array of three entries. -/
theorem m.event_hash_strips_witness :
    event.hash 3 sample.sha256 sample.stringify sample.source
      = .ok (sample.sha256 (sample.stringify
          [("type", .str "m.room.create"),
            ("content", .obj [("creator", .str "@u:example.org")]), ("depth", .lit "1")])) :=
  (m.event_hash_strips 3 sample.sha256 sample.stringify sample.source (by decide)).1

/-! ## Hash verification `verify_hash` -/

/-- C5: `verify_hash(e, h)` returns true exactly when `e` has a `hashes`
object with a `sha256` member whose string equals the unpadded base64 of `h`;
it never raises, and returns false when `hashes` or `hashes.sha256` is absent.
`verify_hash(e)` returns true exactly when `m::hash(e)` yields a digest `h`
and `hashes.sha256` equals the unpadded base64 of `h`. -/
theorem m.verify_hash_iff (iov_max : Nat) (sha256 : String → ircd.sha256.buf)
    (stringify : List json.member → String) (stringify_event : event → String)
    (e : event) (h : ircd.sha256.buf) :
    (verify_hash_with e h = .ok true ↔
      ∃ hashes v, e.get.hashes = some hashes ∧ json.object.at hashes "sha256" = .ok v ∧
        json.string v = b64encode_unpadded h) ∧
    (verify_hash_with e h = .ok true ∨ verify_hash_with e h = .ok false) ∧
    (e.get.hashes = none → verify_hash_with e h = .ok false) ∧
    (∀ hashes, e.get.hashes = some hashes → json.has (some hashes) "sha256" = false →
      verify_hash_with e h = .ok false) ∧
    (verify_hash iov_max sha256 stringify stringify_event e = .ok true ↔
      ∃ d, m.hash iov_max sha256 stringify stringify_event e = .ok d ∧
        ∃ hashes v, e.get.hashes = some hashes ∧ json.object.at hashes "sha256" = .ok v ∧
          json.string v = b64encode_unpadded d) := by
  have key : ∀ d : ircd.sha256.buf, (verify_hash_with e d = .ok true ↔
      ∃ hashes v, e.get.hashes = some hashes ∧ json.object.at hashes "sha256" = .ok v ∧
        json.string v = b64encode_unpadded d) := by
    intro d
    unfold verify_hash_with
    rw [m.verify_sha256b64_eq]
    cases hh : e.get.hashes with
    | none => simp
    | some hashes =>
      cases hf : hashes.find? (fun x => x.1 == "sha256") with
      | none => simp [json.object.at, hf]
      | some x => simp [json.object.at, hf]
  refine ⟨key h, ?_, ?_, ?_, ?_⟩
  · unfold verify_hash_with
    rw [m.verify_sha256b64_eq]
    cases e.get.hashes with
    | none => simp
    | some hashes =>
      cases hf : hashes.find? (fun x => x.1 == "sha256") with
      | none => simp [hf]
      | some x => cases hx : json.string x.2 == b64encode_unpadded h <;> simp [hf, hx]
  · intro hn
    unfold verify_hash_with
    rw [m.verify_sha256b64_eq, hn]
  · intro hashes hs hno
    unfold verify_hash_with
    rw [m.verify_sha256b64_eq, hs]
    cases hf : hashes.find? (fun x => x.1 == "sha256") with
    | none => simp [hf]
    | some x =>
      have := (json.has_some_iff hashes "sha256").2 ⟨x, hf⟩
      rw [hno] at this
      cases this
  · unfold verify_hash
    cases hd : m.hash iov_max sha256 stringify stringify_event e with
    | error err => simp [bind, Except.bind]
    | ok d =>
      simp only [bind, Except.bind]
      rw [key d]
      simp

/-- Witness of C5: the sample event verifies against its own content hash, and
an event without `hashes` does not. -/
theorem m.verify_hash_iff_witness :
    verify_hash 8 sample.sha256 sample.stringify (fun _ => "") sample.hashed = .ok true ∧
    verify_hash_with {} [] = .ok false :=
  ⟨(m.verify_hash_iff 8 sample.sha256 sample.stringify (fun _ => "") sample.hashed []).2.2.2.2.2
      ⟨_, rfl, _, _, rfl, rfl, rfl⟩,
    (m.verify_hash_iff 8 sample.sha256 sample.stringify (fun _ => "") {} []).2.2.1 rfl⟩

/-! ## Signature verification `m::verify` -/

/-- C6 (amended): `m::verify(e, o)`, with `vk k` the outcome of `verify(e, o, k)` for a
key ID `k`. (1) A `NOT_FOUND` raised by the key lookup for `k` gives `vk k =
false`: it is not propagated. (2) `vk k` is true exactly when the keys service
yields a public key for `(o, k)` under which the decoded signature
`signatures[o][k]` verifies over the serialization of `essential(e)`. (3)
`verify(e, o)` returns true exactly when some key ID of `signatures[o]` has
`vk` true and every key ID before it has `vk` false, none of them having
raised anything but the `NOT_FOUND` of the key lookup. (4) Hence, when no key
ID of `signatures[o]` raises out of `verify(e, o, k)`, `verify(e, o)` returns
true exactly when there is a key ID `k` in `signatures[o]` with `vk k` true.
(5) What `verify(e, o, k)` raises for a key ID that is tried, every key ID
before it having `vk` false, propagates out of `verify(e, o)`. -/
theorem m.verify_iff (stringify_event : event → String)
    (pk_verify : ed25519.pk → String → ed25519.sig → Bool)
    (b64decode : String → Except error ed25519.sig)
    (node_key : String → String → Except error (Option ed25519.pk))
    (e : event) (origin : String) :
    (∀ keyid, node_key origin keyid = .error .NOT_FOUND →
      verify_keyid stringify_event pk_verify b64decode node_key e origin keyid = .ok false) ∧
    (∀ keyid,
      verify_keyid stringify_event pk_verify b64decode node_key e origin keyid = .ok true ↔
        ∃ pk sigs osigs sv sig ess, node_key origin keyid = .ok (some pk) ∧
          e.get.signatures = some sigs ∧ json.object.at sigs origin = .ok (.obj osigs) ∧
          json.object.at osigs keyid = .ok sv ∧ b64decode (json.string sv) = .ok sig ∧
          essential e = .ok ess ∧ pk_verify pk (stringify_event ess) sig = true) ∧
    (verify stringify_event pk_verify b64decode node_key e origin = .ok true ↔
      ∃ sigs osigs, e.get.signatures = some sigs ∧
        json.object.at sigs origin = .ok (.obj osigs) ∧
        ∃ pre k v post, osigs = pre ++ (k, v) :: post ∧
          verify_keyid stringify_event pk_verify b64decode node_key e origin k = .ok true ∧
          ∀ x ∈ pre,
            verify_keyid stringify_event pk_verify b64decode node_key e origin x.1
              = .ok false) ∧
    ((∀ sigs osigs, e.get.signatures = some sigs →
        json.object.at sigs origin = .ok (.obj osigs) → ∀ x ∈ osigs,
          verify_keyid stringify_event pk_verify b64decode node_key e origin x.1 = .ok true ∨
          verify_keyid stringify_event pk_verify b64decode node_key e origin x.1
            = .ok false) →
      (verify stringify_event pk_verify b64decode node_key e origin = .ok true ↔
        ∃ sigs osigs, e.get.signatures = some sigs ∧
          json.object.at sigs origin = .ok (.obj osigs) ∧
          ∃ x ∈ osigs,
            verify_keyid stringify_event pk_verify b64decode node_key e origin x.1
              = .ok true)) ∧
    (∀ sigs pre k v post err, e.get.signatures = some sigs →
      json.object.at sigs origin = .ok (.obj (pre ++ (k, v) :: post)) →
      (∀ x ∈ pre,
        verify_keyid stringify_event pk_verify b64decode node_key e origin x.1
          = .ok false) →
      verify_keyid stringify_event pk_verify b64decode node_key e origin k = .error err →
      verify stringify_event pk_verify b64decode node_key e origin = .error err) := by
  refine ⟨?_, ?_, ?_, ?_, ?_⟩
  · intro keyid h
    exact m.verify_keyid_not_found _ _ _ _ _ _ _ h
  · intro keyid
    rw [m.verify_keyid_true_iff]
    constructor
    · rintro ⟨pk, hn, hv⟩
      obtain ⟨sigs, osigs, sv, sig, ess, h⟩ := (m.verify_pk_true_iff _ _ _ _ _ _ _).1 hv
      exact ⟨pk, sigs, osigs, sv, sig, ess, hn, h⟩
    · rintro ⟨pk, sigs, osigs, sv, sig, ess, hn, h⟩
      exact ⟨pk, hn, (m.verify_pk_true_iff _ _ _ _ _ _ _).2 ⟨sigs, osigs, sv, sig, ess, h⟩⟩
  · rw [m.verify_eq_loop]
    constructor
    · rintro ⟨sigs, osigs, hs, ho, hl⟩
      exact ⟨sigs, osigs, hs, ho, (m.verify_loop_true_iff _ _).1 hl⟩
    · rintro ⟨sigs, osigs, hs, ho, hl⟩
      exact ⟨sigs, osigs, hs, ho, (m.verify_loop_true_iff _ _).2 hl⟩
  · intro hno
    rw [m.verify_eq_loop]
    constructor
    · rintro ⟨sigs, osigs, hs, ho, hl⟩
      exact ⟨sigs, osigs, hs, ho, (m.verify_loop_no_raise _ _ (hno sigs osigs hs ho)).1 hl⟩
    · rintro ⟨sigs, osigs, hs, ho, hl⟩
      exact ⟨sigs, osigs, hs, ho, (m.verify_loop_no_raise _ _ (hno sigs osigs hs ho)).2 hl⟩
  · intro sigs pre k v post err hs ho hpre hk
    exact m.verify_raises _ _ _ _ e origin sigs pre k v post err hs ho hpre hk

/-- Witness of C6 (amended): the key lookup for the first key ID of the sample event
raises `NOT_FOUND`, the second key ID verifies, and `verify` returns true. -/
theorem m.verify_iff_witness :
    sample.node_key "example.org" "ed25519:0" = .error .NOT_FOUND ∧
    verify sample.stringify_event sample.pk_verify sample.b64decode sample.node_key
      sample.signed "example.org" = .ok true :=
  ⟨rfl, (m.verify_iff sample.stringify_event sample.pk_verify sample.b64decode
      sample.node_key sample.signed "example.org").2.2.1.2
    ⟨_, _, rfl, rfl, [("ed25519:0", .str "AAAA")], "ed25519:1", .str "c2ln", [], rfl,
      by rfl, by
        intro x hx
        rw [List.mem_singleton] at hx
        subst hx
        rfl⟩⟩

/-- C6 (counterexample): for the sample event, whose origin signed under
the key IDs `ed25519:0` and `ed25519:1`, the keys service yields for
`ed25519:1` the key under which that signature verifies, but the lookup for
`ed25519:0`, which is tried first, raises an error other than `NOT_FOUND`: it
propagates, and `verify` does not return true. -/
theorem m.verify_raises_before_valid_key :
    sample.signed.get.signatures
      = some [("example.org",
          .obj [("ed25519:0", .str "AAAA"), ("ed25519:1", .str "c2ln")])] ∧
    sample.node_key_timeout "example.org" "ed25519:0" = .error (.other "timeout") ∧
    verify_keyid sample.stringify_event sample.pk_verify sample.b64decode
      sample.node_key_timeout sample.signed "example.org" "ed25519:1" = .ok true ∧
    verify sample.stringify_event sample.pk_verify sample.b64decode sample.node_key_timeout
      sample.signed "example.org" = .error (.other "timeout") :=
  ⟨rfl, rfl, by rfl, by rfl⟩

/-! ## Signing `m::signatures` -/

/-- C8: for a 32-octet digest `h`, `make_id(e, "3", buf, h)` is `$` followed
by the unpadded standard-alphabet base64 of `h`, which has 43 characters of
the alphabet and no `:` (no server part); and for every version other than
"1", "2" and "3", `make_id(e, version, buf, h)` is `$` followed by the same
43 characters with `+` replaced by `-` and `/` by `_`, again without `:`. -/
theorem m.make_id_hash_v3_v4 (my_host_name : String) (e : event) (h : List byte)
    (hlen : h.length = 32) :
    make_id_hash my_host_name e "3" h = "$" ++ b64encode_unpadded h ∧
    (b64encode_unpadded h).length = 43 ∧
    (∀ c ∈ (b64encode_unpadded h).toList, c ∈ b64.dict ∧ c ≠ ':') ∧
    (∀ version, version ≠ "1" → version ≠ "2" → version ≠ "3" →
      make_id_hash my_host_name e version h
        = "$" ++ String.mk ((b64encode_unpadded h).toList.map
            (fun c => if c = '+' then '-' else if c = '/' then '_' else c)) ∧
      (String.mk ((b64encode_unpadded h).toList.map
            (fun c => if c = '+' then '-' else if c = '/' then '_' else c))).length = 43 ∧
      ∀ c ∈ (b64encode_unpadded h).toList.map
            (fun c => if c = '+' then '-' else if c = '/' then '_' else c), c ≠ ':') := by
  have hurl : (fun c => if c = '+' then '-' else if c = '/' then '_' else c) = b64.urlchar := by
    funext c; rfl
  have h43 : (b64encode_unpadded h).length = 43 := by
    simp [b64encode_unpadded, String.length, b64.chars_length, hlen]
  refine ⟨?_, h43, ?_, ?_⟩
  · simp [make_id_hash, id.event.make]
  · intro c hc
    have hm := b64.chars_mem h c (by simpa [b64encode_unpadded] using hc)
    exact ⟨hm, (b64.dict_no_colon c hm).1⟩
  · intro version h1 h2 h3
    rw [hurl]
    refine ⟨?_, ?_, ?_⟩
    · simp [make_id_hash, id.event.make, h1, h2, h3, b64tob64url]
    · simpa [String.length, b64encode_unpadded] using h43
    · intro c hc
      obtain ⟨d, hd, rfl⟩ := List.mem_map.1 hc
      have hm := b64.chars_mem h d (by simpa [b64encode_unpadded] using hd)
      exact (b64.dict_no_colon d hm).2

/-- Witness of C8 on the sample digest, whose base64 starts with `+/+/`. -/
theorem m.make_id_hash_v3_v4_witness :
    make_id_hash "construct.test" {} "3" sample.digest
      = "$+/+/AAAAAAAAAAAAAAAAAAAAAAAAAAAAAAAAAAAAAAA" ∧
    make_id_hash "construct.test" {} "5" sample.digest
      = "$-_-_AAAAAAAAAAAAAAAAAAAAAAAAAAAAAAAAAAAAAAA" :=
  ⟨(m.make_id_hash_v3_v4 "construct.test" {} sample.digest (by decide)).1.trans (by decide),
    ((m.make_id_hash_v3_v4 "construct.test" {} sample.digest (by decide)).2.2.2 "5"
      (by decide) (by decide) (by decide)).1.trans (by decide)⟩

/-- C9 (amended): for an event `e` whose `event_id` slot holds a (valid,
non-empty) ID and a non-empty room version string `v`: when `v` is "1" or "2",
`check_id(e, v)` is true iff the `event_id` member of `e` equals the slot;
when `v` is "3" it is true iff the v3 derivation yields the slot; for any
other `v` it is true iff the v4 derivation yields the slot. Hence for `v`
other than "1" and "2", an event whose slot is the ID `make_id(e, v, buf)`
satisfies `check_id(e, v)`. With an empty version string the version of the
slot's ID is used instead. -/
theorem m.check_id_iff (valid : String → Bool) (id_version : String → String)
    (v3 v4 : event → Except error String) (my_host_name : String)
    (hash_of : event → ircd.sha256.buf) (e : event) (v : String)
    (hid : e.event_id ≠ "") (hvalid : valid e.event_id = true) (hv : v ≠ "") :
    ((v = "1" ∨ v = "2") →
      (check_id_version valid id_version v3 v4 e v = true ↔
        e.get.event_id = some e.event_id)) ∧
    (v = "3" →
      (check_id_version valid id_version v3 v4 e v = true ↔ v3 e = .ok e.event_id)) ∧
    (v ≠ "1" → v ≠ "2" → v ≠ "3" →
      (check_id_version valid id_version v3 v4 e v = true ↔ v4 e = .ok e.event_id)) ∧
    (v ≠ "1" → v ≠ "2" → make_id my_host_name hash_of v3 v4 e v = .ok e.event_id →
      check_id_version valid id_version v3 v4 e v = true) ∧
    (id_version e.event_id ≠ "" →
      check_id_version valid id_version v3 v4 e ""
        = check_id_version valid id_version v3 v4 e (id_version e.event_id)) := by
  have h3iff : ∀ d : event → Except error String,
      (match d e with
        | .ok id => e.event_id == id
        | .error _ => false) = true ↔ d e = .ok e.event_id := by
    intro d
    cases hd : d e with
    | error err => simp
    | ok id =>
      simp only [beq_iff_eq, Except.ok.injEq]
      exact ⟨fun h => h.symm, fun h => h.symm⟩
  refine ⟨?_, ?_, ?_, ?_, ?_⟩
  · intro h12
    rw [m.check_id_version_eq _ _ _ _ _ _ hv, if_pos h12]
    cases hm : e.get.event_id with
    | none =>
      simp only [Option.getD_none, Bool.and_eq_true, beq_iff_eq]
      constructor
      · rintro ⟨-, h⟩; exact absurd h hid
      · intro h; cases h
    | some s =>
      simp only [Option.getD_some, Bool.and_eq_true, beq_iff_eq, Option.some.injEq]
      constructor
      · rintro ⟨-, h⟩; exact h.symm
      · intro h; subst h; exact ⟨hvalid, rfl⟩
  · intro h3
    have hn : ¬ (v = "1" ∨ v = "2") := by subst h3; decide
    rw [m.check_id_version_eq _ _ _ _ _ _ hv, if_neg hn, if_pos h3]
    exact h3iff v3
  · intro h1 h2 h3
    have hn : ¬ (v = "1" ∨ v = "2") := by rintro (h | h) <;> contradiction
    rw [m.check_id_version_eq _ _ _ _ _ _ hv, if_neg hn, if_neg h3]
    exact h3iff v4
  · intro h1 h2 hmk
    have hn : ¬ (v = "1" ∨ v = "2") := by rintro (h | h) <;> contradiction
    rw [m.check_id_version_eq _ _ _ _ _ _ hv, if_neg hn]
    unfold make_id at hmk
    have hn2 : ¬ ((v = "1" || v = "2") = true) := by simpa using hn
    rw [if_neg hn2] at hmk
    by_cases h3 : v = "3"
    · rw [if_pos h3] at hmk ⊢
      exact (h3iff v3).2 hmk
    · rw [if_neg h3] at hmk ⊢
      exact (h3iff v4).2 hmk
  · intro hne
    unfold check_id_version
    simp [hne]

/-- Witness of C9 (amended): the sample event carries the ID `make_id` derives for room
version "5", and `check_id` accepts it. -/
theorem m.check_id_iff_witness :
    make_id "construct.test" (fun _ => []) sample.v3 sample.v4 sample.identified "5"
      = .ok sample.identified.event_id ∧
    check_id_version sample.valid m.id.event.version sample.v3 sample.v4 sample.identified "5"
      = true :=
  ⟨by rfl, (m.check_id_iff sample.valid m.id.event.version sample.v3 sample.v4
    "construct.test" (fun _ => []) sample.identified "5" (by decide) (by decide)
    (by decide)).2.2.2.1 (by decide) (by decide) (by rfl)⟩

/-- C9 (counterexample): with the empty version string, `check_id` takes the
version from the ID in the slot. For the sample event of a version 1 room
that is "1", so `check_id(e, "")` compares the slot with the `event_id`
member and is true, although the slot is not the ID the v4 derivation
yields. -/
theorem m.check_id_empty_version_uses_id_version :
    check_id_version sample.valid m.id.event.version sample.v3 sample.v4
      sample.identified_v1 "" = true ∧
    sample.v4 sample.identified_v1 ≠ .ok sample.identified_v1.event_id := by
  constructor
  · rfl
  · intro h
    injection h with h
    revert h
    decide

/-- C10 (amended): the event constructed by `event(buf, source, version)` has
its `event_id` slot set to the ID derived from the source when `version` is
"3" (v3 derivation) or "4" (v4 derivation), and for any version other than
"1", "2", "3", "4" when the source has no `event_id` member (v4 derivation).
For such a version and a source that has an `event_id` member, the slot is
set to that member's (valid, non-empty) string instead, and nothing is
derived. -/
theorem m.event_of_source_version_id (valid : String → Bool)
    (tuple_of : json.object → event.tuple) (v3 v4 : json.object → Except error String)
    (source : json.object) (version eid : String) (heid : eid ≠ "") :
    (version = "3" → v3 source = .ok eid →
      event.of_source_version valid tuple_of v3 v4 source version
        = .ok { get := tuple_of source, source := some source, event_id := eid }) ∧
    (version = "4" → v4 source = .ok eid →
      event.of_source_version valid tuple_of v3 v4 source version
        = .ok { get := tuple_of source, source := some source, event_id := eid }) ∧
    (version ≠ "1" → version ≠ "2" → version ≠ "3" → version ≠ "4" →
      json.has (some source) "event_id" = false → v4 source = .ok eid →
      event.of_source_version valid tuple_of v3 v4 source version
        = .ok { get := tuple_of source, source := some source, event_id := eid }) ∧
    (version ≠ "1" → version ≠ "2" → version ≠ "3" → version ≠ "4" →
      ∀ val, json.object.at source "event_id" = .ok val → json.string val = eid →
      valid eid = true →
      event.of_source_version valid tuple_of v3 v4 source version
        = .ok { get := tuple_of source, source := some source, event_id := eid }) := by
  refine ⟨?_, ?_, ?_, ?_⟩
  · intro hv hd
    subst hv
    unfold event.of_source_version
    simp [hd, bind, Except.bind, m.of_source_id_given _ _ _ _ heid]
  · intro hv hd
    subst hv
    unfold event.of_source_version
    simp [hd, bind, Except.bind, m.of_source_id_given _ _ _ _ heid]
  · intro h1 h2 h3 h4 hno hd
    unfold event.of_source_version
    simp [h1, h2, h3, h4, hno, hd, bind, Except.bind, m.of_source_id_given _ _ _ _ heid]
  · intro h1 h2 h3 h4 val hat hs hval
    have hhas : json.has (some source) "event_id" = true := by
      unfold json.object.at at hat
      cases hf : source.find? (fun x => x.1 == "event_id") with
      | none => rw [hf] at hat; cases hat
      | some x => exact (json.has_some_iff source "event_id").2 ⟨x, hf⟩
    unfold event.of_source_version
    simp [h1, h2, h3, h4, hhas, hat, hs, hval, m.id.event.of, bind, Except.bind,
      m.of_source_id_given _ _ _ _ heid]

/-- Witness of C10 (amended): for version "4" the slot of the event built from
the sample source is the derived ID; for version "5" it is the `event_id`
member of the source. -/
theorem m.event_of_source_version_id_witness :
    event.of_source_version sample.valid sample.tuple_of sample.v3_source sample.v4_source
        sample.source_with_id "4"
      = .ok { get := sample.tuple_of sample.source_with_id,
              source := some sample.source_with_id,
              event_id := "$QQAAAAAAAAAAAAAAAAAAAAAAAAAAAAAAAAAAAAAAAAA" } ∧
    event.of_source_version sample.valid sample.tuple_of sample.v3_source sample.v4_source
        sample.source_with_id "5"
      = .ok { get := sample.tuple_of sample.source_with_id,
              source := some sample.source_with_id,
              event_id := "$abc:example.org" } :=
  ⟨(m.event_of_source_version_id sample.valid sample.tuple_of sample.v3_source
      sample.v4_source sample.source_with_id "4"
      "$QQAAAAAAAAAAAAAAAAAAAAAAAAAAAAAAAAAAAAAAAAA" (by decide)).2.1 rfl (by rfl),
    (m.event_of_source_version_id sample.valid sample.tuple_of sample.v3_source
      sample.v4_source sample.source_with_id "5" "$abc:example.org" (by decide)).2.2.2
      (by decide) (by decide) (by decide) (by decide) (.str "$abc:example.org") (by rfl)
      rfl (by decide)⟩

/-- C10 (counterexample): for room version "5" and a source that carries an
`event_id` member, the constructor sets the slot to that member,
`$abc:example.org`, which is not the ID the v4 derivation yields for the
source. -/
theorem m.event_of_source_version_keeps_source_id :
    ∃ ev id,
      event.of_source_version sample.valid sample.tuple_of sample.v3_source sample.v4_source
        sample.source_with_id "5" = .ok ev ∧
      sample.v4_source sample.source_with_id = .ok id ∧
      ev.event_id = "$abc:example.org" ∧ ev.event_id ≠ id :=
  ⟨_, _, rfl, rfl, rfl, by decide⟩

/-! ## The redaction projection: `redacts`, the frame and the `json::iov` form -/

/-- C11 (amended): for every `m.room.redaction` event, `m::essential` replaces
the content with the empty object and clears the top-level `redacts`; the
`json::iov` form, for a list that has a `redacts` member, invokes the closure
on the list with `redacts` undefined and the empty object pushed as content.
Neither form takes a room version: `redacts` is elided from the projection
whatever the version. -/
theorem m.essential_redaction (e : event) (h : e.get.type = some "m.room.redaction") :
    (∃ e', essential e = .ok e' ∧ e'.get.content = some [] ∧ e'.get.redacts = none) ∧
    (∀ (α : Type) (ev contents : json.iov) (closure : json.iov → Except error α)
        (redacts : json.value),
      json.iov.at ev "type" = .ok (.str "m.room.redaction") →
      json.iov.at ev "redacts" = .ok redacts →
      (m.event.essential ev contents closure).1
        = closure (("content", .obj []) :: json.iov.assign ev "redacts" json.undefined)) := by
  constructor
  · refine ⟨_, m.essential_eq_result e _ h, ?_, ?_⟩
    · simp [essential_result, essential_content]
    · simp [essential_result]
  · intro α ev contents closure redacts ht hr
    unfold m.event.essential
    simp [ht, hr, json.value.is, m.event.essential.with_content, json.iov.push]

/-- Witness of C11 (amended) on the sample redaction event. -/
theorem m.essential_redaction_witness :
    ∃ e', essential (sample.received "m.room.redaction" [("reason", .str "spam")]) = .ok e' ∧
      e'.get.content = some [] ∧ e'.get.redacts = none :=
  (m.essential_redaction (sample.received "m.room.redaction" [("reason", .str "spam")])
    rfl).1

/-- C11 (counterexample): the projection has no room version to depend on, and
for the sample redaction event, whose `redacts` is `$target:example.org`, the
projection that `m::signatures` signs has no `redacts`; the `json::iov` form
hands the signing closure a list whose `redacts` is undefined. -/
theorem m.essential_redaction_never_keeps_redacts :
    (sample.received "m.room.redaction" []).get.redacts = some "$target:example.org" ∧
    (essential (sample.received "m.room.redaction" [])).map (fun e => e.get.redacts)
      = .ok none ∧
    (m.event.essential (sample.iov "m.room.redaction") [] sample.closure).1
      = .ok [("content", .obj []), ("type", .str "m.room.redaction"),
          ("sender", .str "@alice:example.org"), ("redacts", json.undefined)] :=
  ⟨rfl, rfl, rfl⟩

/-- C12: whenever `m::essential` succeeds on `e`, the result has an undefined
(empty) `signatures`, every member other than `content`, `signatures` and
`redacts` equals that of `e`, as do the source pointer and the `event_id`
slot, and `redacts` equals that of `e` unless the type is
`m.room.redaction`. -/
theorem m.essential_frame (e e' : event) (h : essential e = .ok e') :
    e'.get.signatures = none ∧
    e'.get.auth_events = e.get.auth_events ∧ e'.get.depth = e.get.depth ∧
    e'.get.event_id = e.get.event_id ∧ e'.get.hashes = e.get.hashes ∧
    e'.get.origin = e.get.origin ∧ e'.get.origin_server_ts = e.get.origin_server_ts ∧
    e'.get.prev_events = e.get.prev_events ∧ e'.get.room_id = e.get.room_id ∧
    e'.get.sender = e.get.sender ∧ e'.get.state_key = e.get.state_key ∧
    e'.get.type = e.get.type ∧ e'.source = e.source ∧ e'.event_id = e.event_id ∧
    (e.get.type ≠ some "m.room.redaction" → e'.get.redacts = e.get.redacts) := by
  obtain ⟨t, ht⟩ := m.essential_type_of_ok e e' h
  rw [m.essential_eq_result e t ht] at h
  injection h with h
  subst h
  refine ⟨rfl, rfl, rfl, rfl, rfl, rfl, rfl, rfl, rfl, rfl, rfl, rfl, rfl, rfl, ?_⟩
  intro hne
  have : t ≠ "m.room.redaction" := fun hh => hne (by rw [ht, hh])
  simp [essential_result, this]

/-- Witness of C12 on the sample `m.room.member` event. -/
theorem m.essential_frame_witness :
    (sample.projected "m.room.member" [("membership", .str "join")]).get.signatures = none ∧
    (sample.projected "m.room.member" [("membership", .str "join")]).get.sender
      = (sample.received "m.room.member"
          [("membership", .str "join"), ("displayname", .str "x")]).get.sender :=
  ⟨(m.essential_frame
      (sample.received "m.room.member" [("membership", .str "join"), ("displayname", .str "x")])
      (sample.projected "m.room.member" [("membership", .str "join")]) (by rfl)).1,
    (m.essential_frame
      (sample.received "m.room.member" [("membership", .str "join"), ("displayname", .str "x")])
      (sample.projected "m.room.member" [("membership", .str "join")])
      (by rfl)).2.2.2.2.2.2.2.2.2.1⟩

/-- C13 (the code at the failing input): for an `m.room.power_levels` list and
contents that hold `ban` only, the `json::iov` form raises `json::not_found`
at `contents.at("events")`, whatever the closure, and leaves the list as it
was; the `m::event` form projects the same content to `ban` alone. -/
theorem m.essential_iov_power_levels_raises :
    (∀ closure : json.iov → Except error json.iov,
      m.event.essential (sample.iov "m.room.power_levels") [("ban", .lit "50")] closure
        = (.error .json_not_found, sample.iov "m.room.power_levels")) ∧
    (essential (sample.received "m.room.power_levels" [("ban", .lit "50")])).map
        (fun e => e.get.content)
      = .ok (some [("ban", .lit "50")]) :=
  ⟨fun _ => rfl, rfl⟩

/-! ## The acquirer: the in-flight set -/

/-- C14 (amended): in every run of the acquirer (every option set, room and
script of wait outcomes, however the run ends), the in-flight list and every
size it has had, also right after `start()` added an entry, are at most
`max(fetch_width, 1)`, hence at most `fetch_width` when that is at least 1.
The step behind it: a `submit` entered with the list below the cap or empty
keeps the bound and returns with the list below the cap or empty. -/
theorem m.acquire.fetch_width_cap (e : acquire.env) (room : acquire.store)
    (rooms : Nat → acquire.store) (opts : acquire.options) (ws : List acquire.wait) :
    (∀ n ∈ (acquire.acquire e room rooms opts ws).2.1.sizes, n ≤ max opts.fetch_width 1) ∧
    (acquire.acquire e room rooms opts ws).2.1.fetching.length ≤ max opts.fetch_width 1 ∧
    (1 ≤ opts.fetch_width →
      (∀ n ∈ (acquire.acquire e room rooms opts ws).2.1.sizes, n ≤ opts.fetch_width) ∧
      (acquire.acquire e room rooms opts ws).2.1.fetching.length ≤ opts.fetch_width) ∧
    (∀ (a : m.acquire) (ws1 : List acquire.wait) (event_id hint : String) (hint_only : Bool)
        (limit : Nat),
      acquire.inv (max a.opts.fetch_width 1) a → acquire.slack a →
      acquire.keeps (max a.opts.fetch_width 1) a
        (acquire.submit e a ws1 event_id hint hint_only limit)) := by
  obtain ⟨⟨h1, h2, -⟩, -⟩ := m.acquire.acquire_inv e room rooms opts ws (max opts.fetch_width 1)
    ⟨Nat.le_max_left _ _, Nat.le_max_right _ _⟩
  refine ⟨h2, h1, ?_, ?_⟩
  · intro hfw
    have hmax : max opts.fetch_width 1 = opts.fetch_width := Nat.max_eq_left hfw
    rw [hmax] at h1 h2
    exact ⟨h2, h1⟩
  · intro a ws1 event_id hint hint_only limit hi hs
    exact m.acquire.submit_keeps e a ws1 event_id hint hint_only limit _ hi hs
      ⟨Nat.le_max_left _ _, Nat.le_max_right _ _⟩

/-- Witness of C14 (amended): the run of the gap-fill scenario with a
`fetch_width` of 8 has the sizes 1 and 0. -/
theorem m.acquire.fetch_width_cap_witness :
    (acquire.acquire sample.env sample.room sample.rooms sample.opts
        [.ready 0 sample.done]).2.1.sizes = [1, 0] ∧
    ∀ n ∈ (acquire.acquire sample.env sample.room sample.rooms sample.opts
        [.ready 0 sample.done]).2.1.sizes, n ≤ 8 :=
  ⟨by rfl, ((m.acquire.fetch_width_cap sample.env sample.room sample.rooms sample.opts
    [.ready 0 sample.done]).2.2.1 (by decide)).1⟩

/-- C14 (counterexample): with a `fetch_width` of 0 the head branch submits the
first head of the sample room, `start()` adds it, and the in-flight list has
size 1, above `fetch_width`, until the fetch completes. -/
theorem m.acquire.fetch_width_zero_exceeded :
    sample.opts_zero.fetch_width = 0 ∧
    (acquire.acquire sample.env sample.room sample.rooms sample.opts_zero
        [.ready 0 sample.done]).2.1.sizes = [1, 0] :=
  ⟨rfl, by rfl⟩

/-- C16: in every run of the acquirer no two entries of the in-flight list
have the same event ID. A `submit` for an event ID that an in-flight entry has
starts nothing (the requests started are as before and the list only loses
entries) and does not return true; a `submit` for any other event ID starts
exactly the request `start` composes, when `fetch::start` accepts it, and
nothing when `fetch::start` raises. -/
theorem m.acquire.no_duplicate_fetch (e : acquire.env) (room : acquire.store)
    (rooms : Nat → acquire.store) (opts : acquire.options) (ws : List acquire.wait)
    (a : m.acquire) (ws1 : List acquire.wait) (event_id hint : String) (hint_only : Bool)
    (limit : Nat) :
    ((acquire.acquire e room rooms opts ws).2.1.fetching.map (fun r => r.event_id)).Nodup ∧
    (acquire.started a event_id = true ↔ ∃ r ∈ a.fetching, r.event_id = event_id) ∧
    (acquire.started a event_id = true →
      (acquire.submit e a ws1 event_id hint hint_only limit).2.1.requests = a.requests ∧
      (acquire.submit e a ws1 event_id hint hint_only limit).1 ≠ .ret true ∧
      (acquire.submit e a ws1 event_id hint hint_only limit).2.1.fetching.Sublist
        a.fetching) ∧
    (acquire.started a event_id = false →
      (e.fetch_start (acquire.start.fopts a event_id hint hint_only limit) = .ok () →
        (acquire.submit e a ws1 event_id hint hint_only limit).2.1.requests
          = a.requests ++ [acquire.start.fopts a event_id hint hint_only limit]) ∧
      (∀ err,
        e.fetch_start (acquire.start.fopts a event_id hint hint_only limit) = .error err →
        (acquire.submit e a ws1 event_id hint hint_only limit).2.1.requests
          = a.requests)) := by
  refine ⟨?_, ?_, ?_, ?_⟩
  · exact (m.acquire.acquire_inv e room rooms opts ws (max opts.fetch_width 1)
      ⟨Nat.le_max_left _ _, Nat.le_max_right _ _⟩).1.2.2
  · rw [m.acquire.started_iff]
    simp only [List.mem_map]
  · exact m.acquire.submit_started e a ws1 event_id hint hint_only limit
  · intro hst
    rw [m.acquire.submit_requests e a ws1 event_id hint hint_only limit hst]
    obtain ⟨h1, h2⟩ := m.acquire.start_requests e a event_id hint hint_only limit
    exact ⟨h1, fun err herr => by rw [h2 err herr]⟩

/-- Witness of C16: a second `submit` for `$missing` while its fetch is in
flight starts nothing and returns false. -/
theorem m.acquire.no_duplicate_fetch_witness :
    acquire.submit sample.env sample.fetching [] "$missing" "other.example" false 10
      = (.ret false, sample.fetching, []) ∧
    (acquire.submit sample.env sample.fetching [] "$missing" "other.example" false
      10).2.1.requests = sample.fetching.requests :=
  ⟨by rfl, ((m.acquire.no_duplicate_fetch sample.env sample.room sample.rooms sample.opts []
    sample.fetching [] "$missing" "other.example" false 10).2.2.1 (by rfl)).1⟩

/-! ## The acquirer: the head branch and the missing branch -/

/-- C17 (amended): when the closure of the head branch runs for a candidate of
depth `depth ≥ depth_lo`, `fetch_head` calls `submit` for its event ID, hinted
at its origin, hint only, with the limit `clamp(gap, 1, 48)`, `gap` being the
`int64_t` difference `depth − top_depth`, which wraps around when the exact
difference is outside the range of `int64_t`. The limit lies in [1, 48]; when
the exact difference is within the range it is
`clamp(depth − top_depth, 1, 48)`, and then 1 whenever `depth ≤ top_depth`.
When `submit` returns, the enumeration goes on with the next candidate. The
enumeration ends, without visiting the candidates that follow, at a candidate
of depth below `depth_lo`. -/
theorem m.acquire.fetch_head_limit (e : acquire.env) (a : m.acquire) (ws : List acquire.wait)
    (result : event) (top_depth depth : Int)
    (hd : result.get.depth.getD json.undefined_number = depth)
    (hlo : a.opts.depth.1 ≤ depth) :
    (1 ≤ clamp (i64 (depth - top_depth)) 1 48 ∧ clamp (i64 (depth - top_depth)) 1 48 ≤ 48) ∧
    (-(2 ^ 63) ≤ depth - top_depth ∧ depth - top_depth < 2 ^ 63 →
      clamp (i64 (depth - top_depth)) 1 48 = clamp (depth - top_depth) 1 48 ∧
      (depth ≤ top_depth → clamp (i64 (depth - top_depth)) 1 48 = 1)) ∧
    acquire.fetch_head e a ws result top_depth
      = (match acquire.submit e a ws result.event_id (result.get.origin.getD "") true
          (clamp (i64 (depth - top_depth)) 1 48).toNat with
        | (.ret _, a, ws) => (.ret true, a, ws)
        | (.raise err, a, ws) => (.raise err, a, ws)
        | (.blocked, a, ws) => (.blocked, a, ws)) ∧
    (∀ (rest : List (event × Bool)) (submitted : Bool) (a1 : m.acquire)
        (ws1 : List acquire.wait),
      acquire.submit e a ws result.event_id (result.get.origin.getD "") true
          (clamp (i64 (depth - top_depth)) 1 48).toNat = (.ret submitted, a1, ws1) →
      acquire.acquire_head.for_each e top_depth ((result, false) :: rest) a ws
        = acquire.acquire_head.for_each e top_depth rest a1 ws1) ∧
    (∀ (low : event) (rest : List (event × Bool)),
      low.get.depth.getD json.undefined_number < a.opts.depth.1 →
      acquire.acquire_head.for_each e top_depth ((low, false) :: rest) a ws
        = (.ret (), a, ws)) := by
  obtain ⟨c1, c2, c3⟩ := clamp_int_bounds (i64 (depth - top_depth))
  have hfh : acquire.fetch_head e a ws result top_depth
      = (match acquire.submit e a ws result.event_id (result.get.origin.getD "") true
          (clamp (i64 (depth - top_depth)) 1 48).toNat with
        | (.ret _, a, ws) => (.ret true, a, ws)
        | (.raise err, a, ws) => (.raise err, a, ws)
        | (.blocked, a, ws) => (.blocked, a, ws)) := by
    unfold acquire.fetch_head
    simp only [hd]
    rw [if_neg (not_lt.2 hlo), u64_of_small _ ⟨by omega, by omega⟩]
  refine ⟨⟨c1, c2⟩, ?_, hfh, ?_, ?_⟩
  · intro hrange
    rw [i64_of_range _ hrange]
    exact ⟨rfl, fun h => (clamp_int_bounds (depth - top_depth)).2.2 (by omega)⟩
  · intro rest submitted a1 ws1 hs
    conv_lhs => unfold acquire.acquire_head.for_each
    simp only [Bool.false_eq_true, if_false]
    rw [hfh, hs]
  · intro low rest hl
    unfold acquire.acquire_head.for_each
    simp only [Bool.false_eq_true, if_false]
    unfold acquire.fetch_head
    simp only [hl, if_true]

/-- Witness of C17 (amended): the head branch on the sample room, whose top is
at depth 100, submits the head at depth 103 hinted at its origin with limit
3. -/
theorem m.acquire.fetch_head_limit_witness :
    acquire.fetch_head sample.env { opts := sample.opts_head } [.ready 0 sample.done]
        (sample.head_result "$h1" "one.example" 103) 100
      = (match acquire.submit sample.env { opts := sample.opts_head } [.ready 0 sample.done]
          "$h1" "one.example" true 3 with
        | (.ret _, a, ws) => (.ret true, a, ws)
        | (.raise err, a, ws) => (.raise err, a, ws)
        | (.blocked, a, ws) => (.blocked, a, ws)) ∧
    clamp (i64 (103 - 100)) 1 48 = clamp ((103 : Int) - 100) 1 48 :=
  ⟨(m.acquire.fetch_head_limit sample.env { opts := sample.opts_head } [.ready 0 sample.done]
      (sample.head_result "$h1" "one.example" 103) 100 103 rfl (by decide)).2.2.1,
    ((m.acquire.fetch_head_limit sample.env { opts := sample.opts_head }
      [.ready 0 sample.done] (sample.head_result "$h1" "one.example" 103) 100 103 rfl
      (by decide)).2.1 (by decide)).1⟩

/-- C17 (counterexample): the head set of the sample room is enumerated as the
heads at depths 103, 5 and 101, none with an interruption; with `depth_lo` 10
the run returns having started the request for the first only: the head at
depth 101, which follows the one at depth 5, is never submitted. And for a
candidate at depth −2^63, which is not below a `depth_lo` of −2^63, with the
top at depth 100, the `int64_t` difference wraps around and the request has
the limit 48, although the depth is below the top and
`clamp(depth − top_depth, 1, 48)` is 1. -/
theorem m.acquire.fetch_head_stops_below_window :
    sample.room.head.map (fun x => (x.1.event_id, x.1.get.depth, x.2))
      = [("$h1", some 103, false), ("$h2", some 5, false), ("$h3", some 101, false)] ∧
    sample.opts_head.depth.1 = 10 ∧
    (acquire.acquire sample.env sample.room sample.rooms sample.opts_head
        [.ready 0 sample.done]).1 = .ret () ∧
    (acquire.acquire sample.env sample.room sample.rooms sample.opts_head
        [.ready 0 sample.done]).2.1.requests
      = [{ op := .backfill, room_id := "!room:example.org", event_id := "$h1",
           backfill_limit := 3, hint := "one.example", attempt_limit := 1 }] ∧
    sample.opts_floor.depth.1 = -(2 ^ 63) ∧
    (acquire.fetch_head sample.env { opts := sample.opts_floor } [.ready 0 sample.done]
        (sample.head_result "$h4" "four.example" (-(2 ^ 63))) 100).2.1.requests
      = [{ op := .backfill, room_id := "!room:example.org", event_id := "$h4",
           backfill_limit := 48, hint := "four.example", attempt_limit := 1 }] ∧
    clamp (-(2 ^ 63) - (100 : Int)) 1 48 = 1 :=
  ⟨by rfl, by rfl, by rfl, by rfl, by rfl, by rfl, by decide⟩

/-- C18 (amended): gap-fill scenario. In a pass of `fetch_missing` over a room
whose store enumerates one missing event, referred to by the event of index
`ref_idx` inside the `ref` range and the viewport, with the sounding of that
reference at depth 90 (at `ref_idx`), its twain at depth 80 and a gap of 10
inside the `gap` range, `submit` is called once, for the missing event, with
limit `clamp(90 − 80, 1, 48) = 10` and with the hint `opts.hint` (the
configured hint, not an origin). With nothing in flight and a fetch layer
that accepts the request, exactly that one request is started. -/
theorem m.acquire.fetch_missing_gap_fill (e : acquire.env) (room : acquire.store)
    (a : m.acquire) (ws : List acquire.wait) (ref_min : Nat) (missing_id : String)
    (ref_depth : Int) (ref_idx twain_idx : Nat)
    (hm : room.missing (acquire.fetch_missing.depth_range room a)
      = [((missing_id, ref_depth, ref_idx), false)])
    (href : a.opts.ref.1 ≤ ref_idx ∧ ref_min ≤ ref_idx ∧ ref_idx ≤ a.opts.ref.2)
    (hview : a.opts.viewport_size = 0 ∨
      room.count (min ref_idx room.top.2.2, max ref_idx room.top.2.2) ≤ a.opts.viewport_size)
    (hsound : room.sounding (room.event_id ref_idx) = (90, ref_idx))
    (htwain : room.twain (room.event_id ref_idx) = (80, twain_idx))
    (hgap : a.opts.gap.1 ≤ 10 ∧ 10 ≤ a.opts.gap.2) :
    acquire.fetch_missing e room a ws ref_min
      = (match acquire.submit e a ws missing_id a.opts.hint false 10 with
        | (.ret submitted, a, ws) => (.ret (submitted, max ref_min ref_idx), a, ws)
        | (.raise err, a, ws) => (.raise err, a, ws)
        | (.blocked, a, ws) => (.blocked, a, ws)) ∧
    (a.fetching = [] →
      e.fetch_start (acquire.start.fopts a missing_id a.opts.hint false 10) = .ok () →
      (acquire.fetch_missing e room a ws ref_min).2.1.requests
        = a.requests ++ [{ op := .backfill, room_id := a.opts.room_id, event_id := missing_id,
                           backfill_limit := 10, hint := a.opts.hint, attempt_limit := 0 }]) := by
  have h1 : ¬ (ref_idx < a.opts.ref.1 ∨ ref_idx < ref_min) := by omega
  have h2 : ¬ (ref_idx > a.opts.ref.2) := by omega
  have h3 : ¬ (a.opts.viewport_size ≠ 0 ∧
      room.count (min ref_idx room.top.2.2, max ref_idx room.top.2.2)
        > a.opts.viewport_size) := by
    rintro ⟨hv, hc⟩
    rcases hview with hview | hview
    · exact hv hview
    · omega
  have h4 : ¬ ((10 : Nat) < a.opts.gap.1 ∨ 10 > a.opts.gap.2) := by omega
  have hcl : acquire.fetch_missing.closure e room ref_min (missing_id, ref_depth, ref_idx)
      { ref_top := ref_min, ret := false } a ws
      = (match acquire.submit e a ws missing_id a.opts.hint false 10 with
        | (.ret submitted, a, ws) =>
          (.ret { ref_top := max ref_min ref_idx, ret := false || submitted }, a, ws)
        | (.raise err, a, ws) => (.raise err, a, ws)
        | (.blocked, a, ws) => (.blocked, a, ws)) := by
    unfold acquire.fetch_missing.closure
    simp only [hsound, htwain, if_true, m.acquire.gap_90_80, m.acquire.clamp_10]
    rw [if_neg h1, if_neg h2, if_neg h3, if_neg h4]
  have hfm : acquire.fetch_missing e room a ws ref_min
      = (match acquire.submit e a ws missing_id a.opts.hint false 10 with
        | (.ret submitted, a, ws) => (.ret (submitted, max ref_min ref_idx), a, ws)
        | (.raise err, a, ws) => (.raise err, a, ws)
        | (.blocked, a, ws) => (.blocked, a, ws)) := by
    unfold acquire.fetch_missing
    simp only [hm, acquire.fetch_missing.for_each, Bool.false_eq_true, if_false, hcl]
    rcases acquire.submit e a ws missing_id a.opts.hint false 10 with ⟨o, a1, ws1⟩
    cases o <;> simp
  refine ⟨hfm, ?_⟩
  intro hempty hstart
  have hst : acquire.started a missing_id = false := by
    simp [acquire.started, hempty]
  have hreq := m.acquire.submit_requests e a ws missing_id a.opts.hint false 10 hst
  rw [(m.acquire.start_requests e a missing_id a.opts.hint false 10).1 hstart] at hreq
  rw [hfm]
  rcases hsub : acquire.submit e a ws missing_id a.opts.hint false 10 with ⟨o, a1, ws1⟩
  rw [hsub] at hreq
  cases o <;> simpa [acquire.start.fopts] using hreq

/-- Witness of C18 (amended): the pass over the sample room starts the one
request for `$missing` with limit 10 and the configured hint. -/
theorem m.acquire.fetch_missing_gap_fill_witness :
    (acquire.fetch_missing sample.env sample.room { opts := sample.opts }
        [.ready 0 sample.done] 0).2.1.requests
      = [{ op := .backfill, room_id := "!room:example.org", event_id := "$missing",
           backfill_limit := 10, hint := "hint.example", attempt_limit := 0 }] :=
  (m.acquire.fetch_missing_gap_fill sample.env sample.room { opts := sample.opts }
    [.ready 0 sample.done] 0 "$missing" 90 40 39 rfl (by decide) (Or.inr (by decide)) rfl rfl
    (by decide)).2 rfl rfl

/-- C18 (counterexample): in the run of the gap-fill scenario the referring
event is sent by `remote.example`, and the one request started for `$missing`
is hinted at `hint.example`, the hint of the options. -/
theorem m.acquire.fetch_missing_hint_is_opts_hint :
    sample.room.top.2.1 = 100 ∧
    sample.room.event_id 40 = sample.referrer.event_id ∧
    sample.referrer.get.depth = some 90 ∧
    sample.referrer.get.origin = some "remote.example" ∧
    sample.opts.hint = "hint.example" ∧
    (acquire.acquire sample.env sample.room sample.rooms sample.opts
        [.ready 0 sample.done]).2.1.requests
      = [{ op := .backfill, room_id := "!room:example.org", event_id := "$missing",
           backfill_limit := 10, hint := "hint.example", attempt_limit := 0 }] :=
  ⟨rfl, rfl, rfl, rfl, rfl, by rfl⟩

/-! ## The acquirer: completion handling -/

/-- C19: when the response of a completed fetch is obtained and the
interruption point passed, `m::vm::eval` is invoked once, on the `pdus` of the
response, with the options that differ from the default ones exactly so:
`infolog_accept` is true, the `EXISTS` bit of `warnlog` is cleared,
`notify_servers` is false, the phases `NOTIFY`, `FETCH_PREV` and `FETCH_STATE`
are disabled and the appendix `ROOM_HEAD` is disabled; every other fault bit,
phase and appendix is as in the default. -/
theorem m.acquire.handle_vmopts (e : acquire.env) (a : m.acquire) (result : acquire.result)
    (c : acquire.completion) (body : json.object) (hr : c.response = .ok body)
    (hi : c.interruption_point = .ok ()) :
    (acquire.handle_result e a result c).2.evals
      = a.evals ++ [(json.object.get body "pdus", acquire.vmopts e.vm_default)] ∧
    (acquire.vmopts e.vm_default).infolog_accept = true ∧
    (∀ f, (acquire.vmopts e.vm_default).warnlog f
      = if f = vm.fault.EXISTS then false else e.vm_default.warnlog f) ∧
    (acquire.vmopts e.vm_default).notify_servers = false ∧
    (∀ p, (acquire.vmopts e.vm_default).phase p
      = if p = vm.phase.NOTIFY ∨ p = vm.phase.FETCH_PREV ∨ p = vm.phase.FETCH_STATE
        then false else e.vm_default.phase p) ∧
    (∀ x, (acquire.vmopts e.vm_default).wopts_appendix x
      = if x = vm.appendix.ROOM_HEAD then false else e.vm_default.wopts_appendix x) := by
  refine ⟨?_, rfl, ?_, rfl, ?_, ?_⟩
  · unfold acquire.handle_result acquire.handle_result.body
    simp only [hr, hi]
    cases c.eval with
    | error err => cases err <;> rfl
    | ok u => rfl
  · intro f
    by_cases hf : f = vm.fault.EXISTS <;> simp [acquire.vmopts, hf]
  · intro p
    simp only [acquire.vmopts, Function.update_apply]
    by_cases h1 : p = vm.phase.FETCH_STATE
    · simp [h1]
    · by_cases h2 : p = vm.phase.FETCH_PREV
      · simp [h2]
      · by_cases h3 : p = vm.phase.NOTIFY <;> simp [h1, h2, h3]
  · intro x
    simp only [acquire.vmopts, Function.update_apply]

/-- Witness of C19 on the sample completion and the sample default options. -/
theorem m.acquire.handle_vmopts_witness :
    ((acquire.handle_result sample.env sample.fetching
        { future := acquire.start.fopts sample.fetching "$missing" "hint.example" false 10,
          event_id := "$missing" } sample.done).2.evals.map
      (fun x => (x.2.infolog_accept, x.2.warnlog vm.fault.EXISTS, x.2.warnlog vm.fault.AUTH,
        x.2.notify_servers, x.2.phase vm.phase.FETCH_PREV, x.2.phase vm.phase.VERIFY,
        x.2.wopts_appendix vm.appendix.ROOM_HEAD, x.2.wopts_appendix vm.appendix.ROOM_EVENTS)))
      = [(true, false, true, false, false, true, false, true)] := by
  rw [(m.acquire.handle_vmopts sample.env sample.fetching
    { future := acquire.start.fopts sample.fetching "$missing" "hint.example" false 10,
      event_id := "$missing" } sample.done _ rfl rfl).1]
  rfl

/-- C20: `handle(result &)` either returns true or raises `ctx::interrupted`;
it raises exactly when the first thing raised among obtaining the response,
the interruption point and the evaluation is `ctx::interrupted`, so any other
exception gives true. `start()` returns false with the acquirer unchanged when
`fetch::start` raises anything but `ctx::interrupted`, raises
`ctx::interrupted` when that is what `fetch::start` raises, and raises nothing
else. -/
theorem m.acquire.handle_and_start_errors (e : acquire.env) (a : m.acquire)
    (result : acquire.result) (c : acquire.completion) (event_id hint : String)
    (hint_only : Bool) (limit : Nat) :
    ((acquire.handle_result e a result c).1 = .ret true ∨
      (acquire.handle_result e a result c).1 = .raise .interrupted) ∧
    ((acquire.handle_result e a result c).1 = .raise .interrupted ↔
      (c.response = .error .interrupted ∨
        ∃ body, c.response = .ok body ∧
          (c.interruption_point = .error .interrupted ∨
            (c.interruption_point = .ok () ∧ c.eval = .error .interrupted)))) ∧
    (acquire.handle_result e a result c).2.fetching = a.fetching ∧
    (∀ err, e.fetch_start (acquire.start.fopts a event_id hint hint_only limit) = .error err →
      err ≠ .interrupted →
      acquire.start e a event_id hint hint_only limit = (.ret false, a)) ∧
    (e.fetch_start (acquire.start.fopts a event_id hint hint_only limit)
        = .error .interrupted →
      acquire.start e a event_id hint hint_only limit = (.raise .interrupted, a)) ∧
    (∀ err, (acquire.start e a event_id hint hint_only limit).1 = .raise err →
      err = .interrupted) := by
  refine ⟨m.acquire.handle_result_outcome e a result c, ?_,
    (m.acquire.handle_result_frame e a result c).1, ?_, ?_, ?_⟩
  · unfold acquire.handle_result acquire.handle_result.body
    cases hresp : c.response with
    | error err => cases err <;> simp
    | ok body =>
      cases hip : c.interruption_point with
      | error err => cases err <;> simp
      | ok u =>
        cases hev : c.eval with
        | error err => cases err <;> simp
        | ok u2 => simp
  · intro err herr hne
    cases err <;> simp [acquire.start, herr] at hne ⊢
  · intro herr
    simp [acquire.start, herr]
  · intro err hraise
    cases hf : e.fetch_start (acquire.start.fopts a event_id hint hint_only limit) with
    | error err2 =>
      cases err2 <;> simp [acquire.start, hf] at hraise
      exact hraise.symm
    | ok u => simp [acquire.start, hf] at hraise

/-- Witness of C20: an evaluation that raises an error of the VM gives true,
and a `fetch::start` that raises for an unreachable host gives false with the
acquirer unchanged. -/
theorem m.acquire.handle_and_start_errors_witness :
    (acquire.handle_result sample.env sample.fetching
      { future := acquire.start.fopts sample.fetching "$missing" "hint.example" false 10,
        event_id := "$missing" } sample.eval_fails).1 = .ret true ∧
    acquire.start sample.env sample.fetching "$other" "down.example" false 10
      = (.ret false, sample.fetching) :=
  ⟨by rfl, (m.acquire.handle_and_start_errors sample.env sample.fetching
    { future := acquire.start.fopts sample.fetching "$missing" "hint.example" false 10,
      event_id := "$missing" } sample.eval_fails "$other" "down.example" false 10).2.2.2.1
    (.other "unreachable") rfl (by decide)⟩

/-! ## Utilities: the AIO request priority and the split of a string -/

/-- C28 (amended): for every `MAX_REQPRIO` from 0 to the greatest `int` and
every input, `fs::aio::reqprio` returns: no conversion or operation leaves the
range of `int`, the assertion holds, the result lies in [0, MAX_REQPRIO], and
a larger input never gives a larger result. -/
theorem fs.aio.reqprio_range (M : Nat) (hM : M < 2 ^ 31) :
    (∀ input, ∃ r, fs.aio.reqprio M input = some r ∧ 0 ≤ r ∧ r ≤ M) ∧
    (∀ input other r s, input ≤ other →
      fs.aio.reqprio M input = some r → fs.aio.reqprio M other = some s → s ≤ r) := by
  have hlo : ∀ x : Int, 0 - ((M / 2 : Nat) : Int)
      ≤ min (max x (0 - ((M / 2 : Nat) : Int))) ((M / 2 : Nat) : Int) :=
    fun x => le_min (le_max_right _ _) (by omega)
  have hhi : ∀ x : Int, min (max x (0 - ((M / 2 : Nat) : Int))) ((M / 2 : Nat) : Int)
      ≤ ((M / 2 : Nat) : Int) := fun x => min_le_right _ _
  constructor
  · intro input
    refine ⟨_, fs.aio.reqprio_eq M input hM, ?_, ?_⟩
    · have := hhi input
      omega
    · have := hlo input
      omega
  · intro input other r s hle hr hs
    rw [fs.aio.reqprio_eq M input hM] at hr
    rw [fs.aio.reqprio_eq M other hM] at hs
    injection hr with hr
    injection hs with hs
    have hmono : min (max input (0 - ((M / 2 : Nat) : Int))) ((M / 2 : Nat) : Int)
        ≤ min (max other (0 - ((M / 2 : Nat) : Int))) ((M / 2 : Nat) : Int) :=
      min_le_min (max_le_max hle le_rfl) le_rfl
    omega

/-- Witness of C28 (amended): with a `MAX_REQPRIO` of 20 the inputs -100, 0, 3 and 100
give 20, 10, 7 and 0. -/
theorem fs.aio.reqprio_range_witness :
    [fs.aio.reqprio 20 (-100), fs.aio.reqprio 20 0, fs.aio.reqprio 20 3, fs.aio.reqprio 20 100]
      = [some 20, some 10, some 7, some 0] ∧
    ∃ r, fs.aio.reqprio 20 3 = some r ∧ 0 ≤ r ∧ r ≤ (20 : Nat) :=
  ⟨by decide, (fs.aio.reqprio_range 20 (by decide)).1 3⟩

/-- C28 (counterexample): a `MAX_REQPRIO` of 2^31 is not negative, and the
conversion `int(MAX_REQPRIO)` of the subtraction and of the assertion leaves
the range of `int`: `reqprio` has no result in [0, MAX_REQPRIO] for the inputs
0 and 5. -/
theorem fs.aio.reqprio_beyond_int :
    int.checked (2 ^ 31 : Nat) = none ∧
    fs.aio.reqprio (2 ^ 31) 0 = none ∧ fs.aio.reqprio (2 ^ 31) 5 = none :=
  ⟨by decide, by decide, by decide⟩

/-- C30 (the code): when `c` first occurs in `s` at index `i`, `split` asks
`JS_NewDependentString` for the first part at position 0 with length `i` and
for the second part at position `i + 1` with length `size(s) − i`, one more
than the `size(s) − i − 1` code units that follow the occurrence: the request
ends at `size(s) + 1`, beyond the end of `s`. With a dependent-string function
that refuses such a request, `split` raises `std::out_of_range` instead of
returning the pair. When `c` does not occur in a string, the one request is
for the whole of it and the second part is the empty string. -/
theorem js.split_second_request (dep : js.string → Nat → Nat → Option js.string)
    (s : js.string) (c i : Nat) (hsize : s.length < 2 ^ 64 - 1) (hi : i < s.length)
    (hc : s[i]? = some c) (hfirst : ∀ k, k < i → s[k]? ≠ some c) :
    js.split dep s c
      = (match dep s 0 i with
        | none => .raise .out_of_range
        | some first =>
          match dep s (i + 1) (s.length - i) with
          | none => .raise .out_of_range
          | some second => .ret (first, second)) ∧
    (i + 1) + (s.length - i) = s.length + 1 ∧
    js.split js.dependent s c = .raise .out_of_range ∧
    (∀ t : js.string, t.length < 2 ^ 64 - 1 → (∀ k : Nat, t[k]? ≠ some c) →
      js.split dep t c
        = (match dep t 0 t.length with
          | none => .raise .out_of_range
          | some first => .ret (first, []))) := by
  have hloop : js.split.loop s c (js.size s + 1) 0 = .ret i :=
    js.split_loop_found s c i hi hc _ 0 (Nat.zero_le _) (by unfold js.size; omega)
      (fun k _ hk => hfirst k hk)
  have hsplit : ∀ d : js.string → Nat → Nat → Option js.string, js.split d s c
      = (match d s 0 i with
        | none => .raise .out_of_range
        | some first =>
          match d s (i + 1) (s.length - i) with
          | none => .raise .out_of_range
          | some second => .ret (first, second)) := by
    intro d
    unfold js.split
    rw [hloop]
    have h1 : i ≠ 2 ^ 64 - 1 := by omega
    have h2 : s.length - i ≠ 2 ^ 64 - 1 := by omega
    simp only [js.size, js.substr, h1, h2, if_false]
    cases d s 0 i with
    | none => rfl
    | some first =>
      simp only [hi, if_true]
      cases d s (i + 1) (s.length - i) with
      | none => rfl
      | some second => rfl
  refine ⟨hsplit dep, by omega, ?_, ?_⟩
  · rw [hsplit js.dependent]
    have h1 : js.dependent s 0 i = some (s.take i) := by
      unfold js.dependent
      rw [if_pos (by omega)]
      simp
    have h2 : js.dependent s (i + 1) (s.length - i) = none := by
      unfold js.dependent
      rw [if_neg (by omega)]
    rw [h1, h2]
  · intro t hsize2 habsent
    have hloop2 : js.split.loop t c (js.size t + 1) 0 = .ret t.length :=
      js.split_loop_absent t c _ 0 (Nat.zero_le _) (by unfold js.size; omega)
        (fun k _ => habsent k)
    unfold js.split
    rw [hloop2]
    have h1 : t.length ≠ 2 ^ 64 - 1 := by omega
    simp only [js.size, lt_irrefl, if_false, js.substr, h1]
    cases dep t 0 t.length with
    | none => rfl
    | some first => rfl

/-- Witness of C30 (the failing input): for the string `a=b` and the code
unit of `=`, which occurs at index 1 of 3, the second request is for position
2 with length 2; with the checking dependent-string function `split` raises
`std::out_of_range`, where the specification has the pair (`a`, `b`). -/
theorem js.split_second_request_witness :
    js.split js.dependent [97, 61, 98] 61 = .raise .out_of_range ∧
    (js.split (fun _ pos len => some [pos, len]) [97, 61, 98] 61) = .ret ([0, 1], [2, 2]) :=
  ⟨(js.split_second_request js.dependent [97, 61, 98] 61 1 (by decide) (by decide) rfl
      (by intro k hk; interval_cases k; decide)).2.2.1,
    by rfl⟩

/-! ## The `/messages` endpoint: the limit and the scan -/

/-- C23 (the code): the limit of the pagination tokens is 10 when the `limit`
parameter is absent or empty; for a parameter that `lex_cast<ushort>` reads as
`L`, it is the narrowing of `L` to `uint8_t`, `L mod 256`: at most 255, equal
to `L` (and to `min(L, 255)`) for `L ≤ 255`, and for `L ≥ 256` equal to
`min(L, 255)` only when `L mod 256` is 255: the narrowing wraps around where
the source's comment has it limit the value to 255. The tokens the
constructor returns carry that limit. -/
theorem pagination_tokens.limit_narrowed (e : messages.env) (request : resource.request) :
    (request.query_get "limit" = "" → pagination_tokens.limit_init e request = .ok 10) ∧
    (∀ text L, request.query_get "limit" ≠ "" → request.query_at "limit" = .ok text →
      e.lex_cast_ushort text = .ok L →
      pagination_tokens.limit_init e request = .ok (L % 256) ∧ L % 256 ≤ 255 ∧
      (L ≤ 255 → L % 256 = min L 255) ∧
      (256 ≤ L → (L % 256 = min L 255 ↔ L % 256 = 255))) ∧
    (∀ page : ircd.pagination_tokens,
      pagination_tokens.pagination_tokens e request = .ok page →
      pagination_tokens.limit_init e request = .ok page.limit) := by
  refine ⟨?_, ?_, ?_⟩
  · intro h
    simp [pagination_tokens.limit_init, h, pure, Except.pure]
  · intro text L hne hat hcast
    refine ⟨?_, by omega, fun h => by omega, fun h => by omega⟩
    simp [pagination_tokens.limit_init, hne, hat, hcast, bind, Except.bind, pure, Except.pure]
  · intro page h
    exact pagination_tokens.limit_of_ok e request page h

/-- Witness of C23 (the failing input): `limit=256` and `limit=300` parse as
unsigned 16-bit integers and give the tokens with the limits 0 and 44, where
`min(L, 255)` is 255; no `limit` gives 10. -/
theorem pagination_tokens.limit_narrowed_witness :
    sample.lex_cast_ushort "256" = .ok 256 ∧
    pagination_tokens.limit_init sample.messages (sample.request "256") = .ok (256 % 256) ∧
    pagination_tokens.pagination_tokens sample.messages (sample.request "256")
      = .ok { limit := 0, dir := 'b', from_ := "$z", to_ := "" } ∧
    sample.lex_cast_ushort "300" = .ok 300 ∧
    pagination_tokens.pagination_tokens sample.messages (sample.request "300")
      = .ok { limit := 44, dir := 'b', from_ := "$z", to_ := "" } ∧
    min 256 255 = 255 ∧
    pagination_tokens.limit_init sample.messages (sample.request "") = .ok 10 :=
  ⟨by rfl,
    ((pagination_tokens.limit_narrowed sample.messages (sample.request "256")).2.1 "256" 256
      (by decide) rfl (by rfl)).1,
    by rfl, by rfl, by rfl, by rfl,
    (pagination_tokens.limit_narrowed sample.messages (sample.request "")).1 rfl⟩

/-- C24 (the code): for every `/messages` request the number of events appended
to the chunk is at most `max(limit, 1)`, hence at most the limit of the tokens
when that is at least 1, and the number of events the scan counts as failing
the filter is at most `max(max_filter_miss, 1)`: the counters are tested after
the event has been appended or counted, so that with a limit of 0 one event
is appended. The same holds of the scan for every tokens and list of events. -/
theorem get__messages.chunk_bounded (e : messages.env) (request : resource.request)
    (room_id : String) :
    (∀ page : pagination_tokens, pagination_tokens.pagination_tokens e request = .ok page →
      (get__messages e request room_id).2.chunk.length ≤ max page.limit 1 ∧
      (1 ≤ page.limit → (get__messages e request room_id).2.chunk.length ≤ page.limit)) ∧
    (get__messages e request room_id).2.miss ≤ max e.max_filter_miss 1 ∧
    (1 ≤ e.max_filter_miss → (get__messages e request room_id).2.miss ≤ e.max_filter_miss) ∧
    (∀ (page : pagination_tokens) (filter_query : String) (events : List (event × Nat)),
      (get__messages.scan e request page filter_query events {}).2.chunk.length
        ≤ max page.limit 1 ∧
      (get__messages.scan e request page filter_query events {}).2.miss
        ≤ max e.max_filter_miss 1) := by
  have hscan : ∀ (page : pagination_tokens) (filter_query : String)
      (events : List (event × Nat)),
      (get__messages.scan e request page filter_query events {}).2.chunk.length
        ≤ max page.limit 1 ∧
      (get__messages.scan e request page filter_query events {}).2.miss
        ≤ max e.max_filter_miss 1 := by
    intro page filter_query events
    obtain ⟨h1, h2, h3⟩ := get__messages.scan_bounds e request page filter_query events {}
      (Or.inr rfl) (Or.inr rfl) 0 rfl
    exact ⟨by omega, h2⟩
  have hall : ∀ page : pagination_tokens,
      pagination_tokens.pagination_tokens e request = .ok page →
      (get__messages e request room_id).2.chunk.length ≤ max page.limit 1 ∧
      (get__messages e request room_id).2.miss ≤ max e.max_filter_miss 1 := by
    intro page hp
    unfold get__messages
    simp only [hp]
    split
    · exact ⟨Nat.zero_le _, Nat.zero_le _⟩
    · exact hscan _ _ _
  have hmiss : (get__messages e request room_id).2.miss ≤ max e.max_filter_miss 1 := by
    cases hp : pagination_tokens.pagination_tokens e request with
    | error err =>
      unfold get__messages
      simp only [hp]
      exact Nat.zero_le _
    | ok page => exact (hall page hp).2
  refine ⟨?_, hmiss, ?_, hscan⟩
  · intro page hp
    refine ⟨(hall page hp).1, fun h => ?_⟩
    have := (hall page hp).1
    omega
  · intro h
    omega

/-- Witness of C24 (the failing input): `limit=0` gives the tokens with limit
0, and the scan of the sample timeline appends the first event before it tests
the counter: the chunk has one event, more than the limit. With `limit=2` it
appends two of the three events. -/
theorem get__messages.chunk_bounded_witness :
    pagination_tokens.pagination_tokens sample.messages (sample.request "0")
      = .ok { limit := 0, dir := 'b', from_ := "$z", to_ := "" } ∧
    (get__messages sample.messages (sample.request "0") "!room:example.org").1 = .ok () ∧
    (get__messages sample.messages (sample.request "0") "!room:example.org").2.chunk.map
        (fun x => x.1.event_id) = ["$a"] ∧
    (get__messages sample.messages (sample.request "0")
      "!room:example.org").2.chunk.length ≤ max 0 1 ∧
    (get__messages sample.messages (sample.request "2") "!room:example.org").2.chunk.map
        (fun x => (x.1.event_id, x.2)) = [("$a", 2), ("$b", 3)] ∧
    (get__messages sample.messages (sample.request "2")
      "!room:example.org").2.chunk.length ≤ 2 :=
  ⟨by rfl, by rfl, by rfl,
    ((get__messages.chunk_bounded sample.messages (sample.request "0")
      "!room:example.org").1 { limit := 0, dir := 'b', from_ := "$z", to_ := "" }
      (by rfl)).1,
    by rfl,
    ((get__messages.chunk_bounded sample.messages (sample.request "2")
      "!room:example.org").1 { limit := 2, dir := 'b', from_ := "$z", to_ := "" }
      (by rfl)).2 (by decide)⟩

/-! ## The `json::iov` form of the projection: the list after the call -/

/-- C29: for every list, contents and closure (one that reads the list it is
given), after `event::essential(event, contents, closure)` has returned or
raised the list is the list it was before the call: the content member pushed
for the closure is popped, and for `m.room.redaction` the `redacts` value,
undefined while the closure runs, is assigned back. -/
theorem m.essential_iov_frame {α : Type} (ev contents : json.iov)
    (closure : json.iov → Except error α) :
    (m.event.essential ev contents closure).2 = ev ∧
    (∀ redacts, json.iov.at ev "type" = .ok (.str "m.room.redaction") →
      json.iov.at ev "redacts" = .ok redacts →
      m.event.essential ev contents closure
        = (closure (json.iov.push (json.iov.assign ev "redacts" json.undefined)
            ("content", .obj [])),
          json.iov.assign (json.iov.pop (json.iov.push
            (json.iov.assign ev "redacts" json.undefined) ("content", .obj [])))
            "redacts" redacts)) := by
  constructor
  · unfold m.event.essential
    split
    · rfl
    · split_ifs
      all_goals first
        | rfl
        | (split <;> rfl)
        | (split
           · rfl
           · exact json.iov.assign_restore ev "redacts" json.undefined _ (by assumption))
  · intro redacts ht hr
    unfold m.event.essential
    simp [ht, hr, json.value.is, m.event.essential.with_content]

/-- Witness of C29: the sample redaction list has its `redacts` undefined
while the closure runs and is the sample list again after the call. -/
theorem m.essential_iov_frame_witness :
    m.event.essential (sample.iov "m.room.redaction") [] sample.closure
      = (.ok [("content", .obj []), ("type", .str "m.room.redaction"),
          ("sender", .str "@alice:example.org"), ("redacts", json.undefined)],
        sample.iov "m.room.redaction") := by
  rw [(m.essential_iov_frame (sample.iov "m.room.redaction") [] sample.closure).2
    (.str "$target:example.org") rfl rfl]
  rfl

/-! ## The acquirer: the filters and the progress of the missing branch -/

/-- C25: in the missing branch, for an entry whose reference passes the `ref`
and viewport filters (depths being values of `int64_t`), the gap the closure
computes is `max(sound_depth − twain_depth, 0)`, the twain depth being that of
`twain` when `sound_idx == ref_idx` and 0 otherwise; the closure leaves
everything as it is when the gap is below `gap_lo` or above `gap_hi`, and
otherwise calls `submit` for the missing event with the limit
`clamp(gap, 1, 48)`, which lies in [1, 48] and is the gap whenever
1 ≤ gap ≤ 48. -/
theorem m.acquire.fetch_missing_gap_limit (e : acquire.env) (room : acquire.store)
    (ref_min : Nat) (entry : String × Int × Nat) (v : acquire.fetch_missing.vars)
    (a : m.acquire) (ws : List acquire.wait)
    (href : a.opts.ref.1 ≤ entry.2.2 ∧ ref_min ≤ entry.2.2 ∧ entry.2.2 ≤ a.opts.ref.2)
    (hview : a.opts.viewport_size = 0 ∨
      room.count (min entry.2.2 room.top.2.2, max entry.2.2 room.top.2.2)
        ≤ a.opts.viewport_size)
    (hs : (room.sounding (room.event_id entry.2.2)).1 < 2 ^ 63)
    (ht : -(2 ^ 63) ≤ (room.twain (room.event_id entry.2.2)).1) :
    (m.acquire.gap_of room entry.2.2 : Int) = m.acquire.spec_gap room entry.2.2 ∧
    acquire.fetch_missing.closure e room ref_min entry v a ws
      = (if m.acquire.gap_of room entry.2.2 < a.opts.gap.1 ∨
            m.acquire.gap_of room entry.2.2 > a.opts.gap.2 then (.ret v, a, ws)
        else
          match acquire.submit e a ws entry.1 a.opts.hint false
              (clamp (m.acquire.gap_of room entry.2.2) 1 48) with
          | (.ret submitted, a, ws) =>
            (.ret { ref_top := max v.ref_top entry.2.2, ret := v.ret || submitted }, a, ws)
          | (.raise err, a, ws) => (.raise err, a, ws)
          | (.blocked, a, ws) => (.blocked, a, ws)) ∧
    1 ≤ clamp (m.acquire.gap_of room entry.2.2) 1 48 ∧
    clamp (m.acquire.gap_of room entry.2.2) 1 48 ≤ 48 ∧
    (1 ≤ m.acquire.gap_of room entry.2.2 → m.acquire.gap_of room entry.2.2 ≤ 48 →
      clamp (m.acquire.gap_of room entry.2.2) 1 48 = m.acquire.gap_of room entry.2.2) := by
  obtain ⟨c1, c2, c3⟩ := clamp_nat_bounds (m.acquire.gap_of room entry.2.2)
  refine ⟨m.acquire.gap_of_eq_spec room entry.2.2 hs ht, ?_, c1, c2, c3⟩
  rw [m.acquire.closure_eq]
  have h3 : ¬ (a.opts.viewport_size ≠ 0 ∧
      room.count (min entry.2.2 room.top.2.2, max entry.2.2 room.top.2.2)
        > a.opts.viewport_size) := by
    rintro ⟨hv, hc⟩
    rcases hview with hview | hview
    · exact hv hview
    · omega
  by_cases h4 : m.acquire.gap_of room entry.2.2 < a.opts.gap.1 ∨
      m.acquire.gap_of room entry.2.2 > a.opts.gap.2
  · rw [if_pos h4, if_neg]
    simp only [m.acquire.reaches, decide_eq_true_eq]
    rintro ⟨-, -, -, h⟩
    exact h h4
  · rw [if_neg h4, if_pos]
    simp only [m.acquire.reaches, decide_eq_true_eq]
    exact ⟨by omega, by omega, h3, h4⟩

/-- Witness of C25: in the sample room the reference of index 40 has sounding
depth 90 and twain depth 80: the gap is 10 and the limit is 10. -/
theorem m.acquire.fetch_missing_gap_limit_witness :
    m.acquire.spec_gap sample.room 40 = 10 ∧
    (m.acquire.gap_of sample.room 40 : Int) = m.acquire.spec_gap sample.room 40 ∧
    clamp (m.acquire.gap_of sample.room 40) 1 48 = 10 :=
  ⟨by decide,
    (m.acquire.fetch_missing_gap_limit sample.env sample.room 0 ("$missing", 90, 40)
      { ref_top := 0, ret := false } { opts := sample.opts } [] (by decide)
      (Or.inr (by decide)) (by decide) (by decide)).1,
    by decide⟩

/-- C26 (amended): a pass of `fetch_missing` that returns leaves the lower
bound `ref_min` at the maximum of its previous value and the reference indexes
of the entries that reached the call of `submit` during the pass, whatever
`submit` returned for them: it is never smaller than before, and it is the
same for every fetch layer and in-flight list, also those for which `submit`
started nothing. -/
theorem m.acquire.fetch_missing_ref_min (e : acquire.env) (room : acquire.store)
    (a : m.acquire) (ws : List acquire.wait) (ref_min : Nat) (ret : Bool) (r : Nat)
    (a1 : m.acquire) (ws1 : List acquire.wait)
    (h : acquire.fetch_missing e room a ws ref_min = (.ret (ret, r), a1, ws1)) :
    ref_min ≤ r ∧
    r = (m.acquire.reached room a.opts ref_min
          (room.missing (acquire.fetch_missing.depth_range room a))).foldl max ref_min ∧
    (∀ (e2 : acquire.env) (a2 : m.acquire) (ws2 : List acquire.wait) (ret2 : Bool) (r2 : Nat)
        (a3 : m.acquire) (ws3 : List acquire.wait), a2.opts = a.opts →
      acquire.fetch_missing e2 room a2 ws2 ref_min = (.ret (ret2, r2), a3, ws3) → r2 = r) := by
  have key : ∀ (e : acquire.env) (a : m.acquire) (ws : List acquire.wait) (ret : Bool)
      (r : Nat) (a1 : m.acquire) (ws1 : List acquire.wait),
      acquire.fetch_missing e room a ws ref_min = (.ret (ret, r), a1, ws1) →
      r = (m.acquire.reached room a.opts ref_min
          (room.missing (acquire.fetch_missing.depth_range room a))).foldl max ref_min := by
    intro e a ws ret r a1 ws1 h
    unfold acquire.fetch_missing at h
    dsimp only at h
    rcases hf : acquire.fetch_missing.for_each e room ref_min
      (room.missing (acquire.fetch_missing.depth_range room a))
      { ref_top := ref_min, ret := false } a ws with ⟨o, a2, ws2⟩
    rw [hf] at h
    cases o with
    | ret v =>
      simp only [Prod.mk.injEq, outcome.ret.injEq] at h
      obtain ⟨⟨-, hr⟩, -, -⟩ := h
      rw [← hr]
      exact (m.acquire.for_each_ref_top e room ref_min _ _ a ws v a2 ws2 hf).1
    | raise err => simp at h
    | blocked => simp at h
  have hr := key e a ws ret r a1 ws1 h
  refine ⟨?_, hr, ?_⟩
  · rw [hr]
    exact le_foldl_max _ _
  · intro e2 a2 ws2 ret2 r2 a3 ws3 ho h2
    have hr2 := key e2 a2 ws2 ret2 r2 a3 ws3 h2
    have hd : acquire.fetch_missing.depth_range room a2
        = acquire.fetch_missing.depth_range room a := by
      unfold acquire.fetch_missing.depth_range
      rw [ho]
    rw [hr2, hr, ho, hd]

/-- Witness of C26 (amended): the pass over the sample room starts the request
for `$missing` and advances `ref_min` from 0 to 40. -/
theorem m.acquire.fetch_missing_ref_min_witness :
    (acquire.fetch_missing sample.env sample.room { opts := sample.opts }
        [.ready 0 sample.done] 0).1 = .ret (true, 40) ∧
    (0 : Nat) ≤ 40 :=
  ⟨by rfl,
    (m.acquire.fetch_missing_ref_min sample.env sample.room { opts := sample.opts }
      [.ready 0 sample.done] 0 true 40 _ _ (by rfl)).1⟩

/-- C26 (counterexample): with the hint `down.example` the sample fetch layer
refuses the request for `$missing`, and with `$missing` already in flight
`submit` starts nothing: in both passes no backfill is submitted (the pass
returns false and the requests are as before) and `ref_min` advances from 0
to 40, the index of the reference. -/
theorem m.acquire.fetch_missing_advances_unsubmitted :
    (acquire.fetch_missing sample.env sample.room { opts := sample.opts_down } [] 0).1
      = .ret (false, 40) ∧
    (acquire.fetch_missing sample.env sample.room { opts := sample.opts_down }
      [] 0).2.1.requests = [] ∧
    (acquire.fetch_missing sample.env sample.room sample.fetching [] 0).1
      = .ret (false, 40) ∧
    (acquire.fetch_missing sample.env sample.room sample.fetching [] 0).2.1.requests = [] :=
  ⟨by rfl, by rfl, by rfl, by rfl⟩

/-- C27 (amended): within a pass of `fetch_missing` the closure leaves
everything as it is for an entry whose `ref_idx` is below `ref_lo`, below the
`ref_min` of the pass or above `ref_hi`. Nothing records the references seen
during the pass: whether an entry reaches `submit` depends on its `ref_idx`
(and the room and the options) only, so two entries of the same referring
event both reach it or both do not, and one that passes the filters calls
`submit` for its missing event whatever the variables of the pass and the
in-flight list have become. -/
theorem m.acquire.fetch_missing_ref_filter (e : acquire.env) (room : acquire.store)
    (ref_min : Nat) (a : m.acquire) (ws : List acquire.wait) (v : acquire.fetch_missing.vars)
    (missing_id other_id : String) (ref_depth other_depth : Int) (ref_idx : Nat) :
    (ref_idx < a.opts.ref.1 ∨ ref_idx < ref_min ∨ ref_idx > a.opts.ref.2 →
      acquire.fetch_missing.closure e room ref_min (missing_id, ref_depth, ref_idx) v a ws
        = (.ret v, a, ws)) ∧
    (m.acquire.reaches room a.opts ref_min ref_idx = true →
      ∀ (v2 : acquire.fetch_missing.vars) (a2 : m.acquire) (ws2 : List acquire.wait),
        a2.opts = a.opts →
        acquire.fetch_missing.closure e room ref_min (other_id, other_depth, ref_idx) v2 a2 ws2
          = (match acquire.submit e a2 ws2 other_id a2.opts.hint false
              (clamp (m.acquire.gap_of room ref_idx) 1 48) with
            | (.ret submitted, a, ws) =>
              (.ret { ref_top := max v2.ref_top ref_idx, ret := v2.ret || submitted }, a, ws)
            | (.raise err, a, ws) => (.raise err, a, ws)
            | (.blocked, a, ws) => (.blocked, a, ws))) := by
  constructor
  · intro h
    rw [m.acquire.closure_eq, if_neg]
    simp only [m.acquire.reaches, decide_eq_true_eq]
    rintro ⟨h1, h2, -, -⟩
    rcases h with h | h | h
    · exact h1 (Or.inl h)
    · exact h1 (Or.inr h)
    · exact h2 h
  · intro hr v2 a2 ws2 ho
    rw [m.acquire.closure_eq, ho, if_pos hr]

/-- Witness of C27 (amended): in the sample room the reference of index 40
passes the filters, and the closure run for a second missing event of that
reference, with `$missing` in flight, calls `submit` for it. -/
theorem m.acquire.fetch_missing_ref_filter_witness :
    acquire.fetch_missing.closure sample.env sample.room 0 ("$other", 90, 40)
        { ref_top := 40, ret := true } sample.fetching []
      = (match acquire.submit sample.env sample.fetching [] "$other" "hint.example" false 10 with
        | (.ret submitted, a, ws) => (.ret { ref_top := 40, ret := true || submitted }, a, ws)
        | (.raise err, a, ws) => (.raise err, a, ws)
        | (.blocked, a, ws) => (.blocked, a, ws)) :=
  (m.acquire.fetch_missing_ref_filter sample.env sample.room 0 { opts := sample.opts } []
    { ref_top := 0, ret := false } "$missing" "$other" 90 90 40).2 (by decide)
    { ref_top := 40, ret := true } sample.fetching [] rfl

/-- C27 (counterexample): the event of index 40 of the sample room refers to
the two missing events `$m1` and `$m2`; one pass enumerates both and starts a
backfill for each. -/
theorem m.acquire.fetch_missing_same_ref_twice :
    sample.room_two.missing (acquire.fetch_missing.depth_range sample.room_two
        { opts := sample.opts })
      = [(("$m1", 90, 40), false), (("$m2", 90, 40), false)] ∧
    (acquire.fetch_missing sample.env sample.room_two { opts := sample.opts }
        [.ready 0 sample.done, .ready 0 sample.done] 0).1 = .ret (true, 40) ∧
    (acquire.fetch_missing sample.env sample.room_two { opts := sample.opts }
        [.ready 0 sample.done, .ready 0 sample.done] 0).2.1.requests.map
          (fun r => (r.event_id, r.backfill_limit))
      = [("$m1", 10), ("$m2", 10)] :=
  ⟨by rfl, by rfl, by rfl⟩

/-! ## Room creation: the events of a preset and the errors array -/

/-- C21 (amended): for a request with the preset `public_chat` and no name,
topic, invite, initial state, power level override, `guest_can_join` or
visibility, when every call returns, `m::create` returns the room having
committed exactly four events: `m.room.create`, the creator's join,
`m.room.power_levels` (the composed default content) and `m.room.join_rules`
with `join_rule` `public`. It sends no `m.room.history_visibility` and no
`m.room.guest_access`: their values `shared` and `forbidden` are the ones it
does not send. The errors array is left as it was passed. -/
theorem m.create_public_chat (e : m.create.env) (c : m.createroom)
    (errors : Option (List String)) (creator room_id : String)
    (hcreator : c.creator = some creator) (hroom : c.room_id = some room_id)
    (hpreset : c.preset = "public_chat") (hname : c.name = "") (htopic : c.topic = "")
    (hinvite : c.invite = []) (hstate : c.initial_state = [])
    (hover : c.power_level_content_override = none) (hguest : c.guest_can_join = false)
    (hvis : c.visibility = "") (hall : ∀ calls call, e.raises calls call = none) :
    (m.create e c errors).1 = .ok room_id ∧
    m.create.events (m.create e c errors).2
      = [.eval (m._create_event.event room_id creator)
            (m._create_event.content c creator
              (if c.room_version ≠ "" then c.room_version else e.version_default))
            (if c.room_version ≠ "" then c.room_version else e.version_default),
          .join room_id creator,
          .send room_id creator "m.room.power_levels" ""
            (.obj (e.compose_content [(creator, e.creator_level)])),
          .send room_id creator "m.room.join_rules" ""
            (.obj [("join_rule", .str "public")])] ∧
    (m.create.events (m.create e c errors).2).length = 4 ∧
    (m.create e c errors).2.errors = errors := by
  have hsp : spec_preset "public_chat" = true := by decide
  have hrun : ∀ (call : m.create.call) (st : m.create.state),
      m.create.run e call st = (.ok (), { st with calls := st.calls ++ [(call, none)] }) := by
    intro call st
    simp [m.create.run, hall]
  have hc : m.create e c errors = (.ok room_id,
      { calls := [(.eval (m._create_event.event room_id creator)
            (m._create_event.content c creator
              (if c.room_version ≠ "" then c.room_version else e.version_default))
            (if c.room_version ≠ "" then c.room_version else e.version_default), none),
          (.join room_id creator, none),
          (.compose_content [(creator, e.creator_level)], none),
          (.send room_id creator "m.room.power_levels" ""
            (.obj (e.compose_content [(creator, e.creator_level)])), none),
          (.send room_id creator "m.room.join_rules" ""
            (.obj [("join_rule", .str "public")]), none)],
        errors := errors }) := by
    simp [m.create, m.create.body, m._create_event, tuple_at, hcreator, hroom, hrun,
      m.create.seq, m.create.join, m.create.rest, m.create.power_levels,
      m.create.power_levels.users, m.create.join_rules, m.create.history_visibility,
      m.create.history_visibility.value, m.create.guest_access, m.create.guest_access.value,
      m.create.initial_state, m.create.name, m.create.topic, m.create.invite,
      m.create.guest_can_join, m.create.visibility, m.create.try_catch, m.create.skip,
      hpreset, hname, htopic, hinvite, hstate, hover, hguest, hvis, hsp]
  rw [hc]
  exact ⟨rfl, rfl, rfl, rfl⟩

/-- Witness of C21 (amended): the sample request with every call returning. -/
theorem m.create_public_chat_witness :
    (m.create (sample.create_env (fun _ => none)) sample.createroom (some [])).1
      = .ok "!new:example.org" ∧
    (m.create.events (m.create (sample.create_env (fun _ => none)) sample.createroom
      (some [])).2).length = 4 ∧
    (m.create (sample.create_env (fun _ => none)) sample.createroom (some [])).2.errors
      = some [] :=
  ⟨(m.create_public_chat (sample.create_env (fun _ => none)) sample.createroom (some [])
      "@alice:example.org" "!new:example.org" rfl rfl rfl rfl rfl rfl rfl rfl rfl rfl
      (fun _ _ => rfl)).1,
    (m.create_public_chat (sample.create_env (fun _ => none)) sample.createroom (some [])
      "@alice:example.org" "!new:example.org" rfl rfl rfl rfl rfl rfl rfl rfl rfl rfl
      (fun _ _ => rfl)).2.2.1,
    (m.create_public_chat (sample.create_env (fun _ => none)) sample.createroom (some [])
      "@alice:example.org" "!new:example.org" rfl rfl rfl rfl rfl rfl rfl rfl rfl rfl
      (fun _ _ => rfl)).2.2.2⟩

/-- C21 (counterexample): for the sample `public_chat` request, with every
call returning, the events committed are the four of `m.room.create`, the
join, `m.room.power_levels` and `m.room.join_rules`, not five. -/
theorem m.create_public_chat_four_events :
    sample.createroom.preset = "public_chat" ∧
    m.create.events (m.create (sample.create_env (fun _ => none)) sample.createroom
        (some [])).2
      = [.eval [("type", .str "m.room.create"), ("state_key", .str ""),
            ("sender", .str "@alice:example.org"), ("depth", .lit "0"),
            ("room_id", .str "!new:example.org")]
          [("room_version", .str "5"), ("type", .str "public_chat"),
            ("creator", .str "@alice:example.org")] "5",
        .join "!new:example.org" "@alice:example.org",
        .send "!new:example.org" "@alice:example.org" "m.room.power_levels" ""
          (.obj [("users", .obj [("@alice:example.org", .lit "100")]),
            ("users_default", .lit "0")]),
        .send "!new:example.org" "@alice:example.org" "m.room.join_rules" ""
          (.obj [("join_rule", .str "public")])] ∧
    (m.create (sample.create_env (fun _ => none)) sample.createroom (some [])).2.errors
      = some [] :=
  ⟨rfl, by rfl, by rfl⟩

/-- C22 (the code): once `m.room.create` has been committed, a failure of the
creator's join, which is outside any handler, propagates (a `db::not_found`
as the `m::error` of a room in use) and is not reported. When the join has
returned or is not made, every later call that raises (for the power levels,
the join rules, an initial state event, the name, the topic, an invitation,
the guest access, the room directory) is reported: as many messages are
appended to the errors array, if there is one, as calls raised; and
`m::create` returns the room, except in a direct room when an invitation
raises an `m::error`, which is reported and rethrown. -/
theorem m.create_reports_failures (e : m.create.env) (c : m.createroom)
    (errors : Option (List String)) (creator room_id : String)
    (hcreator : c.creator = some creator) (hroom : c.room_id = some room_id)
    (heval : e.raises [] (m.create.eval_call e c creator room_id) = none) :
    (((c.preset = "" ∨ spec_preset c.preset = true) →
        e.raises [(m.create.eval_call e c creator room_id, none)] (.join room_id creator)
          = none) →
      ((m.create e c errors).1 = .ok room_id ∨
        (c.is_direct = true ∧ ∃ err, err.is_m = true ∧ (m.create e c errors).1 = .error err)) ∧
      (c.is_direct = false → (m.create e c errors).1 = .ok room_id) ∧
      ∃ msgs, (m.create e c errors).2.errors = errors.map (fun l => l ++ msgs) ∧
        msgs.length = m.create.failures (m.create e c errors).2.calls) ∧
    (∀ err, c.preset = "" ∨ spec_preset c.preset = true →
      e.raises [(m.create.eval_call e c creator room_id, none)] (.join room_id creator)
        = some err →
      (m.create e c errors).1
        = .error (if err = .db_not_found
            then .m 409 "M_ROOM_IN_USE" "The desired room name is in use." else err) ∧
      (m.create e c errors).2.errors = errors ∧
      (m.create e c errors).2.calls
        = [(m.create.eval_call e c creator room_id, none),
            (.join room_id creator, some err)]) := by
  have hce : m._create_event e c { errors := errors }
      = (.ok room_id, m.create.created e c creator room_id errors) := by
    unfold m._create_event m.create.run
    simp only [tuple_at, hcreator, hroom]
    have heval2 := heval
    unfold m.create.eval_call at heval2
    rw [heval2]
    rfl
  constructor
  · intro hjoin
    have hj : m.create.join e room_id creator c.preset
          (m.create.created e c creator room_id errors)
        = (.ok (), m.create.joined e c creator room_id errors) := by
      unfold m.create.join m.create.joined m.create.created
      by_cases hp : c.preset = "" ∨ spec_preset c.preset = true
      · simp [hp, m.create.run, hjoin hp]
      · simp [hp, m.create.skip]
    obtain ⟨hres, added, msgs, hcalls, herrs, hlen⟩ := m.create.records_rest e c room_id creator
      (m.create.joined e c creator room_id errors)
    have hfail : m.create.failures (m.create.joined e c creator room_id errors).calls = 0 := by
      unfold m.create.joined
      dsimp only
      split_ifs <;> rfl
    have hc : m.create e c errors
        = (match m.create.rest e c room_id creator
            (m.create.joined e c creator room_id errors) with
          | (.ok _, st) => (.ok room_id, st)
          | (.error .db_not_found, st) =>
            (.error (.m 409 "M_ROOM_IN_USE" "The desired room name is in use."), st)
          | (.error err, st) => (.error err, st)) := by
      unfold m.create m.create.body
      simp only [tuple_at, hcreator, hce, m.create.seq, hj]
      rcases m.create.rest e c room_id creator
        (m.create.joined e c creator room_id errors) with ⟨r, st⟩
      cases r with
      | ok u => rfl
      | error err => cases err <;> rfl
    rw [hc]
    rcases hrest : m.create.rest e c room_id creator
      (m.create.joined e c creator room_id errors) with ⟨r, st⟩
    rw [hrest] at hres hcalls herrs
    simp only at hres hcalls herrs
    have hmsgs : ∀ st1 : m.create.state, st1 = st →
        ∃ msgs, st1.errors = errors.map (fun l => l ++ msgs) ∧
          msgs.length = m.create.failures st1.calls := by
      intro st1 h1
      subst h1
      refine ⟨msgs, herrs, ?_⟩
      rw [hcalls, m.create.failures_append, hfail, hlen, Nat.zero_add]
    cases r with
    | ok u => exact ⟨Or.inl rfl, fun _ => rfl, hmsgs _ rfl⟩
    | error err =>
      rcases hres with hres | ⟨hd, err2, hm, herr⟩
      · simp at hres
      · simp only [Except.error.injEq] at herr
        subst herr
        cases err <;> simp [error.is_m] at hm <;>
          exact ⟨Or.inr ⟨hd, _, by rfl, rfl⟩, fun h => by simp [hd] at h, hmsgs _ rfl⟩
  · intro err hp hjoin
    have hj : m.create.join e room_id creator c.preset
          (m.create.created e c creator room_id errors)
        = (.error err, { calls := [(m.create.eval_call e c creator room_id, none),
            (.join room_id creator, some err)], errors := errors }) := by
      unfold m.create.join m.create.created
      simp [hp, m.create.run, hjoin]
    unfold m.create m.create.body
    simp only [tuple_at, hcreator, hce, m.create.seq, hj]
    cases err <;> simp

/-- Witness of C22 (the failing input): when the creator's join raises,
`m::create` raises it, the room is not returned and the errors array stays
empty. When instead the events of the power levels and of the join rules are
refused, it returns the room and the errors array holds the two messages; and
in a direct room, when the invitation is refused with an `m::error`, the
message is appended and the error is raised. -/
theorem m.create_reports_failures_witness :
    (m.create (sample.create_env sample.join_fails) sample.createroom (some [])).1
      = .error (.other "join failed") ∧
    (m.create (sample.create_env sample.join_fails) sample.createroom (some [])).2.errors
      = some [] ∧
    (m.create (sample.create_env sample.sends_fail) sample.createroom (some [])).1
      = .ok "!new:example.org" ∧
    (m.create (sample.create_env sample.sends_fail) sample.createroom (some [])).2.errors
      = some ["Failed to set power_levels: %s | denied",
          "Failed to set join_rules: %s | denied"] ∧
    sample.createroom_direct.is_direct = true ∧
    (m.create (sample.create_env sample.invites_fail) sample.createroom_direct (some [])).1
      = .error (.m 403 "M_FORBIDDEN" "not allowed") ∧
    (m.create (sample.create_env sample.invites_fail) sample.createroom_direct
      (some [])).2.errors
      = some ["Failed to invite user '%s' :%s :%s :%s | @bob:example.org | not allowed" ++
          " | M_FORBIDDEN | not allowed"] :=
  ⟨((m.create_reports_failures (sample.create_env sample.join_fails) sample.createroom
      (some []) "@alice:example.org" "!new:example.org" rfl rfl rfl).2
      (.other "join failed") (Or.inr rfl) rfl).1,
    ((m.create_reports_failures (sample.create_env sample.join_fails) sample.createroom
      (some []) "@alice:example.org" "!new:example.org" rfl rfl rfl).2
      (.other "join failed") (Or.inr rfl) rfl).2.1,
    ((m.create_reports_failures (sample.create_env sample.sends_fail) sample.createroom
      (some []) "@alice:example.org" "!new:example.org" rfl rfl rfl).1 (fun _ => rfl)).2.1 rfl,
    by rfl, rfl, by rfl, by rfl⟩


end ircd
